import Mathlib

/-!
# Process table and scheduling core: a shallow embedding

The definitions below follow `kernel/proc.c` and `kernel/sysproc.c`.

* The process table `proc[NPROC]` is a `List Proc`; a slot pointer `struct proc *`
  is the index of the slot, and a null slot pointer is `none`.
* `int` fields are `Int`; the `uint64` value a system call returns is the
  natural number `toU64 v`.
* `pagetable`, `trapframe` and the other addresses are natural numbers, `0` being
  the null pointer.
* Spinlocks, interrupts and `swtch` are not part of the data: every function is
  the sequential effect of the C function on the table.
* `myproc()` is an explicit argument `self`, the index of the calling slot.
-/

namespace Xv6

/-- The `enum procstate` of a slot. -/
inductive procstate where
  | UNUSED
  | USED
  | SLEEPING
  | RUNNABLE
  | RUNNING
  | ZOMBIE
  deriving DecidableEq, Repr

open procstate

/-- The user registers of `struct trapframe` that `proc.c` writes by name; the
remaining saved registers are kept together in `regs`. -/
structure Trapframe where
  epc : Nat
  sp : Nat
  a0 : Nat
  a1 : Nat
  regs : List Nat
  deriving DecidableEq, Repr

/-- A wakeup channel `void *chan`: the address of a process slot, or some other
kernel address. -/
inductive Chan where
  | slot (i : Nat)
  | addr (a : Nat)
  deriving DecidableEq, Repr

/-- One entry of `struct proc proc[NPROC]`. `frame` is the content of the page
`trapframe` points to. -/
structure Proc where
  state : procstate
  chan : Option Chan
  killed : Int
  xstate : Int
  pid : Int
  parent : Option Nat
  kstack : Nat
  sz : Nat
  pagetable : Nat
  trapframe : Nat
  frame : Trapframe
  ofile : List Nat
  cwd : Nat
  name : List Char
  user_stack : Nat
  level : Int
  ticks_used : Int
  priority : Int
  deriving DecidableEq, Repr

/-- The globals of `proc.c` together with the console the kernel prints to. -/
structure Kernel where
  proc : List Proc
  nextpid : Int
  initproc : Option Nat
  scheduling_mode : Int
  new_tick : Int
  console : List String
  deriving DecidableEq, Repr

/-- A zero-initialised slot, as every entry of the static array `proc` is at boot. -/
def zeroProc : Proc :=
  { state := UNUSED, chan := none, killed := 0, xstate := 0, pid := 0, parent := none,
    kstack := 0, sz := 0, pagetable := 0, trapframe := 0,
    frame := { epc := 0, sp := 0, a0 := 0, a1 := 0, regs := [] },
    ofile := [], cwd := 0, name := [], user_stack := 0,
    level := 0, ticks_used := 0, priority := 0 }

/-- Conversion of an `int` to the `uint64` a system call returns. -/
def toU64 (v : Int) : Nat := (v % 2 ^ 64).toNat

/-- The slot at index `i`, as `proc[i]`. -/
def slotAt (t : List Proc) (i : Nat) : Option Proc := t[i]?

/-- The read `q->pid` through the slot pointer `e`. -/
def pidAt (t : List Proc) (e : Nat) : Int :=
  match slotAt t e with
  | some q => q.pid
  | none => 0

/-! ## The scheduler's selection scans (`scheduler`, proc.c) -/

/-- The FCFS loop of `scheduler`: `rest` is the part of the table still to visit,
`i` the index of its head and `earliest` the candidate found so far. -/
def fcfs_loop (t : List Proc) : List Proc → Nat → Option Nat → Option Nat
  | [], _, earliest => earliest
  | p :: rest, i, earliest =>
    if p.state = RUNNABLE then
      match earliest with
      | none => fcfs_loop t rest (i + 1) (some i)
      | some e =>
        if p.pid < pidAt t e then fcfs_loop t rest (i + 1) (some i)
        else fcfs_loop t rest (i + 1) (some e)
    else fcfs_loop t rest (i + 1) earliest

/-- The slot the FCFS branch of `scheduler` ends up with in `earliest`. -/
def fcfs_select (t : List Proc) : Option Nat := fcfs_loop t t 0 none

/-- One pass `for (p = proc; ...)` of the round-robin part of the MLFQ branch for a
fixed `level`: the first RUNNABLE slot of that level. -/
def mlfq_level_scan (level : Int) : List Proc → Nat → Option Nat
  | [], _ => none
  | p :: rest, i =>
    if p.state = RUNNABLE ∧ p.level = level then some i
    else mlfq_level_scan level rest (i + 1)

/-- The loop `for (int level = 0; level < 2; level++)` of the MLFQ branch. -/
def mlfq_rr (t : List Proc) : Option Nat :=
  match mlfq_level_scan 0 t 0 with
  | some i => some i
  | none => mlfq_level_scan 1 t 0

/-- The L2 loop of the MLFQ branch; `selected` and `priority` are the two locals. -/
def mlfq_l2_loop : List Proc → Nat → Option Nat → Int → Option Nat
  | [], _, selected, _ => selected
  | p :: rest, i, selected, priority =>
    if p.state = RUNNABLE ∧ p.level = 2 then
      if selected = none ∨ p.priority > priority then
        mlfq_l2_loop rest (i + 1) (some i) p.priority
      else mlfq_l2_loop rest (i + 1) selected priority
    else mlfq_l2_loop rest (i + 1) selected priority

/-- The slot the MLFQ branch of `scheduler` ends up with in `selected`. -/
def mlfq_select (t : List Proc) : Option Nat :=
  match mlfq_rr t with
  | some i => some i
  | none => mlfq_l2_loop t 0 none (-1)

/-- The selection of one round of `scheduler`: FCFS when `scheduling_mode == 0`,
MLFQ otherwise. -/
def scheduler_select (k : Kernel) : Option Nat :=
  if k.scheduling_mode = 0 then fcfs_select k.proc else mlfq_select k.proc

/-! ## Scheduling system calls (sysproc.c) -/

/-- The table loop of `sys_setpriority`: the first slot whose `pid` field equals
`pid` receives the new priority; `none` when the loop runs off the table. -/
def setpriority_loop (pid priority_new : Int) : List Proc → Option (List Proc)
  | [] => none
  | p :: rest =>
    if p.pid = pid then some ({ p with priority := priority_new } :: rest)
    else
      match setpriority_loop pid priority_new rest with
      | some rest' => some (p :: rest')
      | none => none

/-- The system call `sys_setpriority`, with the two `argint` arguments given. -/
def sys_setpriority (k : Kernel) (pid priority_new : Int) : Nat × Kernel :=
  if priority_new < 0 ∨ priority_new > 3 then (toU64 (-2), k)
  else
    match setpriority_loop pid priority_new k.proc with
    | some t => (toU64 0, { k with proc := t })
    | none => (toU64 (-1), k)

/-- The loop body of `sys_mlfqmode` on one slot. -/
def mlfqmode_slot (p : Proc) : Proc :=
  if p.state = RUNNABLE ∨ p.state = SLEEPING then
    { p with level := 0, ticks_used := 0, priority := 3 }
  else p

/-- The system call `sys_mlfqmode`. -/
def sys_mlfqmode (k : Kernel) : Nat × Kernel :=
  if k.scheduling_mode = 1 then
    (toU64 (-1), { k with console := k.console ++ ["Error: already in MLFQ mode\n"] })
  else
    (toU64 0, { k with proc := k.proc.map mlfqmode_slot, scheduling_mode := 1, new_tick := 0 })

/-- The loop body of `sys_fcfsmode` on one slot. -/
def fcfsmode_slot (p : Proc) : Proc :=
  if p.state = RUNNABLE ∨ p.state = SLEEPING then
    { p with level := -1, ticks_used := -1, priority := -1 }
  else p

/-- The system call `sys_fcfsmode`. -/
def sys_fcfsmode (k : Kernel) : Nat × Kernel :=
  if k.scheduling_mode = 0 then
    (toU64 (-1), { k with console := k.console ++ ["Error: already in FCFS mode\n"] })
  else
    (toU64 0, { k with proc := k.proc.map fcfsmode_slot, scheduling_mode := 0, new_tick := 0 })

/-- The system call `sys_getlev` made by the process in slot `self`; `none` when
`self` is not a slot of the table. -/
def sys_getlev (k : Kernel) (self : Nat) : Option Nat :=
  if k.scheduling_mode = 0 then some 99
  else
    match slotAt k.proc self with
    | some p => some (toU64 p.level)
    | none => none

/-- The loop body of `boost_priority_all` on one slot. -/
def boost_slot (p : Proc) : Proc :=
  if p.state = RUNNABLE ∨ p.state = RUNNING ∨ p.state = SLEEPING then
    { p with level := 0, ticks_used := 0, priority := 3 }
  else p

/-- The function `boost_priority_all`. -/
def boost_priority_all (k : Kernel) : Kernel :=
  { k with proc := k.proc.map boost_slot }

/-! ## kill (proc.c) -/

/-- The outer loop of `kill`: the first slot whose `pid` field equals `pid`. -/
def kill_target (pid : Int) : List Proc → Option Proc
  | [] => none
  | p :: rest => if p.pid = pid then some p else kill_target pid rest

/-- The inner loop body of `kill` on one slot `q`. -/
def kill_slot (target_pagetable : Nat) (q : Proc) : Proc :=
  if q.pagetable = target_pagetable then
    if q.state = SLEEPING then { q with killed := 1, state := RUNNABLE }
    else { q with killed := 1 }
  else q

/-- The function `kill`. -/
def kill (k : Kernel) (pid : Int) : Int × Kernel :=
  match kill_target pid k.proc with
  | some p => (0, { k with proc := k.proc.map (kill_slot p.pagetable) })
  | none => (-1, k)

/-- The function `setkilled` on slot `i`: `p->killed = 1`. -/
def setkilled (k : Kernel) (i : Nat) : Kernel :=
  { k with proc := k.proc.modify (fun p => { p with killed := 1 }) i }

/-! ## freeproc, wait and join (proc.c) -/

/-- The function `freeproc` on the slot it is given. The pages themselves are
released by `kfree` and `proc_freepagetable`, outside the table. -/
def freeproc (p : Proc) : Proc :=
  { p with trapframe := 0, pagetable := 0, sz := 0, pid := 0, parent := none,
           name := [], chan := none, killed := 0, xstate := 0, state := UNUSED }

/-- The record of a successful `copyout(pagetable, dstva, src, len)`: `len` bytes
holding `value` now stand at `dstva` in address space `pagetable`. -/
structure UserWrite where
  pagetable : Nat
  dstva : Nat
  value : Int
  len : Nat
  deriving DecidableEq, Repr

/-- How one pass of the `for(;;)` loop of `wait` or `join` ends: with a `return`, or
in `sleep(p, &wait_lock)`, after which the loop starts over. -/
inductive WaitResult where
  | ret (v : Int) (k : Kernel) (out : Option UserWrite)
  | sleeping (k : Kernel)
  deriving DecidableEq, Repr

/-- The table scan of `wait` and `join`: the first slot with `parent == self` that is
a ZOMBIE, and the flag `havekids`. -/
def wait_scan (self : Nat) : List Proc → Nat → Bool → Option (Nat × Proc) × Bool
  | [], _, havekids => (none, havekids)
  | pp :: rest, i, havekids =>
    if pp.parent = some self then
      if pp.state = ZOMBIE then (some (i, pp), true)
      else wait_scan self rest (i + 1) true
    else wait_scan self rest (i + 1) havekids

/-- The first half of `sleep(chan, lk)` for the process in slot `self`, up to the
call of `sched`. -/
def sleep (k : Kernel) (self : Nat) (chan : Chan) : Kernel :=
  { k with proc := k.proc.modify (fun p => { p with chan := some chan, state := SLEEPING }) self }

/-- The rest of `sleep` once the process runs again: `p->chan = 0`. -/
def sleep_return (k : Kernel) (self : Nat) : Kernel :=
  { k with proc := k.proc.modify (fun p => { p with chan := none }) self }

/-- The function `wait(addr)` called by the process in slot `self`, one pass of its
loop. `copyout` is the result (0 or -1) of the virtual-memory routine for a page
table, destination and length. -/
def wait (copyout : Nat → Nat → Nat → Int) (k : Kernel) (self : Nat) (addr : Nat) :
    Option WaitResult :=
  match slotAt k.proc self with
  | none => none
  | some p =>
    match wait_scan self k.proc 0 false with
    | (some (i, pp), _) =>
      if addr ≠ 0 ∧ copyout p.pagetable addr 4 < 0 then
        some (WaitResult.ret (-1) k none)
      else
        some (WaitResult.ret pp.pid { k with proc := k.proc.set i (freeproc pp) }
          (if addr ≠ 0 then some ⟨p.pagetable, addr, pp.xstate, 4⟩ else none))
    | (none, havekids) =>
      if havekids = false ∨ p.killed ≠ 0 then some (WaitResult.ret (-1) k none)
      else some (WaitResult.sleeping (sleep k self (Chan.slot self)))

/-- The function `join(stack)` called by the process in slot `self`, one pass of its
loop. The child is freed before the `copyout`, and `curproc->pagetable` is read
after it. -/
def join (copyout : Nat → Nat → Nat → Int) (k : Kernel) (self : Nat) (stack : Nat) :
    Option WaitResult :=
  match slotAt k.proc self with
  | none => none
  | some curproc =>
    match wait_scan self k.proc 0 false with
    | (some (i, p), _) =>
      let k' : Kernel := { k with proc := k.proc.set i (freeproc p) }
      let pagetable := match slotAt k'.proc self with
        | some c => c.pagetable
        | none => 0
      if copyout pagetable stack 8 < 0 then some (WaitResult.ret (-1) k' none)
      else some (WaitResult.ret p.pid k' (some ⟨pagetable, stack, p.user_stack, 8⟩))
    | (none, children_) =>
      if children_ = false ∨ curproc.killed ≠ 0 then some (WaitResult.ret (-1) k none)
      else some (WaitResult.sleeping (sleep k self (Chan.slot self)))

/-- The `int` a user program reads from the `uint64` a system call returned: the low
32 bits, two's complement. -/
def retInt (r : Nat) : Int :=
  if r % 2 ^ 32 < 2 ^ 31 then ((r % 2 ^ 32 : Nat) : Int) else ((r % 2 ^ 32 : Nat) : Int) - 2 ^ 32

/-! ## Process creation (proc.c) -/

/-- Modelled from the spec: `PGSIZE`, the size of one page, defined in a header that
is not among the sources; the user threads library allocates `4096` bytes as one
page. -/
def PGSIZE : Nat := 4096

/-- The results of the allocator calls one `allocproc` makes: `kalloc()` for the
trapframe page and, inside `proc_pagetable`, `uvmcreate()` and the two `mappages`
calls for the trampoline and the trapframe. A null pointer is 0, a failed
`mappages` is negative. -/
structure AllocEnv where
  kalloc : Nat
  uvmcreate : Nat
  map_trampoline : Int
  map_trapframe : Int
  deriving DecidableEq, Repr

/-- The function `proc_pagetable`: the new page table, or 0. -/
def proc_pagetable (env : AllocEnv) : Nat :=
  if env.uvmcreate = 0 then 0
  else if env.map_trampoline < 0 then 0
  else if env.map_trapframe < 0 then 0
  else env.uvmcreate

/-- The scan of `allocproc` for the first UNUSED slot. -/
def find_unused : List Proc → Nat → Option Nat
  | [], _ => none
  | p :: rest, i => if p.state = UNUSED then some i else find_unused rest (i + 1)

/-- The function `allocpid`. -/
def allocpid (k : Kernel) : Int × Kernel :=
  (k.nextpid, { k with nextpid := k.nextpid + 1 })

/-- The writes of `allocproc` at `found:` up to the trapframe allocation. -/
def allocproc_init (pid : Int) (env : AllocEnv) (p : Proc) : Proc :=
  { p with pid := pid, state := USED, level := 0, ticks_used := 0, priority := 3,
           trapframe := env.kalloc }

/-- The function `allocproc`: the index of the slot claimed, or `none`, and the new
state. The saved kernel context is not part of the model. -/
def allocproc (k : Kernel) (env : AllocEnv) : Option Nat × Kernel :=
  match find_unused k.proc 0 with
  | none => (none, k)
  | some i =>
    let k1 := (allocpid k).2
    let pid := (allocpid k).1
    if env.kalloc = 0 then
      (none, { k1 with proc := k1.proc.modify (fun p => freeproc (allocproc_init pid env p)) i })
    else if proc_pagetable env = 0 then
      (none, { k1 with proc := (k1.proc.modify
        (fun p => freeproc { allocproc_init pid env p with pagetable := 0 }) i) })
    else
      (some i, { k1 with proc := (k1.proc.modify
        (fun p => { allocproc_init pid env p with pagetable := proc_pagetable env }) i) })

/-- The loop `if(p->ofile[i]) np->ofile[i] = filedup(p->ofile[i])`; `filedup`
returns the file it is given. -/
def dup_files : List Nat → List Nat → List Nat
  | [], gs => gs
  | f :: fs, [] => f :: dup_files fs []
  | f :: fs, g :: gs => (if f ≠ 0 then f else g) :: dup_files fs gs

/-- The function `fork` called by the process in slot `self`; `uvmcopy` is the
result of the call `uvmcopy(p->pagetable, np->pagetable, p->sz)`. -/
def fork (k : Kernel) (self : Nat) (env : AllocEnv) (uvmcopy : Int) : Option (Int × Kernel) :=
  match allocproc k env with
  | (none, k1) => some (-1, k1)
  | (some i, k1) =>
    match slotAt k1.proc self with
    | none => none
    | some p =>
      if uvmcopy < 0 then some (-1, { k1 with proc := k1.proc.modify freeproc i })
      else
        some (pidAt k1.proc i, { k1 with proc := k1.proc.modify (fun np =>
          { np with sz := p.sz, frame := { p.frame with a0 := 0 },
                    ofile := dup_files p.ofile np.ofile, cwd := p.cwd, name := p.name,
                    parent := some self, state := RUNNABLE }) i })

/-- The function `clone` called by the process in slot `self`. The new slot keeps
the page table `allocproc` gave it; `uvmcopy` is the result of the copy into it. -/
def clone (k : Kernel) (self : Nat) (env : AllocEnv) (uvmcopy : Int)
    (fcn arg1 arg2 stack : Nat) : Option (Int × Kernel) :=
  match allocproc k env with
  | (none, k1) => some (-1, k1)
  | (some i, k1) =>
    match slotAt k1.proc self with
    | none => none
    | some p =>
      if uvmcopy < 0 then some (-1, { k1 with proc := k1.proc.modify freeproc i })
      else
        some (pidAt k1.proc i, { k1 with proc := k1.proc.modify (fun np =>
          { np with sz := p.sz, user_stack := stack,
                    frame := { p.frame with epc := fcn, sp := (stack + PGSIZE) % 2 ^ 64,
                                            a0 := arg1, a1 := arg2 },
                    ofile := dup_files p.ofile np.ofile, cwd := p.cwd,
                    state := RUNNABLE, name := p.name, parent := some self }) i })

/-- The function `procinit` for a table of `nproc` slots; `KSTACK` is the macro of
the same name. -/
def procinit (KSTACK : Nat → Nat) (nproc : Nat) : List Proc :=
  (List.range nproc).map (fun i => { zeroProc with state := UNUSED, kstack := KSTACK i })

/-- The kernel state after `procinit`, with the initial values of the globals. -/
def boot (KSTACK : Nat → Nat) (nproc : Nat) : Kernel :=
  { proc := procinit KSTACK nproc, nextpid := 1, initproc := none, scheduling_mode := 0,
    new_tick := 0, console := [] }

/-- The function `userinit`; `root` is the inode `namei("/")` returns. `none` when
`allocproc` returns 0, which the C code dereferences. -/
def userinit (k : Kernel) (env : AllocEnv) (root : Nat) : Option Kernel :=
  match allocproc k env with
  | (none, _) => none
  | (some i, k1) =>
    some { k1 with initproc := some i, proc := k1.proc.modify (fun p =>
      { p with sz := PGSIZE, frame := { p.frame with epc := 0, sp := PGSIZE },
               name := ['i', 'n', 'i', 't', 'c', 'o', 'd', 'e'], cwd := root,
               state := RUNNABLE }) i }

/-! ## Scheduler round, yield and wakeup (proc.c) -/

/-- One round of the loop of `scheduler`: the slot selected, if any, becomes
RUNNING and the CPU switches to it. -/
def scheduler_round (k : Kernel) : Option Nat × Kernel :=
  match scheduler_select k with
  | some i => (some i, { k with proc := k.proc.modify (fun p => { p with state := RUNNING }) i })
  | none => (none, k)

/-- The function `yield` of the process in slot `self`, up to its call of `sched`. -/
def yield (k : Kernel) (self : Nat) : Kernel :=
  { k with proc := k.proc.modify (fun p => { p with state := RUNNABLE }) self }

/-- The loop of `wakeup(chan)`; `self` is `myproc()`, which may be null. -/
def wakeup_loop (self : Option Nat) (chan : Chan) : List Proc → Nat → List Proc
  | [], _ => []
  | p :: rest, i =>
    (if some i ≠ self then
      (if p.state = SLEEPING ∧ p.chan = some chan then { p with state := RUNNABLE } else p)
     else p) :: wakeup_loop self chan rest (i + 1)

/-- The function `wakeup`. -/
def wakeup (k : Kernel) (self : Option Nat) (chan : Chan) : Kernel :=
  { k with proc := wakeup_loop self chan k.proc 0 }

/-! ## Runs of the system on one CPU -/

/-- The process in slot `self` is the one running. -/
def isRunning (k : Kernel) (self : Nat) : Prop :=
  ∃ p, slotAt k.proc self = some p ∧ p.state = RUNNING

/-- No slot is RUNNING: the CPU is in its scheduler loop. -/
def idle (k : Kernel) : Prop := ∀ p ∈ k.proc, p.state ≠ RUNNING

instance idleDecidable (k : Kernel) : Decidable (idle k) :=
  inferInstanceAs (Decidable (∀ p ∈ k.proc, p.state ≠ RUNNING))

/-- One step of the system with a single CPU: a scheduler round when the CPU is
idle, a call made by the running process, or the timer's priority boost. -/
inductive Step : Kernel → Kernel → Prop where
  | dispatch (k : Kernel) : idle k → Step k (scheduler_round k).2
  | fork (k : Kernel) (self : Nat) (env : AllocEnv) (uvmcopy : Int) (r : Int) (k' : Kernel) :
      isRunning k self → fork k self env uvmcopy = some (r, k') → Step k k'
  | clone (k : Kernel) (self : Nat) (env : AllocEnv) (uvmcopy : Int) (fcn arg1 arg2 stack : Nat)
      (r : Int) (k' : Kernel) :
      isRunning k self → clone k self env uvmcopy fcn arg1 arg2 stack = some (r, k') → Step k k'
  | yield (k : Kernel) (self : Nat) : isRunning k self → Step k (yield k self)
  | sleep (k : Kernel) (self : Nat) (chan : Chan) : isRunning k self → Step k (sleep k self chan)
  | sleep_return (k : Kernel) (self : Nat) : isRunning k self → Step k (sleep_return k self)
  | wakeup (k : Kernel) (self : Nat) (chan : Chan) :
      isRunning k self → Step k (wakeup k (some self) chan)
  | mlfqmode (k : Kernel) (self : Nat) : isRunning k self → Step k (sys_mlfqmode k).2
  | fcfsmode (k : Kernel) (self : Nat) : isRunning k self → Step k (sys_fcfsmode k).2
  | setpriority (k : Kernel) (self : Nat) (pid prio : Int) :
      isRunning k self → Step k (sys_setpriority k pid prio).2
  | boost (k : Kernel) : Step k (boost_priority_all k)

/-- The states the system reaches from boot (`procinit`, then `userinit`) with a
table of `nproc` slots. -/
inductive Reachable (nproc : Nat) : Kernel → Prop where
  | boot (KSTACK : Nat → Nat) (env : AllocEnv) (root : Nat) (k : Kernel) :
      userinit (boot KSTACK nproc) env root = some k → Reachable nproc k
  | step (k k' : Kernel) : Reachable nproc k → Step k k' → Reachable nproc k'

/-! ## growproc (proc.c) -/

/-- The loop body of `growproc` on one slot `t`: `if (t->pagetable == p->pagetable)
t->sz = sz`. -/
def growproc_slot (pagetable sz : Nat) (t : Proc) : Proc :=
  if t.pagetable = pagetable then { t with sz := sz } else t

/-- The function `growproc(n)` called by the process in slot `self`. `uvmalloc` and
`uvmdealloc` are the sizes the virtual-memory routines of these names return;
`uvmalloc` returns 0 on failure. -/
def growproc (k : Kernel) (self : Nat) (n : Int) (uvmalloc uvmdealloc : Nat) :
    Option (Int × Kernel) :=
  match slotAt k.proc self with
  | none => none
  | some p =>
    if n > 0 then
      if uvmalloc = 0 then some (-1, k)
      else some (0, { k with proc := k.proc.map (growproc_slot p.pagetable uvmalloc) })
    else if n < 0 then
      some (0, { k with proc := k.proc.map (growproc_slot p.pagetable uvmdealloc) })
    else some (0, { k with proc := k.proc.map (growproc_slot p.pagetable p.sz) })

/-! ## exit and reparent (proc.c) -/

/-- The loop of `wakeup(chan)` for a channel pointer that may be null, as the
`initproc` and `p->parent` that `exit` passes may be. -/
def wakeup_ptr_loop (self : Option Nat) (chan : Option Chan) : List Proc → Nat → List Proc
  | [], _ => []
  | p :: rest, i =>
    (if some i ≠ self then
      (if p.state = SLEEPING ∧ p.chan = chan then { p with state := RUNNABLE } else p)
     else p) :: wakeup_ptr_loop self chan rest (i + 1)

/-- The function `wakeup` for a channel pointer that may be null. -/
def wakeup_ptr (k : Kernel) (self : Option Nat) (chan : Option Chan) : Kernel :=
  { k with proc := wakeup_ptr_loop self chan k.proc 0 }

/-- One iteration of the loop of `reparent(p)`, at slot `i`, for `p` the calling
process in slot `self`. -/
def reparent_at (self : Nat) (k : Kernel) (i : Nat) : Kernel :=
  match slotAt k.proc i with
  | none => k
  | some pp =>
    if pp.parent = some self then
      wakeup_ptr { k with proc := k.proc.set i { pp with parent := k.initproc } }
        (some self) (k.initproc.map Chan.slot)
    else k

/-- The first `n` iterations of the loop of `reparent`. -/
def reparent_upto (self : Nat) (k : Kernel) (n : Nat) : Kernel :=
  (List.range n).foldl (reparent_at self) k

/-- The function `reparent(p)` for `p` the calling process in slot `self`. -/
def reparent (k : Kernel) (self : Nat) : Kernel :=
  reparent_upto self k k.proc.length

/-- The loop of `exit` over the open files: every open file is closed and its entry
set to 0. -/
def close_files (ofile : List Nat) : List Nat :=
  ofile.map (fun f => if f ≠ 0 then 0 else f)

/-- The first part of `exit` for the process in slot `self`: its open files are
closed and its `cwd` released. -/
def exit_files (k : Kernel) (self : Nat) : Kernel :=
  { k with proc := k.proc.modify (fun p => { p with ofile := close_files p.ofile, cwd := 0 }) self }

/-- The read `p->parent` of the slot pointer `self`. -/
def parentAt (t : List Proc) (self : Nat) : Option Nat :=
  match slotAt t self with
  | some p => p.parent
  | none => none

/-- The part of `exit` under `wait_lock`: `reparent(p)`, then `wakeup(p->parent)`. -/
def exit_wait_lock (k : Kernel) (self : Nat) : Kernel :=
  wakeup_ptr (reparent k self) (some self)
    ((parentAt (reparent k self).proc self).map Chan.slot)

/-- The function `exit(status)` called by the process in slot `self`, up to its call
of `sched`, from which it does not return. `none` when `self` is `initproc`, where
the C code panics, or not a slot. -/
def exit (k : Kernel) (self : Nat) (status : Int) : Option Kernel :=
  match slotAt k.proc self with
  | none => none
  | some _ =>
    if k.initproc = some self then none
    else
      some { exit_wait_lock (exit_files k self) self with
        proc := (exit_wait_lock (exit_files k self) self).proc.modify
          (fun p => { p with xstate := status, state := ZOMBIE }) self }

/-! ## Runs of the lifecycle operations -/

/-- The process in slot `self` exists: its slot is not UNUSED. -/
def isLive (k : Kernel) (self : Nat) : Prop :=
  ∃ p, slotAt k.proc self = some p ∧ p.state ≠ UNUSED

/-- One lifecycle operation, taken as a whole: `allocproc` (with any outcome of its
allocations), `freeproc` of a slot, `userinit`, and `fork`, `clone`, `exit`, `wait` and
`join` called by an existing process, with any outcome of the memory routines. -/
inductive LifeStep : Kernel → Kernel → Prop where
  | allocproc (k : Kernel) (env : AllocEnv) : LifeStep k (allocproc k env).2
  | freeproc (k : Kernel) (i : Nat) : LifeStep k { k with proc := k.proc.modify freeproc i }
  | userinit (k : Kernel) (env : AllocEnv) (root : Nat) (k' : Kernel) :
      userinit k env root = some k' → LifeStep k k'
  | fork (k : Kernel) (self : Nat) (env : AllocEnv) (uvmcopy : Int) (r : Int) (k' : Kernel) :
      isLive k self → fork k self env uvmcopy = some (r, k') → LifeStep k k'
  | clone (k : Kernel) (self : Nat) (env : AllocEnv) (uvmcopy : Int) (fcn arg1 arg2 stack : Nat)
      (r : Int) (k' : Kernel) :
      isLive k self → clone k self env uvmcopy fcn arg1 arg2 stack = some (r, k') → LifeStep k k'
  | exit (k : Kernel) (self : Nat) (status : Int) (k' : Kernel) :
      isLive k self → exit k self status = some k' → LifeStep k k'
  | wait (copyout : Nat → Nat → Nat → Int) (k : Kernel) (self addr : Nat) (v : Int)
      (k' : Kernel) (out : Option UserWrite) :
      isLive k self → wait copyout k self addr = some (WaitResult.ret v k' out) → LifeStep k k'
  | wait_sleep (copyout : Nat → Nat → Nat → Int) (k : Kernel) (self addr : Nat) (k' : Kernel) :
      isLive k self → wait copyout k self addr = some (WaitResult.sleeping k') → LifeStep k k'
  | join (copyout : Nat → Nat → Nat → Int) (k : Kernel) (self stack : Nat) (v : Int)
      (k' : Kernel) (out : Option UserWrite) :
      isLive k self → join copyout k self stack = some (WaitResult.ret v k' out) → LifeStep k k'
  | join_sleep (copyout : Nat → Nat → Nat → Int) (k : Kernel) (self stack : Nat) (k' : Kernel) :
      isLive k self → join copyout k self stack = some (WaitResult.sleeping k') → LifeStep k k'

/-- The states reached from the initial table of `nproc` slots, all UNUSED, with
`nextpid = 1`, by lifecycle operations. -/
inductive LifeReachable (nproc : Nat) : Kernel → Prop where
  | init (KSTACK : Nat → Nat) : LifeReachable nproc (boot KSTACK nproc)
  | step (k k' : Kernel) : LifeReachable nproc k → LifeStep k k' → LifeReachable nproc k'

/-! ## Runs of sleep, wakeup, kill, yield, exit and the scheduler -/

/-- The first half of `sleep(chan, lk)`, up to the call of `sched`, for a channel
pointer that may be null. -/
def sleep_ptr (k : Kernel) (self : Nat) (chan : Option Chan) : Kernel :=
  { k with proc := k.proc.modify (fun p => { p with chan := chan, state := SLEEPING }) self }

/-- One step among `sleep`, `wakeup`, `kill`, `yield`, `exit` and a scheduler round,
on a state and the list `s` of the slots whose process is inside `sleep`, between
its write `p->chan = chan` and its write `p->chan = 0`. A process calls `sleep`,
`yield` and `exit` while RUNNING and outside `sleep`; `sleep` is given a non-null
channel, as in `wait`, `join` and `sys_sleep`; a process inside `sleep` that is
RUNNING again runs the rest of it, `sleep_return`; `wakeup` and `kill` may come from
any process or from an interrupt; a scheduler round only makes the slot it selects
RUNNING. -/
inductive ChanStep : Kernel → List Nat → Kernel → List Nat → Prop where
  | sleep (k : Kernel) (s : List Nat) (self : Nat) (chan : Option Chan) :
      isRunning k self → self ∉ s → chan ≠ none →
      ChanStep k s (sleep_ptr k self chan) (self :: s)
  | sleep_return (k : Kernel) (s : List Nat) (self : Nat) :
      isRunning k self → self ∈ s →
      ChanStep k s (sleep_return k self) (s.filter (fun j => j ≠ self))
  | wakeup (k : Kernel) (s : List Nat) (self : Option Nat) (chan : Option Chan) :
      ChanStep k s (wakeup_ptr k self chan) s
  | kill (k : Kernel) (s : List Nat) (pid : Int) : ChanStep k s (kill k pid).2 s
  | yield (k : Kernel) (s : List Nat) (self : Nat) :
      isRunning k self → self ∉ s → ChanStep k s (yield k self) s
  | exit (k : Kernel) (s : List Nat) (self : Nat) (status : Int) (k' : Kernel) :
      isRunning k self → self ∉ s → exit k self status = some k' → ChanStep k s k' s
  | schedule (k : Kernel) (s : List Nat) : ChanStep k s (scheduler_round k).2 s

/-- The states reached from `k0`, with `s0` the slots inside `sleep`, by such steps. -/
inductive ChanReachable (k0 : Kernel) (s0 : List Nat) : Kernel → List Nat → Prop where
  | start : ChanReachable k0 s0 k0 s0
  | step (k : Kernel) (s : List Nat) (k' : Kernel) (s' : List Nat) :
      ChanReachable k0 s0 k s → ChanStep k s k' s' → ChanReachable k0 s0 k' s'

/-! ## The selection scans with the slot locks (`scheduler`, proc.c) -/

/-- Modelled from the spec: the spinlock routine `acquire`, which is not among the
sources, on the slot locks this CPU holds, given as the list of their slot
indices. The lock of slot `i` joins the list; `none` when this CPU holds it
already, since a spinlock cannot be taken by its holder. -/
def acquire (held : List Nat) (i : Nat) : Option (List Nat) :=
  if i ∈ held then none else some (i :: held)

/-- Modelled from the spec: the spinlock routine `release`, which is not among the
sources. The lock of slot `i` leaves the list; `none` when this CPU does not hold
it. -/
def release (held : List Nat) (i : Nat) : Option (List Nat) :=
  if i ∈ held then some (held.erase i) else none

/-- The FCFS loop of `scheduler` with its `acquire` and `release` calls: the
candidate and the locks held at the end, `none` if a lock call fails. -/
def fcfs_loop_locks (t : List Proc) :
    List Proc → Nat → Option Nat → List Nat → Option (Option Nat × List Nat)
  | [], _, earliest, held => some (earliest, held)
  | p :: rest, i, earliest, held =>
    match acquire held i with
    | none => none
    | some held1 =>
      if p.state = RUNNABLE then
        match earliest with
        | none => fcfs_loop_locks t rest (i + 1) (some i) held1
        | some e =>
          if p.pid < pidAt t e then
            match release held1 e with
            | none => none
            | some held2 => fcfs_loop_locks t rest (i + 1) (some i) held2
          else
            match release held1 i with
            | none => none
            | some held2 => fcfs_loop_locks t rest (i + 1) (some e) held2
      else
        match release held1 i with
        | none => none
        | some held2 => fcfs_loop_locks t rest (i + 1) earliest held2

/-- One pass of the round-robin part of the MLFQ branch for a fixed `level`, with
its lock calls; the `break` leaves the lock of the slot found held. -/
def mlfq_level_scan_locks (level : Int) :
    List Proc → Nat → List Nat → Option (Option Nat × List Nat)
  | [], _, held => some (none, held)
  | p :: rest, i, held =>
    match acquire held i with
    | none => none
    | some held1 =>
      if p.state = RUNNABLE ∧ p.level = level then some (some i, held1)
      else
        match release held1 i with
        | none => none
        | some held2 => mlfq_level_scan_locks level rest (i + 1) held2

/-- The loop over the levels 0 and 1 of the MLFQ branch, with its lock calls. -/
def mlfq_rr_locks (t : List Proc) (held : List Nat) : Option (Option Nat × List Nat) :=
  match mlfq_level_scan_locks 0 t 0 held with
  | none => none
  | some (some i, held1) => some (some i, held1)
  | some (none, held1) => mlfq_level_scan_locks 1 t 0 held1

/-- The L2 loop of the MLFQ branch, with its lock calls. -/
def mlfq_l2_loop_locks :
    List Proc → Nat → Option Nat → Int → List Nat → Option (Option Nat × List Nat)
  | [], _, selected, _, held => some (selected, held)
  | p :: rest, i, selected, priority, held =>
    match acquire held i with
    | none => none
    | some held1 =>
      if p.state = RUNNABLE ∧ p.level = 2 then
        if selected = none ∨ p.priority > priority then
          match selected with
          | some s =>
            match release held1 s with
            | none => none
            | some held2 => mlfq_l2_loop_locks rest (i + 1) (some i) p.priority held2
          | none => mlfq_l2_loop_locks rest (i + 1) (some i) p.priority held1
        else
          match release held1 i with
          | none => none
          | some held2 => mlfq_l2_loop_locks rest (i + 1) selected priority held2
      else
        match release held1 i with
        | none => none
        | some held2 => mlfq_l2_loop_locks rest (i + 1) selected priority held2

/-- The MLFQ branch of `scheduler` up to the test `if (selected)`, with its lock
calls. -/
def mlfq_select_locks (t : List Proc) (held : List Nat) : Option (Option Nat × List Nat) :=
  match mlfq_rr_locks t held with
  | none => none
  | some (some i, held1) => some (some i, held1)
  | some (none, held1) => mlfq_l2_loop_locks t 0 none (-1) held1

/-- The selection of one round of `scheduler` with its lock calls, started with no
slot lock held. -/
def scheduler_select_locks (k : Kernel) : Option (Option Nat × List Nat) :=
  if k.scheduling_mode = 0 then fcfs_loop_locks k.proc k.proc 0 none []
  else mlfq_select_locks k.proc []

/-! ## Predicates used to state the properties -/

/-- What the FCFS loop knows about its candidate after visiting the first `n`
slots of the table. -/
def FcfsInv (t : List Proc) (n : Nat) (earliest : Option Nat) : Prop :=
  match earliest with
  | none => ∀ j q, j < n → slotAt t j = some q → q.state ≠ RUNNABLE
  | some e => e < n ∧ ∃ p, slotAt t e = some p ∧ p.state = RUNNABLE ∧
      ∀ j q, j < n → slotAt t j = some q → q.state = RUNNABLE → p.pid ≤ q.pid

/-- A RUNNABLE slot of MLFQ level `l`: the test `p->state == RUNNABLE && p->level == l`. -/
def runnableAt (l : Int) (p : Proc) : Prop := p.state = RUNNABLE ∧ p.level = l

/-- Some slot of the table satisfies `P`. -/
def SomeSlot (t : List Proc) (P : Proc → Prop) : Prop :=
  ∃ j q, slotAt t j = some q ∧ P q

/-- Slot `i` is the first slot of the table, in table order, that satisfies `P`. -/
def FirstSlot (t : List Proc) (P : Proc → Prop) (i : Nat) : Prop :=
  ∃ p, slotAt t i = some p ∧ P p ∧ ∀ j q, j < i → slotAt t j = some q → ¬ P q

/-- Slot `i` is a RUNNABLE level-2 slot of highest priority, and the lowest index
among those of that priority. -/
def BestL2 (t : List Proc) (i : Nat) : Prop :=
  ∃ p, slotAt t i = some p ∧ runnableAt 2 p ∧
    (∀ j q, slotAt t j = some q → runnableAt 2 q → q.priority ≤ p.priority) ∧
    (∀ j q, j < i → slotAt t j = some q → runnableAt 2 q → q.priority < p.priority)

/-- What the L2 loop knows about `selected` and `priority` after visiting the first
`n` slots of the table. -/
def L2Inv (t : List Proc) (n : Nat) (selected : Option Nat) (priority : Int) : Prop :=
  match selected with
  | none => ∀ j q, j < n → slotAt t j = some q → ¬ runnableAt 2 q
  | some s => s < n ∧ ∃ p, slotAt t s = some p ∧ runnableAt 2 p ∧ p.priority = priority ∧
      (∀ j q, j < n → slotAt t j = some q → runnableAt 2 q → q.priority ≤ priority) ∧
      (∀ j q, j < s → slotAt t j = some q → runnableAt 2 q → q.priority < priority)

/-- Slot `q` is a child of the process in slot `self` that has exited and waits to
be reaped. -/
def zombieChildOf (self : Nat) (q : Proc) : Prop := q.parent = some self ∧ q.state = ZOMBIE

/-- All slots of the table that share a page table report the same `sz`. -/
def sizeCoherent (t : List Proc) : Prop :=
  ∀ i j a b, slotAt t i = some a → slotAt t j = some b → a.pagetable = b.pagetable → a.sz = b.sz

/-- Slot content `c'` is `c`, or `c` woken by a `wakeup` of the process in slot
`self`: another slot than `self` that was SLEEPING and is now RUNNABLE. -/
def Woken (self j : Nat) (c c' : Proc) : Prop :=
  c' = c ∨ (j ≠ self ∧ c.state = SLEEPING ∧ c' = { c with state := RUNNABLE })

/-- The parent of a slot after `reparent(p)` went over the first `n` slots, `p`
being the process in slot `self`. -/
def reparented (self : Nat) (initproc : Option Nat) (n j : Nat) (c : Proc) : Proc :=
  { c with parent := if j < n ∧ c.parent = some self then initproc else c.parent }

/-- The two states differ in the process table at most. -/
def sameGlobals (k k' : Kernel) : Prop :=
  k'.nextpid = k.nextpid ∧ k'.initproc = k.initproc ∧
  k'.scheduling_mode = k.scheduling_mode ∧ k'.new_tick = k.new_tick ∧ k'.console = k.console

/-- What the loop of `reparent` has done to the table of `k` after `n` iterations. -/
def ReparentInv (self : Nat) (k : Kernel) (n : Nat) (kn : Kernel) : Prop :=
  sameGlobals k kn ∧ kn.proc.length = k.proc.length ∧
  ∀ j c, slotAt k.proc j = some c →
    ∃ c', slotAt kn.proc j = some c' ∧ Woken self j (reparented self k.initproc n j c) c'

/-- The invariant behind pid uniqueness and slot emptiness: `nextpid` is at least 1,
an UNUSED slot has pid 0 and null page table and trapframe, a slot in any other
state has a pid between 1 and `nextpid - 1`, and two such slots have different
pids. -/
def PidInv (k : Kernel) : Prop :=
  1 ≤ k.nextpid ∧
  (∀ i p, slotAt k.proc i = some p →
    (p.state = UNUSED → p.pid = 0 ∧ p.pagetable = 0 ∧ p.trapframe = 0) ∧
    (p.state ≠ UNUSED → 0 < p.pid ∧ p.pid < k.nextpid)) ∧
  (∀ i j p q, slotAt k.proc i = some p → slotAt k.proc j = some q → i ≠ j →
    p.state ≠ UNUSED → q.state ≠ UNUSED → p.pid ≠ q.pid)

/-- The slot keeps its identity: same pid, page table and trapframe, and it is
UNUSED after if and only if it was before. -/
def Keep (p q : Proc) : Prop :=
  q.pid = p.pid ∧ q.pagetable = p.pagetable ∧ q.trapframe = p.trapframe ∧
  (q.state = UNUSED ↔ p.state = UNUSED)

/-- The slot is as `freeproc` leaves it. -/
def Freed (q : Proc) : Prop :=
  q.state = UNUSED ∧ q.pid = 0 ∧ q.pagetable = 0 ∧ q.trapframe = 0

/-- Every slot of `t'` is the slot of `t` at the same index, kept or freed. -/
def TableRel (t t' : List Proc) : Prop :=
  t'.length = t.length ∧
  ∀ j p, slotAt t j = some p → ∃ q, slotAt t' j = some q ∧ (Keep p q ∨ Freed q)

/-- The channel property of slot `i`, as the code keeps it, with `s` the slots inside
`sleep`: a SLEEPING slot has a channel, and a slot with a channel is inside `sleep`
and is SLEEPING, RUNNABLE after a wakeup, or RUNNING before `sleep` clears it. -/
def chanOk (s : List Nat) (i : Nat) (p : Proc) : Prop :=
  (p.state = SLEEPING → p.chan ≠ none) ∧
  (p.chan ≠ none → i ∈ s ∧ (p.state = SLEEPING ∨ p.state = RUNNABLE ∨ p.state = RUNNING))

instance chanOkDecidable (s : List Nat) (i : Nat) (p : Proc) : Decidable (chanOk s i p) :=
  inferInstanceAs (Decidable ((p.state = SLEEPING → p.chan ≠ none) ∧
    (p.chan ≠ none → i ∈ s ∧ (p.state = SLEEPING ∨ p.state = RUNNABLE ∨ p.state = RUNNING))))

/-- Every slot of the table has the channel property. -/
def ChanOk (k : Kernel) (s : List Nat) : Prop :=
  ∀ i p, slotAt k.proc i = some p → chanOk s i p

/-- The channel invariant I4 as the specification words it, for one slot. -/
def chanI4 (p : Proc) : Prop :=
  (p.state = SLEEPING → p.chan ≠ none) ∧ (p.state ≠ SLEEPING → p.chan = none)

instance chanI4Decidable (p : Proc) : Decidable (chanI4 p) :=
  inferInstanceAs (Decidable ((p.state = SLEEPING → p.chan ≠ none) ∧
    (p.state ≠ SLEEPING → p.chan = none)))

/-- The locks held when the candidate of a scan is `sel`: its lock alone, or none. -/
def heldOf (sel : Option Nat) : List Nat :=
  match sel with
  | some i => [i]
  | none => []

/-! ## Sample tables -/

/-- A live slot with the given state, pid, level and priority, owning page table
and trapframe number `pid`. -/
def liveProc (st : procstate) (pid : Nat) (level priority : Int) : Proc :=
  { zeroProc with state := st, pid := pid, pagetable := pid, trapframe := pid,
                  sz := 4096, level := level, priority := priority }

/-- A kernel with the given table and mode. -/
def kernelOf (t : List Proc) (mode : Int) : Kernel :=
  { proc := t, nextpid := 10, initproc := some 0, scheduling_mode := mode, new_tick := 0,
    console := [] }

/-- Three processes, the one with the smallest pid asleep. -/
def tableA : List Proc :=
  [liveProc SLEEPING 1 0 3, liveProc RUNNABLE 5 2 1, liveProc RUNNABLE 3 2 3, zeroProc]

/-- A parent running in slot 0, its child pid 4 still alive in slot 1, and its
exited child pid 7 in slot 2 with exit status 7 and user stack 8192. -/
def tableC : List Proc :=
  [liveProc RUNNING 3 0 3,
   { liveProc RUNNABLE 4 0 3 with parent := some 0 },
   { liveProc ZOMBIE 7 0 3 with parent := some 0, xstate := 7, user_stack := 8192 },
   zeroProc]

/-- A `copyout` that always succeeds. -/
def copyoutOk : Nat → Nat → Nat → Int := fun _ _ _ => 0

/-- A `copyout` that always fails. -/
def copyoutFail : Nat → Nat → Nat → Int := fun _ _ _ => -1

/-- A parent running in slot 0 whose only child, pid 7 in slot 1, has exited. -/
def tableD : List Proc :=
  [liveProc RUNNING 3 0 3,
   { liveProc ZOMBIE 7 0 3 with parent := some 0, xstate := 7, user_stack := 8192 },
   zeroProc]

/-- The process `init` asleep in `wait` in slot 0, its child pid 2 running in slot 1
with two open files, and pid 3 in slot 2, a sleeping child of pid 2. -/
def tableE : List Proc :=
  [{ liveProc SLEEPING 1 0 3 with chan := some (Chan.slot 0) },
   { liveProc RUNNING 2 0 3 with parent := some 0, ofile := [5, 0, 6], cwd := 9 },
   { liveProc SLEEPING 3 0 3 with parent := some 1, chan := some (Chan.addr 1) },
   zeroProc]

/-! ## A sample run -/

/-- Allocator results of a successful `allocproc`: page `n` for the trapframe and
page table `n`. -/
def envOk (n : Nat) : AllocEnv :=
  { kalloc := n, uvmcreate := n, map_trampoline := 0, map_trapframe := 0 }

/-- Boot with three slots: `init` is RUNNABLE in slot 0. -/
def runA1 : Kernel := (userinit (boot (fun i => i) 3) (envOk 100) 1).getD (boot (fun i => i) 3)

/-- The scheduler dispatches `init`. -/
def runA2 : Kernel := (scheduler_round runA1).2

/-- The process `init` forks: pid 2 is RUNNABLE in slot 1. -/
def runA3 : Kernel := ((fork runA2 0 (envOk 101) 0).getD (0, runA2)).2

/-- The process `init` calls `mlfqmode`. -/
def runA4 : Kernel := (sys_mlfqmode runA3).2

/-- The process `init` calls `fcfsmode`: the RUNNABLE pid 2 gets the sentinel fields. -/
def runA5 : Kernel := (sys_fcfsmode runA4).2

/-- The process `init` goes to sleep. -/
def runA6 : Kernel := sleep runA5 0 (Chan.addr 1)

/-- The scheduler dispatches pid 2, the only RUNNABLE process. -/
def runA7 : Kernel := (scheduler_round runA6).2

/-- The process pid 2 calls `mlfqmode`: it is RUNNING, so its own fields stay. -/
def runA8 : Kernel := (sys_mlfqmode runA7).2

/-- From `runA2`, where `init` runs in slot 0 with page table 100: `init` calls
`clone(64, 1, 2, 8192)`, and `allocproc` gets page 101 and page table 101. -/
def runB1 : Kernel := ((clone runA2 0 (envOk 101) 0 64 1 2 8192).getD (0, runA2)).2

/-- From `runA1`, where `init` is RUNNABLE in slot 0: `init` forks pid 2 into slot 1. -/
def runL2 : Kernel := ((fork runA1 0 (envOk 101) 0).getD (0, runA1)).2

/-- Then pid 2 exits with status 7. -/
def runL3 : Kernel := (exit runL2 1 7).getD runL2

/-- From `runA1`, the state after boot: the scheduler runs `init`. -/
def runC1 : Kernel := (scheduler_round runA1).2

/-- The process `init` sleeps on the channel at address 1. -/
def runC2 : Kernel := sleep_ptr runC1 0 (some (Chan.addr 1))

/-- A timer interrupt on the idle CPU wakes the sleepers on that channel. -/
def runC3 : Kernel := wakeup_ptr runC2 none (some (Chan.addr 1))

/-- The scheduler runs `init` again, which is still inside `sleep`. -/
def runC4 : Kernel := (scheduler_round runC3).2

/-- The process `init` runs the rest of `sleep`. -/
def runC5 : Kernel := sleep_return runC4 0

/-- After `runA8`, the running process, pid 2, yields. -/
def runD1 : Kernel := yield runA8 1

/-- After `runA2`, the running process, pid 1, calls `kill(0)`. -/
def runE1 : Kernel := (kill runA2 0).2

/-- After `runE1`, pid 1 forks. -/
def runE2 : Kernel := ((fork runE1 0 (envOk 101) 0).getD (0, runE1)).2

/-! # Theorems -/

/-! ## Selection: FCFS -/

theorem pidAt_of_slot {t : List Proc} {e : Nat} {p : Proc} (h : slotAt t e = some p) :
    pidAt t e = p.pid := by
  simp [pidAt, h]

theorem slot_lt_length {t : List Proc} {j : Nat} {q : Proc} (h : slotAt t j = some q) :
    j < t.length := by
  unfold slotAt at h
  by_contra hc
  rw [List.getElem?_eq_none (Nat.le_of_not_lt hc)] at h
  cases h

theorem fcfs_loop_inv (t : List Proc) :
    ∀ (rest : List Proc) (i : Nat) (earliest : Option Nat),
      (∀ j, slotAt t (i + j) = rest[j]?) → FcfsInv t i earliest →
      FcfsInv t (i + rest.length) (fcfs_loop t rest i earliest) := by
  intro rest
  induction rest with
  | nil => intro i earliest _ hinv; simpa [fcfs_loop] using hinv
  | cons p rest ih =>
    intro i earliest hsuf hinv
    have hp : slotAt t i = some p := by simpa using hsuf 0
    have hsuf2 : ∀ j, slotAt t (i + 1 + j) = rest[j]? := by
      intro j
      have := hsuf (j + 1)
      simpa [Nat.add_assoc, Nat.add_comm 1 j] using this
    have hlen : i + (p :: rest).length = i + 1 + rest.length := by
      simp [Nat.add_assoc, Nat.add_comm 1]
    rw [hlen]
    unfold fcfs_loop
    by_cases hr : p.state = RUNNABLE
    · rw [if_pos hr]
      cases earliest with
      | none =>
        apply ih (i + 1) (some i) hsuf2
        refine ⟨Nat.lt_succ_self i, p, hp, hr, ?_⟩
        intro j q hj hq hqr
        rcases Nat.lt_succ_iff_lt_or_eq.mp hj with hlt | heq
        · exact absurd hqr (hinv j q hlt hq)
        · subst heq
          rw [hp] at hq
          cases hq
          exact le_refl _
      | some e =>
        obtain ⟨he, pe, hpe, hper, hmin⟩ := hinv
        simp only [pidAt_of_slot hpe]
        by_cases hlt : p.pid < pe.pid
        · rw [if_pos hlt]
          apply ih (i + 1) (some i) hsuf2
          refine ⟨Nat.lt_succ_self i, p, hp, hr, ?_⟩
          intro j q hj hq hqr
          rcases Nat.lt_succ_iff_lt_or_eq.mp hj with hjl | heq
          · exact le_trans (le_of_lt hlt) (hmin j q hjl hq hqr)
          · subst heq
            rw [hp] at hq
            cases hq
            exact le_refl _
        · rw [if_neg hlt]
          apply ih (i + 1) (some e) hsuf2
          refine ⟨Nat.lt_succ_of_lt he, pe, hpe, hper, ?_⟩
          intro j q hj hq hqr
          rcases Nat.lt_succ_iff_lt_or_eq.mp hj with hjl | heq
          · exact hmin j q hjl hq hqr
          · subst heq
            rw [hp] at hq
            cases hq
            exact not_lt.mp hlt
    · rw [if_neg hr]
      apply ih (i + 1) earliest hsuf2
      cases earliest with
      | none =>
        intro j q hj hq
        rcases Nat.lt_succ_iff_lt_or_eq.mp hj with hjl | heq
        · exact hinv j q hjl hq
        · subst heq
          rw [hp] at hq
          cases hq
          exact hr
      | some e =>
        obtain ⟨he, pe, hpe, hper, hmin⟩ := hinv
        refine ⟨Nat.lt_succ_of_lt he, pe, hpe, hper, ?_⟩
        intro j q hj hq hqr
        rcases Nat.lt_succ_iff_lt_or_eq.mp hj with hjl | heq
        · exact hmin j q hjl hq hqr
        · subst heq
          rw [hp] at hq
          cases hq
          exact absurd hqr hr

theorem fcfs_select_inv (t : List Proc) : FcfsInv t t.length (fcfs_select t) := by
  have h := fcfs_loop_inv t t 0 none (by intro j; simp [slotAt])
    (by intro j q hj; exact absurd hj (Nat.not_lt_zero j))
  simpa [fcfs_select] using h

/-- C1. FCFS selection: when `scheduling_mode` is 0 the selection scan of the
scheduler picks a slot if and only if some slot of the table is RUNNABLE, and the
slot it picks is RUNNABLE with a pid less than or equal to the pid of every
RUNNABLE slot. -/
theorem fcfs_selects_min_pid (k : Kernel) (hmode : k.scheduling_mode = 0) :
    ((∃ i, scheduler_select k = some i) ↔
        ∃ j q, slotAt k.proc j = some q ∧ q.state = RUNNABLE) ∧
    ∀ i, scheduler_select k = some i →
      ∃ p, slotAt k.proc i = some p ∧ p.state = RUNNABLE ∧
        ∀ j q, slotAt k.proc j = some q → q.state = RUNNABLE → p.pid ≤ q.pid := by
  have hsel : scheduler_select k = fcfs_select k.proc := by
    simp [scheduler_select, hmode]
  have hinv := fcfs_select_inv k.proc
  rw [hsel]
  constructor
  · constructor
    · rintro ⟨i, hi⟩
      rw [hi] at hinv
      obtain ⟨_, p, hp, hpr, _⟩ := hinv
      exact ⟨i, p, hp, hpr⟩
    · rintro ⟨j, q, hq, hqr⟩
      cases hres : fcfs_select k.proc with
      | none =>
        rw [hres] at hinv
        exact absurd hqr (hinv j q (slot_lt_length hq) hq)
      | some i => exact ⟨i, rfl⟩
  · intro i hi
    rw [hi] at hinv
    obtain ⟨_, p, hp, hpr, hmin⟩ := hinv
    exact ⟨p, hp, hpr, fun j q hq hqr => hmin j q (slot_lt_length hq) hq hqr⟩

/-- The C1 theorem applied to a table whose smallest RUNNABLE pid is in slot 2. -/
theorem fcfs_selects_min_pid_witness :
    ((∃ i, scheduler_select (kernelOf tableA 0) = some i) ↔
        ∃ j q, slotAt (kernelOf tableA 0).proc j = some q ∧ q.state = RUNNABLE) ∧
    ∀ i, scheduler_select (kernelOf tableA 0) = some i →
      ∃ p, slotAt (kernelOf tableA 0).proc i = some p ∧ p.state = RUNNABLE ∧
        ∀ j q, slotAt (kernelOf tableA 0).proc j = some q → q.state = RUNNABLE →
          p.pid ≤ q.pid :=
  fcfs_selects_min_pid (kernelOf tableA 0) rfl

/-! ## Selection: MLFQ -/

theorem slot_eq_of_suffix {t rest : List Proc} {i : Nat} {p : Proc}
    (hsuf : ∀ j, slotAt t (i + j) = (p :: rest)[j]?) :
    slotAt t i = some p ∧ ∀ j, slotAt t (i + 1 + j) = rest[j]? := by
  refine ⟨by simpa using hsuf 0, ?_⟩
  intro j
  have := hsuf (j + 1)
  simpa [Nat.add_assoc, Nat.add_comm 1 j] using this

theorem mlfq_level_scan_none (t : List Proc) (l : Int) :
    ∀ (rest : List Proc) (i : Nat), (∀ j, slotAt t (i + j) = rest[j]?) →
      mlfq_level_scan l rest i = none →
      ∀ j q, i ≤ j → slotAt t j = some q → ¬ runnableAt l q := by
  intro rest
  induction rest with
  | nil =>
    intro i hsuf _ j q hij hq
    have h := hsuf (j - i)
    rw [Nat.add_sub_cancel' hij, hq] at h
    simp at h
  | cons p rest ih =>
    intro i hsuf hnone j q hij hq
    obtain ⟨hp, hsuf2⟩ := slot_eq_of_suffix hsuf
    unfold mlfq_level_scan at hnone
    by_cases hr : p.state = RUNNABLE ∧ p.level = l
    · rw [if_pos hr] at hnone
      cases hnone
    · rw [if_neg hr] at hnone
      rcases Nat.eq_or_lt_of_le hij with heq | hlt
      · subst heq
        rw [hp] at hq
        cases hq
        exact hr
      · exact ih (i + 1) hsuf2 hnone j q hlt hq

theorem mlfq_level_scan_some (t : List Proc) (l : Int) :
    ∀ (rest : List Proc) (i r : Nat), (∀ j, slotAt t (i + j) = rest[j]?) →
      mlfq_level_scan l rest i = some r →
      i ≤ r ∧ ∃ p, slotAt t r = some p ∧ runnableAt l p ∧
        ∀ j q, i ≤ j → j < r → slotAt t j = some q → ¬ runnableAt l q := by
  intro rest
  induction rest with
  | nil => intro i r _ h; simp [mlfq_level_scan] at h
  | cons p rest ih =>
    intro i r hsuf hsome
    obtain ⟨hp, hsuf2⟩ := slot_eq_of_suffix hsuf
    unfold mlfq_level_scan at hsome
    by_cases hr : p.state = RUNNABLE ∧ p.level = l
    · rw [if_pos hr] at hsome
      cases hsome
      exact ⟨le_refl _, p, hp, hr, fun j q hij hji _ => absurd hij (Nat.not_le_of_lt hji)⟩
    · rw [if_neg hr] at hsome
      obtain ⟨hle, pr, hpr, hprr, hbefore⟩ := ih (i + 1) r hsuf2 hsome
      refine ⟨Nat.le_of_succ_le hle, pr, hpr, hprr, ?_⟩
      intro j q hij hjr hq
      rcases Nat.eq_or_lt_of_le hij with heq | hlt
      · subst heq
        rw [hp] at hq
        cases hq
        exact hr
      · exact hbefore j q hlt hjr hq

theorem level_scan_first (t : List Proc) (l : Int) (r : Nat)
    (h : mlfq_level_scan l t 0 = some r) : FirstSlot t (runnableAt l) r := by
  obtain ⟨_, p, hp, hpr, hbefore⟩ :=
    mlfq_level_scan_some t l t 0 r (by intro j; simp [slotAt]) h
  exact ⟨p, hp, hpr, fun j q hj hq => hbefore j q (Nat.zero_le j) hj hq⟩

theorem level_scan_none (t : List Proc) (l : Int)
    (h : mlfq_level_scan l t 0 = none) : ¬ SomeSlot t (runnableAt l) := by
  rintro ⟨j, q, hq, hqr⟩
  exact mlfq_level_scan_none t l t 0 (by intro j; simp [slotAt]) h j q (Nat.zero_le j) hq hqr

theorem level_scan_exists (t : List Proc) (l : Int) (h : SomeSlot t (runnableAt l)) :
    ∃ r, mlfq_level_scan l t 0 = some r := by
  cases hres : mlfq_level_scan l t 0 with
  | none => exact absurd h (level_scan_none t l hres)
  | some r => exact ⟨r, rfl⟩

theorem mlfq_l2_loop_inv (t : List Proc) :
    ∀ (rest : List Proc) (i : Nat) (selected : Option Nat) (priority : Int),
      (∀ j, slotAt t (i + j) = rest[j]?) → L2Inv t i selected priority →
      ∃ pr, L2Inv t (i + rest.length) (mlfq_l2_loop rest i selected priority) pr := by
  intro rest
  induction rest with
  | nil => intro i selected priority _ hinv; exact ⟨priority, by simpa [mlfq_l2_loop] using hinv⟩
  | cons p rest ih =>
    intro i selected priority hsuf hinv
    obtain ⟨hp, hsuf2⟩ := slot_eq_of_suffix hsuf
    have hlen : i + (p :: rest).length = i + 1 + rest.length := by
      simp [Nat.add_assoc, Nat.add_comm 1]
    rw [hlen]
    unfold mlfq_l2_loop
    by_cases hr : p.state = RUNNABLE ∧ p.level = 2
    · rw [if_pos hr]
      cases selected with
      | none =>
        rw [if_pos (Or.inl rfl)]
        apply ih (i + 1) (some i) p.priority hsuf2
        refine ⟨Nat.lt_succ_self i, p, hp, hr, rfl, ?_, ?_⟩
        · intro j q hj hq hqr
          rcases Nat.lt_succ_iff_lt_or_eq.mp hj with hlt | heq
          · exact absurd hqr (hinv j q hlt hq)
          · subst heq
            rw [hp] at hq
            cases hq
            exact le_refl _
        · intro j q hj hq hqr
          exact absurd hqr (hinv j q hj hq)
      | some s =>
        obtain ⟨hs, ps, hps, hpsr, hprio, hmax, hties⟩ := hinv
        by_cases hgt : p.priority > priority
        · rw [if_pos (Or.inr hgt)]
          apply ih (i + 1) (some i) p.priority hsuf2
          refine ⟨Nat.lt_succ_self i, p, hp, hr, rfl, ?_, ?_⟩
          · intro j q hj hq hqr
            rcases Nat.lt_succ_iff_lt_or_eq.mp hj with hlt | heq
            · exact le_trans (hmax j q hlt hq hqr) (le_of_lt hgt)
            · subst heq
              rw [hp] at hq
              cases hq
              exact le_refl _
          · intro j q hj hq hqr
            exact lt_of_le_of_lt (hmax j q hj hq hqr) hgt
        · have hno : ¬ (some s = none ∨ p.priority > priority) := by
            rintro (h | h)
            · cases h
            · exact hgt h
          rw [if_neg hno]
          apply ih (i + 1) (some s) priority hsuf2
          refine ⟨Nat.lt_succ_of_lt hs, ps, hps, hpsr, hprio, ?_, hties⟩
          intro j q hj hq hqr
          rcases Nat.lt_succ_iff_lt_or_eq.mp hj with hlt | heq
          · exact hmax j q hlt hq hqr
          · subst heq
            rw [hp] at hq
            cases hq
            exact not_lt.mp hgt
    · rw [if_neg hr]
      apply ih (i + 1) selected priority hsuf2
      cases selected with
      | none =>
        intro j q hj hq
        rcases Nat.lt_succ_iff_lt_or_eq.mp hj with hlt | heq
        · exact hinv j q hlt hq
        · subst heq
          rw [hp] at hq
          cases hq
          exact hr
      | some s =>
        obtain ⟨hs, ps, hps, hpsr, hprio, hmax, hties⟩ := hinv
        refine ⟨Nat.lt_succ_of_lt hs, ps, hps, hpsr, hprio, ?_, hties⟩
        intro j q hj hq hqr
        rcases Nat.lt_succ_iff_lt_or_eq.mp hj with hlt | heq
        · exact hmax j q hlt hq hqr
        · subst heq
          rw [hp] at hq
          cases hq
          exact absurd hqr hr

theorem l2_loop_best (t : List Proc) (r : Nat) (h : mlfq_l2_loop t 0 none (-1) = some r) :
    BestL2 t r := by
  obtain ⟨pr, hinv⟩ := mlfq_l2_loop_inv t t 0 none (-1) (by intro j; simp [slotAt])
    (by intro j q hj; exact absurd hj (Nat.not_lt_zero j))
  rw [h] at hinv
  obtain ⟨_, p, hp, hpr, hprio, hmax, hties⟩ := hinv
  refine ⟨p, hp, hpr, ?_, ?_⟩
  · intro j q hq hqr
    rw [hprio]
    exact hmax j q (by simpa using slot_lt_length hq) hq hqr
  · intro j q hj hq hqr
    rw [hprio]
    exact hties j q hj hq hqr

theorem l2_loop_none (t : List Proc) (h : mlfq_l2_loop t 0 none (-1) = none) :
    ¬ SomeSlot t (runnableAt 2) := by
  obtain ⟨pr, hinv⟩ := mlfq_l2_loop_inv t t 0 none (-1) (by intro j; simp [slotAt])
    (by intro j q hj; exact absurd hj (Nat.not_lt_zero j))
  rw [h] at hinv
  rintro ⟨j, q, hq, hqr⟩
  exact hinv j q (by simpa using slot_lt_length hq) hq hqr

theorem mlfq_select_unfold (k : Kernel) (hmode : k.scheduling_mode = 1) :
    scheduler_select k =
      match mlfq_level_scan 0 k.proc 0 with
      | some i => some i
      | none =>
        match mlfq_level_scan 1 k.proc 0 with
        | some i => some i
        | none => mlfq_l2_loop k.proc 0 none (-1) := by
  simp only [scheduler_select, hmode, mlfq_select, mlfq_rr]
  cases mlfq_level_scan 0 k.proc 0 with
  | some i => simp
  | none =>
    cases mlfq_level_scan 1 k.proc 0 with
    | some i => simp
    | none => simp

/-- C2. MLFQ selection: for every table, when `scheduling_mode` is 1 the scheduler
picks the first RUNNABLE level-0 slot in table order if there is one; else the first
RUNNABLE level-1 slot if there is one; else, if there is a RUNNABLE level-2 slot, one
of highest priority, the lowest index winning ties; else nothing. The slot chosen is
RUNNABLE at level 0, 1 or 2, and consequently it is never at level `k` while a
RUNNABLE slot at one of the queue levels `0 .. k-1` exists; when the RUNNABLE slots
all are at a queue level 0, 1 or 2, none of them is at a level below that of the
slot chosen. -/
theorem mlfq_selection_order (k : Kernel) (hmode : k.scheduling_mode = 1) :
    (SomeSlot k.proc (runnableAt 0) →
        ∃ i, scheduler_select k = some i ∧ FirstSlot k.proc (runnableAt 0) i) ∧
    (¬ SomeSlot k.proc (runnableAt 0) → SomeSlot k.proc (runnableAt 1) →
        ∃ i, scheduler_select k = some i ∧ FirstSlot k.proc (runnableAt 1) i) ∧
    (¬ SomeSlot k.proc (runnableAt 0) → ¬ SomeSlot k.proc (runnableAt 1) →
        SomeSlot k.proc (runnableAt 2) →
        ∃ i, scheduler_select k = some i ∧ BestL2 k.proc i) ∧
    (¬ SomeSlot k.proc (runnableAt 0) → ¬ SomeSlot k.proc (runnableAt 1) →
        ¬ SomeSlot k.proc (runnableAt 2) → scheduler_select k = none) ∧
    (∀ i p, scheduler_select k = some i → slotAt k.proc i = some p →
        p.state = RUNNABLE ∧ (p.level = 0 ∨ p.level = 1 ∨ p.level = 2)) ∧
    (∀ i p, scheduler_select k = some i → slotAt k.proc i = some p →
        ∀ j q, slotAt k.proc j = some q → q.state = RUNNABLE → 0 ≤ q.level →
          ¬ q.level < p.level) ∧
    ((∀ q ∈ k.proc, q.state = RUNNABLE → q.level = 0 ∨ q.level = 1 ∨ q.level = 2) →
      ∀ i p, scheduler_select k = some i → slotAt k.proc i = some p →
        ∀ j q, slotAt k.proc j = some q → q.state = RUNNABLE → ¬ q.level < p.level) := by
  rw [mlfq_select_unfold k hmode]
  refine ⟨?_, ?_, ?_, ?_, ?_, ?_, ?_⟩
  · intro h0
    obtain ⟨r, hr⟩ := level_scan_exists k.proc 0 h0
    rw [hr]
    exact ⟨r, rfl, level_scan_first k.proc 0 r hr⟩
  · intro h0 h1
    cases hs0 : mlfq_level_scan 0 k.proc 0 with
    | some r => exact absurd ⟨r, (level_scan_first k.proc 0 r hs0).choose,
        (level_scan_first k.proc 0 r hs0).choose_spec.1,
        (level_scan_first k.proc 0 r hs0).choose_spec.2.1⟩ h0
    | none =>
      obtain ⟨r, hr⟩ := level_scan_exists k.proc 1 h1
      rw [hr]
      exact ⟨r, rfl, level_scan_first k.proc 1 r hr⟩
  · intro h0 h1 h2
    cases hs0 : mlfq_level_scan 0 k.proc 0 with
    | some r => exact absurd ⟨r, (level_scan_first k.proc 0 r hs0).choose,
        (level_scan_first k.proc 0 r hs0).choose_spec.1,
        (level_scan_first k.proc 0 r hs0).choose_spec.2.1⟩ h0
    | none =>
      cases hs1 : mlfq_level_scan 1 k.proc 0 with
      | some r => exact absurd ⟨r, (level_scan_first k.proc 1 r hs1).choose,
          (level_scan_first k.proc 1 r hs1).choose_spec.1,
          (level_scan_first k.proc 1 r hs1).choose_spec.2.1⟩ h1
      | none =>
        cases hs2 : mlfq_l2_loop k.proc 0 none (-1) with
        | none => exact absurd h2 (l2_loop_none k.proc hs2)
        | some r => exact ⟨r, rfl, l2_loop_best k.proc r hs2⟩
  · intro h0 h1 h2
    cases hs0 : mlfq_level_scan 0 k.proc 0 with
    | some r => exact absurd ⟨r, (level_scan_first k.proc 0 r hs0).choose,
        (level_scan_first k.proc 0 r hs0).choose_spec.1,
        (level_scan_first k.proc 0 r hs0).choose_spec.2.1⟩ h0
    | none =>
      cases hs1 : mlfq_level_scan 1 k.proc 0 with
      | some r => exact absurd ⟨r, (level_scan_first k.proc 1 r hs1).choose,
          (level_scan_first k.proc 1 r hs1).choose_spec.1,
          (level_scan_first k.proc 1 r hs1).choose_spec.2.1⟩ h1
      | none =>
        cases hs2 : mlfq_l2_loop k.proc 0 none (-1) with
        | none => rfl
        | some r =>
          obtain ⟨p, hp, hpr, _⟩ := l2_loop_best k.proc r hs2
          exact absurd ⟨r, p, hp, hpr⟩ h2
  · intro i p hsel hp
    cases hs0 : mlfq_level_scan 0 k.proc 0 with
    | some r =>
      rw [hs0] at hsel
      cases hsel
      obtain ⟨p', hp', hpr', _⟩ := level_scan_first k.proc 0 i hs0
      rw [hp] at hp'
      cases hp'
      exact ⟨hpr'.1, Or.inl hpr'.2⟩
    | none =>
      rw [hs0] at hsel
      cases hs1 : mlfq_level_scan 1 k.proc 0 with
      | some r =>
        rw [hs1] at hsel
        cases hsel
        obtain ⟨p', hp', hpr', _⟩ := level_scan_first k.proc 1 i hs1
        rw [hp] at hp'
        cases hp'
        exact ⟨hpr'.1, Or.inr (Or.inl hpr'.2)⟩
      | none =>
        rw [hs1] at hsel
        obtain ⟨p', hp', hpr', _⟩ := l2_loop_best k.proc i hsel
        rw [hp] at hp'
        cases hp'
        exact ⟨hpr'.1, Or.inr (Or.inr hpr'.2)⟩
  · intro i p hsel hp j q hq hqr hq0 hlt
    cases hs0 : mlfq_level_scan 0 k.proc 0 with
    | some r =>
      rw [hs0] at hsel
      cases hsel
      obtain ⟨p', hp', hpr', _⟩ := level_scan_first k.proc 0 i hs0
      rw [hp] at hp'
      cases hp'
      have := hpr'.2
      omega
    | none =>
      rw [hs0] at hsel
      have hn0 := level_scan_none k.proc 0 hs0
      cases hs1 : mlfq_level_scan 1 k.proc 0 with
      | some r =>
        rw [hs1] at hsel
        cases hsel
        obtain ⟨p', hp', hpr', _⟩ := level_scan_first k.proc 1 i hs1
        rw [hp] at hp'
        cases hp'
        have := hpr'.2
        exact hn0 ⟨j, q, hq, hqr, by omega⟩
      | none =>
        rw [hs1] at hsel
        have hn1 := level_scan_none k.proc 1 hs1
        obtain ⟨p', hp', hpr', _⟩ := l2_loop_best k.proc i hsel
        rw [hp] at hp'
        cases hp'
        have := hpr'.2
        by_cases hz : q.level = 0
        · exact hn0 ⟨j, q, hq, hqr, hz⟩
        · exact hn1 ⟨j, q, hq, hqr, by omega⟩
  · intro hall i p hsel hp j q hq hqr hlt
    have hq0 : 0 ≤ q.level := by
      rcases hall q (List.getElem?_mem hq) hqr with e | e | e <;> omega
    cases hs0 : mlfq_level_scan 0 k.proc 0 with
    | some r =>
      rw [hs0] at hsel
      cases hsel
      obtain ⟨p', hp', hpr', _⟩ := level_scan_first k.proc 0 i hs0
      rw [hp] at hp'
      cases hp'
      have := hpr'.2
      omega
    | none =>
      rw [hs0] at hsel
      have hn0 := level_scan_none k.proc 0 hs0
      cases hs1 : mlfq_level_scan 1 k.proc 0 with
      | some r =>
        rw [hs1] at hsel
        cases hsel
        obtain ⟨p', hp', hpr', _⟩ := level_scan_first k.proc 1 i hs1
        rw [hp] at hp'
        cases hp'
        have := hpr'.2
        exact hn0 ⟨j, q, hq, hqr, by omega⟩
      | none =>
        rw [hs1] at hsel
        have hn1 := level_scan_none k.proc 1 hs1
        obtain ⟨p', hp', hpr', _⟩ := l2_loop_best k.proc i hsel
        rw [hp] at hp'
        cases hp'
        have := hpr'.2
        by_cases hz : q.level = 0
        · exact hn0 ⟨j, q, hq, hqr, hz⟩
        · exact hn1 ⟨j, q, hq, hqr, by omega⟩

/-- The C2 theorem applied to a table with two RUNNABLE level-2 slots. -/
theorem mlfq_selection_order_witness :
    (SomeSlot (kernelOf tableA 1).proc (runnableAt 0) →
        ∃ i, scheduler_select (kernelOf tableA 1) = some i ∧
          FirstSlot (kernelOf tableA 1).proc (runnableAt 0) i) ∧
    (¬ SomeSlot (kernelOf tableA 1).proc (runnableAt 0) →
        SomeSlot (kernelOf tableA 1).proc (runnableAt 1) →
        ∃ i, scheduler_select (kernelOf tableA 1) = some i ∧
          FirstSlot (kernelOf tableA 1).proc (runnableAt 1) i) ∧
    (¬ SomeSlot (kernelOf tableA 1).proc (runnableAt 0) →
        ¬ SomeSlot (kernelOf tableA 1).proc (runnableAt 1) →
        SomeSlot (kernelOf tableA 1).proc (runnableAt 2) →
        ∃ i, scheduler_select (kernelOf tableA 1) = some i ∧
          BestL2 (kernelOf tableA 1).proc i) ∧
    (¬ SomeSlot (kernelOf tableA 1).proc (runnableAt 0) →
        ¬ SomeSlot (kernelOf tableA 1).proc (runnableAt 1) →
        ¬ SomeSlot (kernelOf tableA 1).proc (runnableAt 2) →
        scheduler_select (kernelOf tableA 1) = none) ∧
    (∀ i p, scheduler_select (kernelOf tableA 1) = some i →
        slotAt (kernelOf tableA 1).proc i = some p →
        p.state = RUNNABLE ∧ (p.level = 0 ∨ p.level = 1 ∨ p.level = 2)) ∧
    (∀ i p, scheduler_select (kernelOf tableA 1) = some i →
        slotAt (kernelOf tableA 1).proc i = some p →
        ∀ j q, slotAt (kernelOf tableA 1).proc j = some q → q.state = RUNNABLE →
          0 ≤ q.level → ¬ q.level < p.level) ∧
    ((∀ q ∈ (kernelOf tableA 1).proc,
        q.state = RUNNABLE → q.level = 0 ∨ q.level = 1 ∨ q.level = 2) →
      ∀ i p, scheduler_select (kernelOf tableA 1) = some i →
        slotAt (kernelOf tableA 1).proc i = some p →
        ∀ j q, slotAt (kernelOf tableA 1).proc j = some q → q.state = RUNNABLE →
          ¬ q.level < p.level) :=
  mlfq_selection_order (kernelOf tableA 1) rfl

/-! ## sys_setpriority -/

theorem toU64_neg_two : toU64 (-2) = 18446744073709551614 ∧ retInt (toU64 (-2)) = -2 := by
  decide

theorem toU64_neg_one : toU64 (-1) = 18446744073709551615 ∧ retInt (toU64 (-1)) = -1 := by
  decide

theorem toU64_zero : toU64 0 = 0 ∧ retInt (toU64 0) = 0 := by
  decide

/-- C3. For every pid and every priority argument below 0 or above 3,
`sys_setpriority` returns -2 (as `uint64`, read back by the caller as the `int`
-2) and hands back the kernel state it was given: no slot of the table changes,
whether or not some slot carries that pid. -/
theorem setpriority_out_of_range (k : Kernel) (pid priority_new : Int)
    (h : priority_new < 0 ∨ 3 < priority_new) :
    (sys_setpriority k pid priority_new).1 = toU64 (-2) ∧
    retInt (sys_setpriority k pid priority_new).1 = -2 ∧
    (sys_setpriority k pid priority_new).2 = k := by
  have hc : priority_new < 0 ∨ priority_new > 3 := h
  simp only [sys_setpriority, if_pos hc]
  exact ⟨trivial, toU64_neg_two.2, trivial⟩

/-- The C3 theorem at priority 5, for a pid that exists and for one that does not. -/
theorem setpriority_out_of_range_witness :
    ((sys_setpriority (kernelOf tableA 1) 5 5).1 = toU64 (-2) ∧
      retInt (sys_setpriority (kernelOf tableA 1) 5 5).1 = -2 ∧
      (sys_setpriority (kernelOf tableA 1) 5 5).2 = kernelOf tableA 1) ∧
    ((sys_setpriority (kernelOf tableA 1) 42 (-1)).1 = toU64 (-2) ∧
      retInt (sys_setpriority (kernelOf tableA 1) 42 (-1)).1 = -2 ∧
      (sys_setpriority (kernelOf tableA 1) 42 (-1)).2 = kernelOf tableA 1) :=
  ⟨setpriority_out_of_range (kernelOf tableA 1) 5 5 (Or.inr (by decide)),
   setpriority_out_of_range (kernelOf tableA 1) 42 (-1) (Or.inl (by decide))⟩

theorem setpriority_loop_none (pid prio : Int) :
    ∀ t : List Proc, setpriority_loop pid prio t = none ↔ ∀ p ∈ t, p.pid ≠ pid := by
  intro t
  induction t with
  | nil => simp [setpriority_loop]
  | cons p rest ih =>
    unfold setpriority_loop
    by_cases hp : p.pid = pid
    · simp [hp]
    · rw [if_neg hp]
      cases hres : setpriority_loop pid prio rest with
      | none =>
        have := ih.mp hres
        simp only [true_iff]
        intro q hq
        rcases List.mem_cons.mp hq with heq | hmem
        · subst heq
          exact hp
        · exact this q hmem
      | some r =>
        simp only [reduceCtorEq, false_iff]
        intro hall
        have hnone := ih.mpr (fun q hq => hall q (List.mem_cons_of_mem _ hq))
        rw [hres] at hnone
        cases hnone

theorem setpriority_loop_some (pid prio : Int) :
    ∀ (t t' : List Proc), setpriority_loop pid prio t = some t' →
      ∃ i p, t[i]? = some p ∧ p.pid = pid ∧ (∀ j q, j < i → t[j]? = some q → q.pid ≠ pid) ∧
        t' = t.set i { p with priority := prio } := by
  intro t
  induction t with
  | nil => intro t' h; simp [setpriority_loop] at h
  | cons p rest ih =>
    intro t' h
    unfold setpriority_loop at h
    by_cases hp : p.pid = pid
    · rw [if_pos hp] at h
      cases h
      exact ⟨0, p, by simp, hp, fun j q hj _ => absurd hj (Nat.not_lt_zero j), rfl⟩
    · rw [if_neg hp] at h
      cases hres : setpriority_loop pid prio rest with
      | none => rw [hres] at h; cases h
      | some r =>
        rw [hres] at h
        cases h
        obtain ⟨i, q, hq, hqp, hbefore, hr⟩ := ih r hres
        refine ⟨i + 1, q, by simpa using hq, hqp, ?_, by simp [hr]⟩
        intro j q' hj hq'
        cases j with
        | zero =>
          simp at hq'
          subst hq'
          exact hp
        | succ j =>
          exact hbefore j q' (Nat.lt_of_succ_lt_succ hj) (by simpa using hq')

/-- What `sys_setpriority` does for a priority in 0..3: when no slot carries the pid
it returns -1 and changes nothing; otherwise it returns 0 and stores the priority
in the first slot carrying the pid, whatever the state of that slot. -/
theorem setpriority_in_range (k : Kernel) (pid prio : Int) (h0 : 0 ≤ prio) (h3 : prio ≤ 3) :
    ((∀ p ∈ k.proc, p.pid ≠ pid) → sys_setpriority k pid prio = (toU64 (-1), k)) ∧
    (∀ i, FirstSlot k.proc (fun q => q.pid = pid) i →
      ∃ p, slotAt k.proc i = some p ∧
        sys_setpriority k pid prio =
          (toU64 0, { k with proc := k.proc.set i { p with priority := prio } })) := by
  have hc : ¬ (prio < 0 ∨ prio > 3) := by omega
  constructor
  · intro hno
    simp only [sys_setpriority, if_neg hc, (setpriority_loop_none pid prio k.proc).mpr hno]
  · rintro i ⟨p, hp, hpp, hfirst⟩
    refine ⟨p, hp, ?_⟩
    cases hres : setpriority_loop pid prio k.proc with
    | none =>
      have hall := (setpriority_loop_none pid prio k.proc).mp hres
      exact absurd hpp (hall p (List.getElem?_mem hp))
    | some t' =>
      obtain ⟨i', p', hp', hpp', hbefore, ht'⟩ := setpriority_loop_some pid prio k.proc t' hres
      have hii : i' = i := by
        rcases Nat.lt_trichotomy i' i with hlt | heq | hgt
        · exact absurd hpp' (hfirst i' p' hlt hp')
        · exact heq
        · exact absurd hpp (hbefore i p hgt hp)
      subst hii
      have hpe : p' = p := by
        unfold slotAt at hp
        rw [hp] at hp'
        cases hp'
        rfl
      subst hpe
      simp only [sys_setpriority, if_neg hc, hres, ht']

/-- C4, the code at pid 0: with one running process and a free slot, no process has
pid 0, yet `sys_setpriority(0, 2)` returns 0 and writes priority 2 into the free
slot. -/
theorem setpriority_pid_zero_hits_free_slot :
    (∀ q ∈ [liveProc RUNNING 1 0 3, zeroProc], q.state ≠ UNUSED → q.pid ≠ 0) ∧
    sys_setpriority (kernelOf [liveProc RUNNING 1 0 3, zeroProc] 1) 0 2 =
      (0, kernelOf [liveProc RUNNING 1 0 3, { zeroProc with priority := 2 }] 1) := by
  decide

/-! ## Mode switches -/

theorem slotAt_map (f : Proc → Proc) (t : List Proc) (i : Nat) :
    slotAt (t.map f) i = (slotAt t i).map f := by
  simp [slotAt]

/-- C5. Asking for the mode the system is already in fails and changes nothing:
`sys_mlfqmode` in mode 1 returns -1 and leaves the process table, `scheduling_mode`
and `new_tick` as they were, and so does `sys_fcfsmode` in mode 0. The only effect
is the diagnostic printed on the console. -/
theorem mode_switch_same_mode_fails (k1 k0 : Kernel)
    (h1 : k1.scheduling_mode = 1) (h0 : k0.scheduling_mode = 0) :
    ((sys_mlfqmode k1).1 = toU64 (-1) ∧ retInt (sys_mlfqmode k1).1 = -1 ∧
      (sys_mlfqmode k1).2.proc = k1.proc ∧
      (sys_mlfqmode k1).2.scheduling_mode = k1.scheduling_mode ∧
      (sys_mlfqmode k1).2.new_tick = k1.new_tick ∧
      (sys_mlfqmode k1).2 = { k1 with console := (sys_mlfqmode k1).2.console }) ∧
    ((sys_fcfsmode k0).1 = toU64 (-1) ∧ retInt (sys_fcfsmode k0).1 = -1 ∧
      (sys_fcfsmode k0).2.proc = k0.proc ∧
      (sys_fcfsmode k0).2.scheduling_mode = k0.scheduling_mode ∧
      (sys_fcfsmode k0).2.new_tick = k0.new_tick ∧
      (sys_fcfsmode k0).2 = { k0 with console := (sys_fcfsmode k0).2.console }) := by
  simp only [sys_mlfqmode, sys_fcfsmode, if_pos h1, if_pos h0]
  exact ⟨⟨trivial, toU64_neg_one.2, trivial, trivial, trivial, trivial⟩,
    ⟨trivial, toU64_neg_one.2, trivial, trivial, trivial, trivial⟩⟩

/-- The C5 theorem on a sample table, once in each mode. -/
theorem mode_switch_same_mode_fails_witness :
    ((sys_mlfqmode (kernelOf tableA 1)).1 = toU64 (-1) ∧
      retInt (sys_mlfqmode (kernelOf tableA 1)).1 = -1 ∧
      (sys_mlfqmode (kernelOf tableA 1)).2.proc = (kernelOf tableA 1).proc ∧
      (sys_mlfqmode (kernelOf tableA 1)).2.scheduling_mode =
        (kernelOf tableA 1).scheduling_mode ∧
      (sys_mlfqmode (kernelOf tableA 1)).2.new_tick = (kernelOf tableA 1).new_tick ∧
      (sys_mlfqmode (kernelOf tableA 1)).2 =
        { kernelOf tableA 1 with console := (sys_mlfqmode (kernelOf tableA 1)).2.console }) ∧
    ((sys_fcfsmode (kernelOf tableA 0)).1 = toU64 (-1) ∧
      retInt (sys_fcfsmode (kernelOf tableA 0)).1 = -1 ∧
      (sys_fcfsmode (kernelOf tableA 0)).2.proc = (kernelOf tableA 0).proc ∧
      (sys_fcfsmode (kernelOf tableA 0)).2.scheduling_mode =
        (kernelOf tableA 0).scheduling_mode ∧
      (sys_fcfsmode (kernelOf tableA 0)).2.new_tick = (kernelOf tableA 0).new_tick ∧
      (sys_fcfsmode (kernelOf tableA 0)).2 =
        { kernelOf tableA 0 with console := (sys_fcfsmode (kernelOf tableA 0)).2.console }) :=
  mode_switch_same_mode_fails (kernelOf tableA 1) (kernelOf tableA 0) rfl rfl

/-- C6. A successful mode switch. `sys_mlfqmode` in mode 0 returns 0, sets
`scheduling_mode` to 1 and `new_tick` to 0, and every RUNNABLE or SLEEPING slot gets
level 0, ticks_used 0, priority 3; `sys_fcfsmode` in mode 1 returns 0, sets
`scheduling_mode` to 0 and `new_tick` to 0, and every RUNNABLE or SLEEPING slot gets
level, ticks_used and priority -1. In both, a slot in any other state is unchanged,
no other field of any slot changes, the table keeps its length, and the other
globals are unchanged. -/
theorem mode_switch_succeeds (k0 k1 : Kernel)
    (h0 : k0.scheduling_mode = 0) (h1 : k1.scheduling_mode = 1) :
    ((sys_mlfqmode k0).1 = 0 ∧
      (sys_mlfqmode k0).2.scheduling_mode = 1 ∧ (sys_mlfqmode k0).2.new_tick = 0 ∧
      (sys_mlfqmode k0).2.proc.length = k0.proc.length ∧
      (∀ i p, slotAt k0.proc i = some p →
        ((p.state = RUNNABLE ∨ p.state = SLEEPING) →
          slotAt (sys_mlfqmode k0).2.proc i =
            some { p with level := 0, ticks_used := 0, priority := 3 }) ∧
        (¬ (p.state = RUNNABLE ∨ p.state = SLEEPING) →
          slotAt (sys_mlfqmode k0).2.proc i = some p)) ∧
      (sys_mlfqmode k0).2 =
        { k0 with proc := (sys_mlfqmode k0).2.proc, scheduling_mode := 1, new_tick := 0 }) ∧
    ((sys_fcfsmode k1).1 = 0 ∧
      (sys_fcfsmode k1).2.scheduling_mode = 0 ∧ (sys_fcfsmode k1).2.new_tick = 0 ∧
      (sys_fcfsmode k1).2.proc.length = k1.proc.length ∧
      (∀ i p, slotAt k1.proc i = some p →
        ((p.state = RUNNABLE ∨ p.state = SLEEPING) →
          slotAt (sys_fcfsmode k1).2.proc i =
            some { p with level := -1, ticks_used := -1, priority := -1 }) ∧
        (¬ (p.state = RUNNABLE ∨ p.state = SLEEPING) →
          slotAt (sys_fcfsmode k1).2.proc i = some p)) ∧
      (sys_fcfsmode k1).2 =
        { k1 with proc := (sys_fcfsmode k1).2.proc, scheduling_mode := 0, new_tick := 0 }) := by
  have hn1 : ¬ k0.scheduling_mode = 1 := by rw [h0]; decide
  have hn0 : ¬ k1.scheduling_mode = 0 := by rw [h1]; decide
  simp only [sys_mlfqmode, sys_fcfsmode, if_neg hn1, if_neg hn0]
  refine ⟨⟨toU64_zero.1, trivial, trivial, by simp, ?_, trivial⟩,
    ⟨toU64_zero.1, trivial, trivial, by simp, ?_, trivial⟩⟩
  · intro i p hp
    constructor
    · intro hs
      rw [slotAt_map, hp]
      simp [mlfqmode_slot, hs]
    · intro hs
      rw [slotAt_map, hp]
      simp [mlfqmode_slot, hs]
  · intro i p hp
    constructor
    · intro hs
      rw [slotAt_map, hp]
      simp [fcfsmode_slot, hs]
    · intro hs
      rw [slotAt_map, hp]
      simp [fcfsmode_slot, hs]

/-- The C6 theorem on a sample table: the two switches succeed, and the sleeping
slot 0 and the zero slot 3 come out as the theorem says. -/
theorem mode_switch_succeeds_witness :
    ((sys_mlfqmode (kernelOf tableA 0)).1 = 0 ∧
      (sys_mlfqmode (kernelOf tableA 0)).2.scheduling_mode = 1 ∧
      (sys_mlfqmode (kernelOf tableA 0)).2.new_tick = 0 ∧
      slotAt (sys_mlfqmode (kernelOf tableA 0)).2.proc 1 = some (liveProc RUNNABLE 5 0 3) ∧
      slotAt (sys_mlfqmode (kernelOf tableA 0)).2.proc 3 = some zeroProc) ∧
    ((sys_fcfsmode (kernelOf tableA 1)).1 = 0 ∧
      (sys_fcfsmode (kernelOf tableA 1)).2.scheduling_mode = 0 ∧
      (sys_fcfsmode (kernelOf tableA 1)).2.new_tick = 0 ∧
      slotAt (sys_fcfsmode (kernelOf tableA 1)).2.proc 1 =
        some { liveProc RUNNABLE 5 2 1 with level := -1, ticks_used := -1, priority := -1 } ∧
      slotAt (sys_fcfsmode (kernelOf tableA 1)).2.proc 3 = some zeroProc) :=
  have h := mode_switch_succeeds (kernelOf tableA 0) (kernelOf tableA 1) rfl rfl
  ⟨⟨h.1.1, h.1.2.1, h.1.2.2.1,
      (h.1.2.2.2.2.1 1 (liveProc RUNNABLE 5 2 1) rfl).1 (Or.inl rfl),
      (h.1.2.2.2.2.1 3 zeroProc rfl).2 (by decide)⟩,
    ⟨h.2.1, h.2.2.1, h.2.2.2.1,
      (h.2.2.2.2.2.1 1 (liveProc RUNNABLE 5 2 1) rfl).1 (Or.inl rfl),
      (h.2.2.2.2.2.1 3 zeroProc rfl).2 (by decide)⟩⟩

/-! ## sys_getlev -/

/-- In FCFS mode `sys_getlev` returns 99, whoever calls it. -/
theorem getlev_fcfs (k : Kernel) (self : Nat) (h : k.scheduling_mode = 0) :
    sys_getlev k self = some 99 := by
  simp [sys_getlev, h]

/-- In any other mode `sys_getlev` returns the `level` field of the calling slot,
converted to `uint64`. -/
theorem getlev_mlfq (k : Kernel) (self : Nat) (p : Proc) (h : k.scheduling_mode = 1)
    (hp : slotAt k.proc self = some p) : sys_getlev k self = some (toU64 p.level) := by
  simp [sys_getlev, h, hp]

theorem runA_reachable : Reachable 3 runA8 := by
  have h1 : Reachable 3 runA1 :=
    Reachable.boot (fun i => i) (envOk 100) 1 runA1 (by decide)
  have h2 : Reachable 3 runA2 :=
    Reachable.step _ _ h1 (Step.dispatch runA1 (by decide))
  have h3 : Reachable 3 runA3 :=
    Reachable.step _ _ h2
      (Step.fork runA2 0 (envOk 101) 0 2 runA3 ⟨_, rfl, rfl⟩ (by decide))
  have h4 : Reachable 3 runA4 :=
    Reachable.step _ _ h3 (Step.mlfqmode runA3 0 ⟨_, rfl, rfl⟩)
  have h5 : Reachable 3 runA5 :=
    Reachable.step _ _ h4 (Step.fcfsmode runA4 0 ⟨_, rfl, rfl⟩)
  have h6 : Reachable 3 runA6 :=
    Reachable.step _ _ h5 (Step.sleep runA5 0 (Chan.addr 1) ⟨_, rfl, rfl⟩)
  have h7 : Reachable 3 runA7 :=
    Reachable.step _ _ h6 (Step.dispatch runA6 (by decide))
  exact Reachable.step _ _ h7 (Step.mlfqmode runA7 1 ⟨_, rfl, rfl⟩)

/-- C7, the code on a run from boot. After `init` has switched to MLFQ and back to
FCFS while pid 2 was RUNNABLE, and pid 2 has then switched to MLFQ itself, the
system is in mode 1, pid 2 is running with level -1, and its `sys_getlev` returns
`(uint64)-1`, which is none of 0, 1, 2. -/
theorem getlev_sentinel_after_mode_switches :
    Reachable 3 runA8 ∧ runA8.scheduling_mode = 1 ∧
    (∃ p, slotAt runA8.proc 1 = some p ∧ p.state = RUNNING ∧ p.level = -1) ∧
    sys_getlev runA8 1 = some 18446744073709551615 ∧
    retInt 18446744073709551615 = -1 :=
  ⟨runA_reachable, by decide, ⟨_, rfl, rfl, rfl⟩, by decide, by decide⟩

/-! ## kill -/

theorem kill_target_none (pid : Int) :
    ∀ t : List Proc, (∀ p ∈ t, p.pid ≠ pid) → kill_target pid t = none := by
  intro t
  induction t with
  | nil => intro _; rfl
  | cons p rest ih =>
    intro h
    unfold kill_target
    rw [if_neg (h p (List.mem_cons_self _ _))]
    exact ih (fun q hq => h q (List.mem_cons_of_mem _ hq))

theorem kill_target_first (pid : Int) :
    ∀ (t : List Proc) (i : Nat) (p : Proc), t[i]? = some p → p.pid = pid →
      (∀ j q, j < i → t[j]? = some q → q.pid ≠ pid) → kill_target pid t = some p := by
  intro t
  induction t with
  | nil => intro i p h; simp at h
  | cons a rest ih =>
    intro i p hp hpp hbefore
    unfold kill_target
    cases i with
    | zero =>
      simp at hp
      subst hp
      rw [if_pos hpp]
    | succ i =>
      have ha : a.pid ≠ pid := hbefore 0 a (Nat.succ_pos i) (by simp)
      rw [if_neg ha]
      apply ih i p (by simpa using hp) hpp
      intro j q hj hq
      exact hbefore (j + 1) q (Nat.succ_lt_succ hj) (by simpa using hq)

/-- What `kill` does. When no slot carries the pid it returns -1 and changes nothing.
Otherwise the target is the first slot carrying the pid, whatever its state: `kill`
returns 0, every slot whose page table equals the target's gets `killed = 1` and, if
it was SLEEPING, becomes RUNNABLE, and every other slot and field is unchanged. -/
theorem kill_effect (k : Kernel) (pid : Int) :
    ((∀ p ∈ k.proc, p.pid ≠ pid) → kill k pid = (-1, k)) ∧
    (∀ i, FirstSlot k.proc (fun q => q.pid = pid) i →
      ∃ target, slotAt k.proc i = some target ∧ (kill k pid).1 = 0 ∧
        (kill k pid).2 = { k with proc := (kill k pid).2.proc } ∧
        (kill k pid).2.proc.length = k.proc.length ∧
        ∀ j q, slotAt k.proc j = some q →
          (q.pagetable = target.pagetable →
            slotAt (kill k pid).2.proc j =
              some { q with killed := 1,
                            state := if q.state = SLEEPING then RUNNABLE else q.state }) ∧
          (q.pagetable ≠ target.pagetable → slotAt (kill k pid).2.proc j = some q)) := by
  constructor
  · intro h
    simp only [kill, kill_target_none pid k.proc h]
  · rintro i ⟨target, ht, htp, hbefore⟩
    refine ⟨target, ht, ?_⟩
    have hk : kill_target pid k.proc = some target :=
      kill_target_first pid k.proc i target ht htp hbefore
    simp only [kill, hk]
    refine ⟨trivial, trivial, by simp, ?_⟩
    intro j q hq
    constructor
    · intro hpt
      rw [slotAt_map, hq]
      by_cases hs : q.state = SLEEPING
      · simp [kill_slot, hpt, hs]
      · simp [kill_slot, hpt, hs]
    · intro hpt
      rw [slotAt_map, hq]
      simp [kill_slot, hpt]

/-- C8, the code at pid 0: with one running process and a free slot, no process has
pid 0, yet `kill(0)` returns 0 and sets `killed` on the free slot, whose page table
is the null one the slot found for pid 0 has. -/
theorem kill_pid_zero_marks_free_slot :
    (∀ q ∈ [liveProc RUNNING 1 0 3, zeroProc], q.state ≠ UNUSED → q.pid ≠ 0) ∧
    kill (kernelOf [liveProc RUNNING 1 0 3, zeroProc] 0) 0 =
      (0, kernelOf [liveProc RUNNING 1 0 3, { zeroProc with killed := 1 }] 0) := by
  decide

/-! ## wait and join -/

theorem wait_scan_found (self : Nat) :
    ∀ (rest : List Proc) (off : Nat) (havekids : Bool) (j : Nat) (c : Proc),
      rest[j]? = some c → zombieChildOf self c →
      (∀ j' q, j' < j → rest[j']? = some q → ¬ zombieChildOf self q) →
      wait_scan self rest off havekids = (some (off + j, c), true) := by
  intro rest
  induction rest with
  | nil => intro off hk j c h; simp at h
  | cons p rest ih =>
    intro off hk j c hc hz hbefore
    unfold wait_scan
    cases j with
    | zero =>
      simp at hc
      subst hc
      rw [if_pos hz.1, if_pos hz.2]
      rfl
    | succ j =>
      have hp : ¬ zombieChildOf self p := hbefore 0 p (Nat.succ_pos j) (by simp)
      have hrest : ∀ j' q, j' < j → rest[j']? = some q → ¬ zombieChildOf self q := by
        intro j' q hj hq
        exact hbefore (j' + 1) q (Nat.succ_lt_succ hj) (by simpa using hq)
      have hidx : off + (j + 1) = off + 1 + j := by omega
      rw [hidx]
      by_cases hpar : p.parent = some self
      · rw [if_pos hpar]
        have hnz : ¬ p.state = ZOMBIE := fun h => hp ⟨hpar, h⟩
        rw [if_neg hnz]
        exact ih (off + 1) true j c (by simpa using hc) hz hrest
      · rw [if_neg hpar]
        exact ih (off + 1) hk j c (by simpa using hc) hz hrest

theorem wait_scan_first (self : Nat) (t : List Proc) (i : Nat) (c : Proc)
    (hc : slotAt t i = some c) (hz : zombieChildOf self c)
    (hfirst : ∀ j q, j < i → slotAt t j = some q → ¬ zombieChildOf self q) :
    wait_scan self t 0 false = (some (i, c), true) := by
  have h := wait_scan_found self t 0 false i c hc hz hfirst
  simpa using h

theorem slotAt_set_ne (t : List Proc) (i j : Nat) (p : Proc) (h : j ≠ i) :
    slotAt (t.set i p) j = slotAt t j := by
  unfold slotAt
  exact List.getElem?_set_ne (Ne.symm h)

theorem slotAt_set_eq (t : List Proc) (i : Nat) (p c : Proc) (h : slotAt t i = some c) :
    slotAt (t.set i p) i = some p := by
  unfold slotAt
  simp [slot_lt_length h]

/-- C9. Reaping on success. Let the running caller in slot `self` have a ZOMBIE
child, `child` in slot `i` being the first one in table order, and let `t` be the
table with slot `i` alone replaced by the freed slot. If the copy to user memory
succeeds (or no address is given), `wait` returns the child's pid, having copied out
its `xstate` to the address supplied, and leaves the table `t`. If the copy
succeeds, `join` returns the child's pid, having copied out its `user_stack` to the
address supplied, and leaves the table `t`. In `t` slot `i` is UNUSED with pid,
parent, pagetable, trapframe, sz, chan, killed and xstate cleared, and every other
slot is as before. -/
theorem reap_first_zombie_child (copyout : Nat → Nat → Nat → Int) (k : Kernel)
    (self addr stack i : Nat) (caller child : Proc)
    (hself : slotAt k.proc self = some caller) (hrun : caller.state = RUNNING)
    (hchild : slotAt k.proc i = some child) (hz : zombieChildOf self child)
    (hfirst : ∀ j q, j < i → slotAt k.proc j = some q → ¬ zombieChildOf self q) :
    ∃ t,
      ((addr = 0 ∨ ¬ copyout caller.pagetable addr 4 < 0) →
        wait copyout k self addr =
          some (WaitResult.ret child.pid { k with proc := t }
            (if addr ≠ 0 then some ⟨caller.pagetable, addr, child.xstate, 4⟩ else none))) ∧
      (¬ copyout caller.pagetable stack 8 < 0 →
        join copyout k self stack =
          some (WaitResult.ret child.pid { k with proc := t }
            (some ⟨caller.pagetable, stack, child.user_stack, 8⟩))) ∧
      t.length = k.proc.length ∧
      (∀ j, j ≠ i → slotAt t j = slotAt k.proc j) ∧
      ∃ c, slotAt t i = some c ∧ c.state = UNUSED ∧ c.pid = 0 ∧ c.parent = none ∧
        c.pagetable = 0 ∧ c.trapframe = 0 ∧ c.sz = 0 ∧ c.chan = none ∧ c.killed = 0 ∧
        c.xstate = 0 := by
  have hscan := wait_scan_first self k.proc i child hchild hz hfirst
  have hne : self ≠ i := by
    intro h
    subst h
    rw [hself] at hchild
    cases hchild
    have hzs := hz.2
    rw [hrun] at hzs
    exact absurd hzs (by decide)
  refine ⟨k.proc.set i (freeproc child), ?_, ?_, by simp, ?_, ?_⟩
  · intro hwait
    simp only [wait, hself, hscan]
    have hno : ¬ (addr ≠ 0 ∧ copyout caller.pagetable addr 4 < 0) := by
      rintro ⟨ha, hc⟩
      rcases hwait with h | h
      · exact ha h
      · exact h hc
    rw [if_neg hno]
  · intro hjoin
    simp only [join, hself, hscan, slotAt_set_ne k.proc i self (freeproc child) hne]
    rw [if_neg hjoin]
  · intro j hj
    exact slotAt_set_ne k.proc i j (freeproc child) hj
  · exact ⟨freeproc child, slotAt_set_eq k.proc i (freeproc child) child hchild,
      rfl, rfl, rfl, rfl, rfl, rfl, rfl, rfl, rfl⟩

/-- In `tableC` the exited child in slot 2 is the first ZOMBIE child of slot 0. -/
theorem tableC_first_zombie :
    ∀ j q, j < 2 → slotAt (kernelOf tableC 0).proc j = some q → ¬ zombieChildOf 0 q := by
  intro j q hj hq hzq
  have hj2 : j = 0 ∨ j = 1 := by omega
  rcases hj2 with h | h
  · subst h
    cases hq
    exact absurd hzq.1 (by decide)
  · subst h
    cases hq
    exact absurd hzq.2 (by decide)

/-- The C9 theorem on a table where the exited child pid 7 sits behind a live child:
`wait` and `join` both return 7 and copy out its exit status 7 and its user stack
8192. -/
theorem reap_first_zombie_child_witness :
    ∃ t,
      wait copyoutOk (kernelOf tableC 0) 0 512 =
        some (WaitResult.ret 7 { kernelOf tableC 0 with proc := t } (some ⟨3, 512, 7, 4⟩)) ∧
      join copyoutOk (kernelOf tableC 0) 0 1024 =
        some (WaitResult.ret 7 { kernelOf tableC 0 with proc := t }
          (some ⟨3, 1024, 8192, 8⟩)) ∧
      slotAt t 1 = slotAt tableC 1 ∧
      ∃ c, slotAt t 2 = some c ∧ c.state = UNUSED ∧ c.pid = 0 ∧ c.pagetable = 0 :=
  match reap_first_zombie_child copyoutOk (kernelOf tableC 0) 0 512 1024 2
    (liveProc RUNNING 3 0 3)
    { liveProc ZOMBIE 7 0 3 with parent := some 0, xstate := 7, user_stack := 8192 }
    rfl rfl rfl ⟨rfl, rfl⟩ tableC_first_zombie with
  | ⟨t, hw, hj, _, hother, c, hc, hst, hpid, _, hpt, _⟩ =>
    ⟨t, hw (Or.inr (by decide)), hj (by decide), hother 1 (by decide), c, hc, hst, hpid, hpt⟩

/-- C10. `wait` is atomic on copy failure. When the caller's first ZOMBIE child is
`child` in slot `i`, a non-null address is given and `copyout` fails, `wait`
returns -1 and the kernel state is untouched: slot `i` still holds the child as a
ZOMBIE with its pid, xstate, pagetable and trapframe, and a later `wait` whose
copy succeeds returns that child's pid. -/
theorem wait_copy_failure_keeps_child (copyout : Nat → Nat → Nat → Int) (k : Kernel)
    (self addr i : Nat) (caller child : Proc)
    (hself : slotAt k.proc self = some caller)
    (hchild : slotAt k.proc i = some child) (hz : zombieChildOf self child)
    (hfirst : ∀ j q, j < i → slotAt k.proc j = some q → ¬ zombieChildOf self q)
    (haddr : addr ≠ 0) (hfail : copyout caller.pagetable addr 4 < 0) :
    (∃ k', wait copyout k self addr = some (WaitResult.ret (-1) k' none) ∧ k' = k ∧
      ∃ c, slotAt k'.proc i = some c ∧ c.state = ZOMBIE ∧ c.pid = child.pid ∧
        c.xstate = child.xstate ∧ c.pagetable = child.pagetable ∧
        c.trapframe = child.trapframe ∧
        ∀ (copyout' : Nat → Nat → Nat → Int) (addr' : Nat),
          (addr' = 0 ∨ ¬ copyout' caller.pagetable addr' 4 < 0) →
          wait copyout' k' self addr' =
            some (WaitResult.ret child.pid { k with proc := k.proc.set i (freeproc child) }
              (if addr' ≠ 0 then some ⟨caller.pagetable, addr', child.xstate, 4⟩ else none))) := by
  have hscan := wait_scan_first self k.proc i child hchild hz hfirst
  refine ⟨k, ?_, rfl, child, hchild, hz.2, rfl, rfl, rfl, rfl, ?_⟩
  · simp only [wait, hself, hscan]
    rw [if_pos ⟨haddr, hfail⟩]
  · intro copyout' addr' hok
    simp only [wait, hself, hscan]
    have hno : ¬ (addr' ≠ 0 ∧ copyout' caller.pagetable addr' 4 < 0) := by
      rintro ⟨ha, hc⟩
      rcases hok with h | h
      · exact ha h
      · exact h hc
    rw [if_neg hno]

/-- The C10 theorem on the same table with a failing `copyout`: `wait` returns -1,
and the exited child pid 7 is still there for a second `wait`. -/
theorem wait_copy_failure_keeps_child_witness :
    ∃ k', wait copyoutFail (kernelOf tableC 0) 0 512 = some (WaitResult.ret (-1) k' none) ∧
      k' = kernelOf tableC 0 ∧
      ∃ c, slotAt k'.proc 2 = some c ∧ c.state = ZOMBIE ∧ c.pid = 7 ∧ c.xstate = 7 ∧
        wait copyoutOk k' 0 512 =
          some (WaitResult.ret 7
            { kernelOf tableC 0 with proc := tableC.set 2 (freeproc
              { liveProc ZOMBIE 7 0 3 with parent := some 0, xstate := 7, user_stack := 8192 }) }
            (some ⟨3, 512, 7, 4⟩)) :=
  match wait_copy_failure_keeps_child copyoutFail (kernelOf tableC 0) 0 512 2
    (liveProc RUNNING 3 0 3)
    { liveProc ZOMBIE 7 0 3 with parent := some 0, xstate := 7, user_stack := 8192 }
    rfl rfl ⟨rfl, rfl⟩ tableC_first_zombie (by decide) (by decide) with
  | ⟨k', hw, hk, c, hc, hst, hpid, hx, _, _, hretry⟩ =>
    ⟨k', hw, hk, c, hc, hst, hpid, hx, hretry copyoutOk 512 (Or.inr (by decide))⟩

/-- What `join` does when the copy fails. When the running caller's first ZOMBIE
child is `child` in slot `i` and `copyout` fails, `join` returns -1 and the table
it leaves has slot `i` freed. -/
theorem join_copy_failure_effect (copyout : Nat → Nat → Nat → Int) (k : Kernel)
    (self stack i : Nat) (caller child : Proc)
    (hself : slotAt k.proc self = some caller) (hrun : caller.state = RUNNING)
    (hchild : slotAt k.proc i = some child) (hz : zombieChildOf self child)
    (hfirst : ∀ j q, j < i → slotAt k.proc j = some q → ¬ zombieChildOf self q)
    (hfail : copyout caller.pagetable stack 8 < 0) :
    join copyout k self stack =
      some (WaitResult.ret (-1) { k with proc := k.proc.set i (freeproc child) } none) := by
  have hscan := wait_scan_first self k.proc i child hchild hz hfirst
  have hne : self ≠ i := by
    intro h
    subst h
    rw [hself] at hchild
    cases hchild
    have hzs := hz.2
    rw [hrun] at hzs
    exact absurd hzs (by decide)
  simp only [join, hself, hscan, slotAt_set_ne k.proc i self (freeproc child) hne]
  rw [if_pos hfail]

/-- C11, the code on a failing copy: the caller in slot 0 has one child, the ZOMBIE
pid 7 in slot 1. With a failing `copyout`, `join` returns -1 and leaves slot 1
UNUSED with pid 0; a second `join`, whose copy would succeed, finds no child and
returns -1 as well. -/
theorem join_copy_failure_reaps_child :
    (∃ k', join copyoutFail (kernelOf tableD 0) 0 1024 = some (WaitResult.ret (-1) k' none) ∧
      (∃ c, slotAt k'.proc 1 = some c ∧ c.state = UNUSED ∧ c.pid = 0) ∧
      join copyoutOk k' 0 1024 = some (WaitResult.ret (-1) k' none)) ∧
    wait copyoutFail (kernelOf tableD 0) 0 1024 =
      some (WaitResult.ret (-1) (kernelOf tableD 0) none) :=
  ⟨⟨_, rfl, ⟨_, rfl, rfl, rfl⟩, by decide⟩, by decide⟩

/-! ## boost_priority_all -/

/-- C17. `boost_priority_all` sets level 0, ticks_used 0, priority 3 on every slot
whose state is RUNNABLE, RUNNING or SLEEPING, leaves every slot in state UNUSED,
USED or ZOMBIE as it is, changes no other field of any slot (the state included),
and touches nothing but the table. -/
theorem boost_effect (k : Kernel) (i : Nat) (p : Proc) (hp : slotAt k.proc i = some p) :
    ((p.state = RUNNABLE ∨ p.state = RUNNING ∨ p.state = SLEEPING) →
      slotAt (boost_priority_all k).proc i =
        some { p with level := 0, ticks_used := 0, priority := 3 }) ∧
    ((p.state = UNUSED ∨ p.state = USED ∨ p.state = ZOMBIE) →
      slotAt (boost_priority_all k).proc i = some p) ∧
    (boost_priority_all k).proc.length = k.proc.length ∧
    boost_priority_all k = { k with proc := (boost_priority_all k).proc } := by
  refine ⟨?_, ?_, by simp [boost_priority_all], rfl⟩
  · intro hs
    simp only [boost_priority_all]
    rw [slotAt_map, hp]
    simp [boost_slot, hs]
  · intro hs
    have hno : ¬ (p.state = RUNNABLE ∨ p.state = RUNNING ∨ p.state = SLEEPING) := by
      rcases hs with h | h | h <;> rw [h] <;> decide
    simp only [boost_priority_all]
    rw [slotAt_map, hp]
    simp [boost_slot, hno]

/-- The C17 theorem on a sample table: the RUNNABLE slot 1 is reset, the free slot 3
is left alone. -/
theorem boost_effect_witness :
    slotAt (boost_priority_all (kernelOf tableA 1)).proc 1 = some (liveProc RUNNABLE 5 0 3) ∧
    slotAt (boost_priority_all (kernelOf tableA 1)).proc 3 = some zeroProc :=
  ⟨(boost_effect (kernelOf tableA 1) 1 (liveProc RUNNABLE 5 2 1) rfl).1 (Or.inl rfl),
   (boost_effect (kernelOf tableA 1) 3 zeroProc rfl).2.1 (Or.inl rfl)⟩

theorem boost_slot_idem (p : Proc) : boost_slot (boost_slot p) = boost_slot p := by
  by_cases hs : p.state = RUNNABLE ∨ p.state = RUNNING ∨ p.state = SLEEPING
  · simp [boost_slot, hs]
  · simp [boost_slot, hs]

/-- C18. Boost is idempotent: applying `boost_priority_all` twice in succession
gives the same table, and the same kernel state, as applying it once. -/
theorem boost_idempotent (k : Kernel) :
    boost_priority_all (boost_priority_all k) = boost_priority_all k ∧
    (boost_priority_all (boost_priority_all k)).proc = (boost_priority_all k).proc := by
  have h : (k.proc.map boost_slot).map boost_slot = k.proc.map boost_slot := by
    rw [List.map_map]
    apply List.map_congr_left
    intro p _
    exact boost_slot_idem p
  simp only [boost_priority_all, h]
  exact ⟨trivial, trivial⟩

/-! ## growproc -/

theorem growproc_slot_pagetable (pagetable sz : Nat) (t : Proc) :
    (growproc_slot pagetable sz t).pagetable = t.pagetable := by
  unfold growproc_slot
  split <;> rfl

theorem growproc_slot_sz (pagetable sz : Nat) (t : Proc) :
    (growproc_slot pagetable sz t).sz = if t.pagetable = pagetable then sz else t.sz := by
  unfold growproc_slot
  split <;> rfl

theorem growproc_slot_coherent (t : List Proc) (pagetable sz : Nat) (h : sizeCoherent t) :
    sizeCoherent (t.map (growproc_slot pagetable sz)) := by
  intro i j a b ha hb hab
  rw [slotAt_map] at ha hb
  cases hta : slotAt t i with
  | none => rw [hta] at ha; cases ha
  | some a0 =>
    cases htb : slotAt t j with
    | none => rw [htb] at hb; cases hb
    | some b0 =>
      rw [hta] at ha
      rw [htb] at hb
      simp only [Option.map_some', Option.some.injEq] at ha hb
      subst ha
      subst hb
      rw [growproc_slot_pagetable, growproc_slot_pagetable] at hab
      rw [growproc_slot_sz, growproc_slot_sz]
      by_cases h1 : a0.pagetable = pagetable
      · have h2 : b0.pagetable = pagetable := by rw [← hab]; exact h1
        rw [if_pos h1, if_pos h2]
      · have h2 : ¬ b0.pagetable = pagetable := by rw [← hab]; exact h1
        rw [if_neg h1, if_neg h2]
        exact h i j a0 b0 hta htb hab

/-- C15. `growproc` keeps the sizes of a thread group coherent. Let the caller be
`p` in slot `self` and let the new size be what `uvmalloc` returned for `n > 0`,
what `uvmdealloc` returned for `n < 0`, and `p.sz` for `n = 0`. A failing
`growproc` (`n > 0` and `uvmalloc` returning 0) returns -1 and leaves the state as
it is. Any other `growproc` returns 0, sets `sz` to the new size on every slot whose
page table equals the caller's, and leaves every other slot and every other field
unchanged. In both cases, if all slots sharing a page table had equal `sz` before
the call, they have equal `sz` after it. -/
theorem growproc_coherent (k : Kernel) (self : Nat) (n : Int) (uvmalloc uvmdealloc : Nat)
    (p : Proc) (hself : slotAt k.proc self = some p) :
    ((n > 0 ∧ uvmalloc = 0) → growproc k self n uvmalloc uvmdealloc = some (-1, k)) ∧
    (¬ (n > 0 ∧ uvmalloc = 0) →
      ∃ k', growproc k self n uvmalloc uvmdealloc = some (0, k') ∧
        k' = { k with proc := k'.proc } ∧ k'.proc.length = k.proc.length ∧
        ∀ j t, slotAt k.proc j = some t →
          (t.pagetable = p.pagetable →
            slotAt k'.proc j =
              some { t with sz := if n > 0 then uvmalloc else if n < 0 then uvmdealloc
                                  else p.sz }) ∧
          (t.pagetable ≠ p.pagetable → slotAt k'.proc j = some t)) ∧
    (∀ r k', growproc k self n uvmalloc uvmdealloc = some (r, k') →
      sizeCoherent k.proc → sizeCoherent k'.proc) := by
  have hshape : ¬ (n > 0 ∧ uvmalloc = 0) →
      growproc k self n uvmalloc uvmdealloc =
        some (0, { k with proc := k.proc.map (growproc_slot p.pagetable
          (if n > 0 then uvmalloc else if n < 0 then uvmdealloc else p.sz)) }) := by
    intro hok
    simp only [growproc, hself]
    by_cases hpos : n > 0
    · have hne : ¬ uvmalloc = 0 := fun h => hok ⟨hpos, h⟩
      simp [hpos, hne]
    · by_cases hneg : n < 0
      · simp [hpos, hneg]
      · simp [hpos, hneg]
  refine ⟨?_, ?_, ?_⟩
  · rintro ⟨hpos, hzero⟩
    simp [growproc, hself, hpos, hzero]
  · intro hok
    refine ⟨_, hshape hok, rfl, by simp, ?_⟩
    intro j t ht
    constructor
    · intro hpt
      simp only [slotAt_map, ht, Option.map_some', growproc_slot, if_pos hpt]
    · intro hpt
      simp only [slotAt_map, ht, Option.map_some', growproc_slot, if_neg hpt]
  · intro r k' hres hco
    by_cases hfail : n > 0 ∧ uvmalloc = 0
    · have : growproc k self n uvmalloc uvmdealloc = some (-1, k) := by
        simp [growproc, hself, hfail.1, hfail.2]
      rw [this] at hres
      cases hres
      exact hco
    · rw [hshape hfail] at hres
      cases hres
      exact growproc_slot_coherent k.proc _ _ hco

/-- The C15 theorem for the running parent of `tableC`, growing to 8192 bytes: its
own slot gets the new size, its child in slot 1 has another page table and keeps
4096 bytes. -/
theorem growproc_coherent_witness :
    growproc (kernelOf tableC 0) 0 4096 0 0 = some (-1, kernelOf tableC 0) ∧
    ∃ k', growproc (kernelOf tableC 0) 0 4096 8192 0 = some (0, k') ∧
      slotAt k'.proc 0 = some { liveProc RUNNING 3 0 3 with sz := 8192 } ∧
      slotAt k'.proc 1 = some { liveProc RUNNABLE 4 0 3 with parent := some 0 } :=
  have h := growproc_coherent (kernelOf tableC 0) 0 4096 0 0 (liveProc RUNNING 3 0 3) rfl
  have h2 := growproc_coherent (kernelOf tableC 0) 0 4096 8192 0 (liveProc RUNNING 3 0 3) rfl
  ⟨h.1 ⟨by decide, rfl⟩,
    match h2.2.1 (by decide) with
    | ⟨k', hk', _, _, hslots⟩ =>
      ⟨k', hk', (hslots 0 (liveProc RUNNING 3 0 3) rfl).1 rfl,
        (hslots 1 { liveProc RUNNABLE 4 0 3 with parent := some 0 } rfl).2 (by decide)⟩⟩

/-! ## allocproc and clone -/

theorem slotAt_modify_eq (f : Proc → Proc) (t : List Proc) (i : Nat) :
    slotAt (t.modify f i) i = (slotAt t i).map f := by
  simp [slotAt]

theorem slotAt_modify_ne (f : Proc → Proc) (t : List Proc) (i j : Nat) (h : j ≠ i) :
    slotAt (t.modify f i) j = slotAt t j := by
  unfold slotAt
  exact List.getElem?_modify_ne f t (Ne.symm h)

theorem find_unused_none :
    ∀ (t : List Proc) (off : Nat), (∀ q ∈ t, q.state ≠ UNUSED) → find_unused t off = none := by
  intro t
  induction t with
  | nil => intro off _; rfl
  | cons p rest ih =>
    intro off h
    unfold find_unused
    rw [if_neg (h p (List.mem_cons_self _ _))]
    exact ih (off + 1) (fun q hq => h q (List.mem_cons_of_mem _ hq))

theorem find_unused_some :
    ∀ (t : List Proc) (off i : Nat), find_unused t off = some i →
      ∃ j u, i = off + j ∧ t[j]? = some u ∧ u.state = UNUSED ∧
        ∀ j' q, j' < j → t[j']? = some q → q.state ≠ UNUSED := by
  intro t
  induction t with
  | nil => intro off i h; simp [find_unused] at h
  | cons p rest ih =>
    intro off i h
    unfold find_unused at h
    by_cases hp : p.state = UNUSED
    · rw [if_pos hp] at h
      cases h
      exact ⟨0, p, rfl, by simp, hp, fun j' q hj' _ => absurd hj' (Nat.not_lt_zero j')⟩
    · rw [if_neg hp] at h
      obtain ⟨j, u, hi, hu, hus, hbefore⟩ := ih (off + 1) i h
      refine ⟨j + 1, u, by omega, by simpa using hu, hus, ?_⟩
      intro j' q hj' hq
      cases j' with
      | zero =>
        simp at hq
        subst hq
        exact hp
      | succ j' => exact hbefore j' q (Nat.lt_of_succ_lt_succ hj') (by simpa using hq)

theorem find_unused_slot (t : List Proc) (i : Nat) (h : find_unused t 0 = some i) :
    ∃ u, slotAt t i = some u ∧ u.state = UNUSED ∧
      ∀ j q, j < i → slotAt t j = some q → q.state ≠ UNUSED := by
  obtain ⟨j, u, hi, hu, hus, hbefore⟩ := find_unused_some t 0 i h
  have hij : i = j := by omega
  subst hij
  exact ⟨u, hu, hus, hbefore⟩

theorem allocproc_no_slot (k : Kernel) (env : AllocEnv) (h : find_unused k.proc 0 = none) :
    allocproc k env = (none, k) := by
  simp [allocproc, h]

theorem allocproc_success (k : Kernel) (env : AllocEnv) (i : Nat)
    (hfree : find_unused k.proc 0 = some i) (hk : env.kalloc ≠ 0)
    (hpt : proc_pagetable env ≠ 0) :
    allocproc k env =
      (some i, { k with nextpid := k.nextpid + 1, proc := (k.proc.modify
        (fun p => { allocproc_init k.nextpid env p with pagetable := proc_pagetable env }) i) }) := by
  simp [allocproc, hfree, hk, hpt, allocpid]

/-- C12. A successful `clone(fcn, arg1, arg2, stack)` by the live process `p` in slot
`self`, that is one for which `allocproc` finds the UNUSED slot `i` and its
allocations and the `uvmcopy` succeed, returns the pid of slot `i`, the fresh pid
`nextpid`. Slot `i` is then RUNNABLE with parent `self`, `sz` equal to `p.sz`,
`user_stack` equal to `stack`, and a trapframe equal to that of `p` except that epc
is `fcn`, sp is `stack + PGSIZE` (computed in `uint64`), a0 is `arg1` and a1 is
`arg2`; every other slot is as before. If no slot is UNUSED, `clone` returns -1 and
the state is unchanged. -/
theorem clone_effect (k : Kernel) (self : Nat) (env : AllocEnv) (uvmcopy : Int)
    (fcn arg1 arg2 stack : Nat) (p : Proc)
    (hself : slotAt k.proc self = some p) (hlive : p.state ≠ UNUSED) :
    (∀ i, find_unused k.proc 0 = some i → env.kalloc ≠ 0 → proc_pagetable env ≠ 0 →
      ¬ uvmcopy < 0 →
      ∃ k' c, clone k self env uvmcopy fcn arg1 arg2 stack = some (k.nextpid, k') ∧
        slotAt k'.proc i = some c ∧ c.pid = k.nextpid ∧ c.state = RUNNABLE ∧
        c.parent = some self ∧ c.sz = p.sz ∧ c.user_stack = stack ∧
        c.frame = { p.frame with epc := fcn, sp := (stack + PGSIZE) % 2 ^ 64,
                                 a0 := arg1, a1 := arg2 } ∧
        (stack + PGSIZE < 2 ^ 64 → c.frame.sp = stack + PGSIZE) ∧
        c.pagetable = proc_pagetable env ∧
        k'.proc.length = k.proc.length ∧
        ∀ j, j ≠ i → slotAt k'.proc j = slotAt k.proc j) ∧
    ((∀ q ∈ k.proc, q.state ≠ UNUSED) →
      clone k self env uvmcopy fcn arg1 arg2 stack = some (-1, k)) := by
  constructor
  · intro i hfree hk hpt hcopy
    obtain ⟨u, hu, hus, _⟩ := find_unused_slot k.proc i hfree
    have hne : self ≠ i := by
      intro h
      subst h
      rw [hself] at hu
      cases hu
      exact hlive hus
    have hselfk1 : slotAt (k.proc.modify
        (fun p => { allocproc_init k.nextpid env p with pagetable := proc_pagetable env }) i)
        self = some p := by
      rw [slotAt_modify_ne _ _ _ _ hne, hself]
    have hpid : pidAt (k.proc.modify
        (fun p => { allocproc_init k.nextpid env p with pagetable := proc_pagetable env }) i) i
        = k.nextpid := by
      simp [pidAt, slotAt_modify_eq, hu, allocproc_init]
    simp only [clone, allocproc_success k env i hfree hk hpt, hselfk1, if_neg hcopy, hpid]
    refine ⟨_, { allocproc_init k.nextpid env u with
        pagetable := proc_pagetable env, sz := p.sz, user_stack := stack,
        frame := { p.frame with epc := fcn, sp := (stack + PGSIZE) % 2 ^ 64,
                                a0 := arg1, a1 := arg2 },
        ofile := dup_files p.ofile u.ofile, cwd := p.cwd, state := RUNNABLE,
        name := p.name, parent := some self }, rfl, ?_, rfl, rfl, rfl, rfl, rfl, rfl,
      ?_, rfl, by simp, ?_⟩
    · rw [slotAt_modify_eq, slotAt_modify_eq, hu]
      rfl
    · intro hlt
      exact Nat.mod_eq_of_lt hlt
    · intro j hj
      rw [slotAt_modify_ne _ _ _ _ hj, slotAt_modify_ne _ _ _ _ hj]
  · intro hnone
    simp [clone, allocproc_no_slot k env (find_unused_none k.proc 0 hnone)]

/-- The C12 theorem on the run where `init`, alone and running in slot 0, clones:
the call returns pid 2, and slot 1 is RUNNABLE with parent 0, user stack 8192, epc
64, sp 12288, a0 1 and a1 2. On a full table the call returns -1. -/
theorem clone_effect_witness :
    (∃ k' c, clone runA2 0 (envOk 101) 0 64 1 2 8192 = some (2, k') ∧
      slotAt k'.proc 1 = some c ∧ c.pid = 2 ∧ c.state = RUNNABLE ∧ c.parent = some 0 ∧
      c.sz = 4096 ∧ c.user_stack = 8192 ∧ c.frame.epc = 64 ∧ c.frame.sp = 12288 ∧
      c.frame.a0 = 1 ∧ c.frame.a1 = 2) ∧
    clone (kernelOf [liveProc RUNNING 1 0 3] 0) 0 (envOk 101) 0 64 1 2 8192 =
      some (-1, kernelOf [liveProc RUNNING 1 0 3] 0) :=
  ⟨match (clone_effect runA2 0 (envOk 101) 0 64 1 2 8192 _ rfl (by decide)).1 1 rfl
      (by decide) (by decide) (by decide) with
    | ⟨k', c, hc, hs, hpid, hst, hpar, hsz, hus, hfr, hsp, _⟩ =>
      ⟨k', c, hc, hs, hpid, hst, hpar, hsz, hus, by rw [hfr], hsp (by decide), by rw [hfr],
        by rw [hfr]⟩,
   (clone_effect (kernelOf [liveProc RUNNING 1 0 3] 0) 0 (envOk 101) 0 64 1 2 8192 _ rfl
      (by decide)).2 (by decide)⟩

/-- C13, the code after a successful clone. The thread pid 2 in slot 1 has page
table 101, the one `allocproc` made for it, while its creator `init` in slot 0 has
page table 100. A later successful `growproc` by `init` sets its own `sz` to 8192
and leaves the thread at 4096, and `kill(2)` sets `killed` on the thread only. -/
theorem clone_child_has_own_pagetable :
    clone runA2 0 (envOk 101) 0 64 1 2 8192 = some (2, runB1) ∧
    (∃ p c, slotAt runB1.proc 0 = some p ∧ slotAt runB1.proc 1 = some c ∧
      p.pagetable = 100 ∧ c.pagetable = 101 ∧ c.parent = some 0 ∧ c.pid = 2) ∧
    (∃ k' p c, growproc runB1 0 4096 8192 0 = some (0, k') ∧
      slotAt k'.proc 0 = some p ∧ slotAt k'.proc 1 = some c ∧ p.sz = 8192 ∧ c.sz = 4096) ∧
    (∃ p c, (kill runB1 2).1 = 0 ∧ slotAt (kill runB1 2).2.proc 0 = some p ∧
      slotAt (kill runB1 2).2.proc 1 = some c ∧ p.killed = 0 ∧ c.killed = 1) :=
  ⟨by decide, ⟨_, _, rfl, rfl, rfl, rfl, rfl, rfl⟩, ⟨_, _, _, rfl, rfl, rfl, rfl, rfl⟩,
    ⟨_, _, rfl, rfl, rfl, rfl, rfl⟩⟩

/-! ## exit -/

theorem wakeup_ptr_loop_get (self : Option Nat) (chan : Option Chan) :
    ∀ (rest : List Proc) (off j : Nat),
      (wakeup_ptr_loop self chan rest off)[j]? =
        (rest[j]?).map (fun c =>
          if some (off + j) ≠ self then
            (if c.state = SLEEPING ∧ c.chan = chan then { c with state := RUNNABLE } else c)
          else c) := by
  intro rest
  induction rest with
  | nil => intro off j; simp [wakeup_ptr_loop]
  | cons p rest ih =>
    intro off j
    unfold wakeup_ptr_loop
    cases j with
    | zero => simp
    | succ j =>
      simp only [List.getElem?_cons_succ]
      rw [ih (off + 1) j]
      have : off + 1 + j = off + (j + 1) := by omega
      rw [this]

theorem wakeup_ptr_length (k : Kernel) (self : Option Nat) (chan : Option Chan) :
    (wakeup_ptr k self chan).proc.length = k.proc.length := by
  have h : ∀ (rest : List Proc) (off : Nat),
      (wakeup_ptr_loop self chan rest off).length = rest.length := by
    intro rest
    induction rest with
    | nil => intro off; rfl
    | cons p rest ih => intro off; simp [wakeup_ptr_loop, ih]
  exact h k.proc 0

theorem wakeup_ptr_woken (k : Kernel) (self : Nat) (chan : Option Chan) (j : Nat) (c : Proc)
    (h : slotAt k.proc j = some c) :
    ∃ c', slotAt (wakeup_ptr k (some self) chan).proc j = some c' ∧ Woken self j c c' := by
  unfold slotAt at h
  have hget := wakeup_ptr_loop_get (some self) chan k.proc 0 j
  rw [h] at hget
  simp only [Nat.zero_add, Option.map_some'] at hget
  by_cases hj : (some j : Option Nat) ≠ some self
  · have hjs : j ≠ self := fun e => hj (by rw [e])
    by_cases hs : c.state = SLEEPING ∧ c.chan = chan
    · rw [if_pos hj, if_pos hs] at hget
      exact ⟨_, hget, Or.inr ⟨hjs, hs.1, rfl⟩⟩
    · rw [if_pos hj, if_neg hs] at hget
      exact ⟨_, hget, Or.inl rfl⟩
  · rw [if_neg hj] at hget
    exact ⟨_, hget, Or.inl rfl⟩

theorem woken_trans {self j : Nat} {a b c : Proc} (h1 : Woken self j a b) (h2 : Woken self j b c) :
    Woken self j a c := by
  rcases h1 with h1 | ⟨hj, hs, h1⟩
  · subst h1
    exact h2
  · rcases h2 with h2 | ⟨_, hs2, _⟩
    · subst h2
      exact Or.inr ⟨hj, hs, h1⟩
    · rw [h1] at hs2
      cases hs2

theorem woken_parent {self j : Nat} {a b : Proc} (x : Option Nat) (h : Woken self j a b) :
    Woken self j { a with parent := x } { b with parent := x } := by
  rcases h with h | ⟨hj, hs, h⟩
  · subst h
    exact Or.inl rfl
  · subst h
    exact Or.inr ⟨hj, hs, rfl⟩

theorem woken_parent_eq {self j : Nat} {a b : Proc} (h : Woken self j a b) :
    b.parent = a.parent := by
  rcases h with h | ⟨_, _, h⟩
  · subst h; rfl
  · subst h; rfl

theorem woken_self {self : Nat} {a b : Proc} (h : Woken self self a b) : b = a := by
  rcases h with h | ⟨hj, _, _⟩
  · exact h
  · exact absurd rfl hj

theorem reparented_not_child (self : Nat) (ip : Option Nat) (n j : Nat) (c : Proc)
    (h : c.parent ≠ some self) : reparented self ip n j c = c := by
  simp [reparented, h]

theorem reparented_succ_ne (self : Nat) (ip : Option Nat) (n j : Nat) (c : Proc) (h : j ≠ n) :
    reparented self ip (n + 1) j c = reparented self ip n j c := by
  have : j < n + 1 ↔ j < n := by omega
  simp [reparented, this]

theorem reparented_child (self : Nat) (ip : Option Nat) (n j : Nat) (c : Proc)
    (hj : j < n) (h : c.parent = some self) :
    reparented self ip n j c = { c with parent := ip } := by
  simp [reparented, hj, h]

theorem slotAt_set (t : List Proc) (i j : Nat) (q c : Proc) (h : slotAt t j = some c) :
    slotAt (t.set i q) j = some (if i = j then q else c) := by
  unfold slotAt at h ⊢
  rw [List.getElem?_set]
  by_cases hij : i = j
  · subst hij
    have hlt : i < t.length := by
      by_contra hc
      rw [List.getElem?_eq_none (Nat.le_of_not_lt hc)] at h
      cases h
    simp [hlt]
  · simp [hij, h]

theorem reparent_at_inv (self : Nat) (k : Kernel) (n : Nat) (kn : Kernel)
    (hinv : ReparentInv self k n kn) : ReparentInv self k (n + 1) (reparent_at self kn n) := by
  obtain ⟨hg, hlen, hslots⟩ := hinv
  unfold reparent_at
  cases hsn : slotAt kn.proc n with
  | none =>
    refine ⟨hg, hlen, ?_⟩
    intro j c hc
    obtain ⟨c', hc', hw⟩ := hslots j c hc
    have hjn : j ≠ n := by
      intro e
      subst e
      rw [hsn] at hc'
      cases hc'
    exact ⟨c', hc', by rw [reparented_succ_ne self k.initproc n j c hjn]; exact hw⟩
  | some cn' =>
    have hnlt : n < k.proc.length := by rw [← hlen]; exact slot_lt_length hsn
    obtain ⟨cn, hcn⟩ : ∃ cn, slotAt k.proc n = some cn := by
      unfold slotAt
      exact ⟨k.proc[n], List.getElem?_eq_getElem hnlt⟩
    obtain ⟨cn'', hcn'', hwn⟩ := hslots n cn hcn
    rw [hsn] at hcn''
    cases hcn''
    have hredn : reparented self k.initproc n n cn = cn := by
      simp [reparented]
    rw [hredn] at hwn
    have hpar : cn'.parent = cn.parent := woken_parent_eq hwn
    by_cases hchild : cn'.parent = some self
    · simp only [if_pos hchild]
      refine ⟨?_, ?_, ?_⟩
      · exact hg
      · rw [wakeup_ptr_length]
        simp [hlen]
      · intro j c hc
        obtain ⟨c', hc', hw⟩ := hslots j c hc
        have hset := slotAt_set kn.proc n j { cn' with parent := kn.initproc } c' hc'
        obtain ⟨c'', hc'', hw2⟩ := wakeup_ptr_woken
          { kn with proc := kn.proc.set n { cn' with parent := kn.initproc } } self
          (kn.initproc.map Chan.slot) j _ hset
        refine ⟨c'', hc'', woken_trans ?_ hw2⟩
        by_cases hjn : n = j
        · subst hjn
          rw [hcn] at hc
          cases hc
          rw [if_pos rfl, hg.2.1,
            reparented_child self k.initproc (n + 1) n cn (Nat.lt_succ_self n) (hpar ▸ hchild)]
          exact woken_parent k.initproc hwn
        · rw [if_neg hjn, reparented_succ_ne self k.initproc n j c (Ne.symm hjn)]
          exact hw
    · simp only [if_neg hchild]
      refine ⟨hg, hlen, ?_⟩
      intro j c hc
      obtain ⟨c', hc', hw⟩ := hslots j c hc
      by_cases hjn : j = n
      · subst hjn
        rw [hcn] at hc
        cases hc
        have hnc : cn.parent ≠ some self := by rw [← hpar]; exact hchild
        rw [reparented_not_child self k.initproc (j + 1) j cn hnc]
        rw [reparented_not_child self k.initproc j j cn hnc] at hw
        exact ⟨c', hc', hw⟩
      · exact ⟨c', hc', by rw [reparented_succ_ne self k.initproc n j c hjn]; exact hw⟩

theorem reparent_upto_inv (self : Nat) (k : Kernel) :
    ∀ n, ReparentInv self k n (reparent_upto self k n) := by
  intro n
  induction n with
  | zero =>
    refine ⟨⟨rfl, rfl, rfl, rfl, rfl⟩, rfl, ?_⟩
    intro j c hc
    exact ⟨c, hc, Or.inl (by simp [reparented])⟩
  | succ n ih =>
    have h : reparent_upto self k (n + 1) = reparent_at self (reparent_upto self k n) n := by
      simp [reparent_upto, List.range_succ, List.foldl_append]
    rw [h]
    exact reparent_at_inv self k n _ ih

theorem reparented_full (self : Nat) (ip : Option Nat) (n j : Nat) (c : Proc) (hj : j < n) :
    reparented self ip n j c =
      { c with parent := if c.parent = some self then ip else c.parent } := by
  simp [reparented, hj]

theorem close_files_null (ofile : List Nat) :
    (∀ f ∈ close_files ofile, f = 0) ∧ (close_files ofile).length = ofile.length := by
  constructor
  · intro f hf
    simp only [close_files, List.mem_map] at hf
    obtain ⟨g, _, hg⟩ := hf
    by_cases h0 : g ≠ 0
    · rw [if_pos h0] at hg
      exact hg.symm
    · rw [if_neg h0] at hg
      rw [← hg]
      exact not_not.mp h0
  · simp [close_files]

theorem exit_wait_lock_slots (k : Kernel) (self : Nat) :
    sameGlobals k (exit_wait_lock k self) ∧
    (exit_wait_lock k self).proc.length = k.proc.length ∧
    ∀ j c, slotAt k.proc j = some c →
      ∃ c', slotAt (exit_wait_lock k self).proc j = some c' ∧
        Woken self j
          { c with parent := if c.parent = some self then k.initproc else c.parent } c' := by
  obtain ⟨hg, hlen, hslots⟩ := reparent_upto_inv self k k.proc.length
  refine ⟨hg, ?_, ?_⟩
  · unfold exit_wait_lock
    rw [wakeup_ptr_length]
    exact hlen
  · intro j c hc
    obtain ⟨c2, hc2, hw2⟩ := hslots j c hc
    rw [reparented_full self _ k.proc.length j c (slot_lt_length hc)] at hw2
    obtain ⟨c3, hc3, hw3⟩ := wakeup_ptr_woken (reparent k self) self
      ((parentAt (reparent k self).proc self).map Chan.slot) j c2 hc2
    exact ⟨c3, hc3, woken_trans hw2 hw3⟩

/-- The table `exit` leaves, slot by slot. The caller's slot is a ZOMBIE carrying the
status, with its files closed; every other slot is as before except that a child
of the caller now has `initproc` as its parent and that a sleeper may have been
woken. -/
theorem exit_slots (k : Kernel) (self : Nat) (status : Int) (p : Proc)
    (hself : slotAt k.proc self = some p) (hinit : k.initproc ≠ some self) :
    ∃ k', exit k self status = some k' ∧ sameGlobals k k' ∧
      k'.proc.length = k.proc.length ∧
      slotAt k'.proc self =
        some { p with ofile := close_files p.ofile, cwd := 0,
                      parent := if p.parent = some self then k.initproc else p.parent,
                      xstate := status, state := ZOMBIE } ∧
      ∀ j c, j ≠ self → slotAt k.proc j = some c →
        ∃ c', slotAt k'.proc j = some c' ∧
          Woken self j
            { c with parent := if c.parent = some self then k.initproc else c.parent } c' := by
  obtain ⟨hg, hlen, hslots⟩ := exit_wait_lock_slots (exit_files k self) self
  have hlen1 : (exit_files k self).proc.length = k.proc.length := by simp [exit_files]
  have hex : exit k self status =
      some { exit_wait_lock (exit_files k self) self with
        proc := (exit_wait_lock (exit_files k self) self).proc.modify
          (fun p => { p with xstate := status, state := ZOMBIE }) self } := by
    simp only [exit, hself, if_neg hinit]
  refine ⟨_, hex, hg, ?_, ?_, ?_⟩
  · show (List.modify _ self (exit_wait_lock (exit_files k self) self).proc).length = _
    rw [List.length_modify, hlen, hlen1]
  · have h1 : slotAt (exit_files k self).proc self
        = some { p with ofile := close_files p.ofile, cwd := 0 } := by
      simp only [exit_files]
      rw [slotAt_modify_eq, hself]
      rfl
    obtain ⟨c3, hc3, hw3⟩ := hslots self _ h1
    have hc3eq := woken_self hw3
    show slotAt (List.modify _ self (exit_wait_lock (exit_files k self) self).proc) self = _
    rw [slotAt_modify_eq, hc3, hc3eq]
    rfl
  · intro j c hj hc
    have h1 : slotAt (exit_files k self).proc j = some c := by
      simp only [exit_files]
      rw [slotAt_modify_ne _ _ _ _ hj, hc]
    obtain ⟨c3, hc3, hw3⟩ := hslots j c h1
    refine ⟨c3, ?_, hw3⟩
    show slotAt (List.modify _ self (exit_wait_lock (exit_files k self) self).proc) j = _
    rw [slotAt_modify_ne _ _ _ _ hj]
    exact hc3

/-- C16. `exit(status)` by the process `p` in slot `self`, not `initproc`, leaves
that slot a ZOMBIE with `xstate` equal to `status`, every `ofile` entry null and
`cwd` null, while pid, pagetable and trapframe are those of `p`. Every slot whose
parent was `self` now has `initproc` as parent, and the parent of every other slot
is unchanged. -/
theorem exit_effect (k : Kernel) (self : Nat) (status : Int) (p : Proc)
    (hself : slotAt k.proc self = some p) (hinit : k.initproc ≠ some self) :
    ∃ k' q, exit k self status = some k' ∧ slotAt k'.proc self = some q ∧
      q.state = ZOMBIE ∧ q.xstate = status ∧ (∀ f ∈ q.ofile, f = 0) ∧
      q.ofile.length = p.ofile.length ∧ q.cwd = 0 ∧
      q.pid = p.pid ∧ q.pagetable = p.pagetable ∧ q.trapframe = p.trapframe ∧
      k'.proc.length = k.proc.length ∧
      ∀ j c, slotAt k.proc j = some c →
        ∃ c', slotAt k'.proc j = some c' ∧
          (c.parent = some self → c'.parent = k.initproc) ∧
          (c.parent ≠ some self → c'.parent = c.parent) := by
  obtain ⟨k', hex, _, hlen, hq, hothers⟩ := exit_slots k self status p hself hinit
  refine ⟨k', _, hex, hq, rfl, rfl, (close_files_null p.ofile).1, (close_files_null p.ofile).2,
    rfl, rfl, rfl, rfl, hlen, ?_⟩
  intro j c hc
  by_cases hj : j = self
  · subst hj
    rw [hself] at hc
    cases hc
    refine ⟨_, hq, ?_, ?_⟩
    · intro hpar
      simp [hpar]
    · intro hpar
      simp [hpar]
  · obtain ⟨c', hc', hw⟩ := hothers j c hj hc
    have hpar := woken_parent_eq hw
    refine ⟨c', hc', ?_, ?_⟩
    · intro h
      rw [hpar]
      simp [h]
    · intro h
      rw [hpar]
      simp [h]

/-- The C16 theorem on `tableE`: pid 2 in slot 1 exits with status 7. Its slot is a
ZOMBIE with pid 2 and status 7, its child in slot 2 now has `init` in slot 0 as
parent, and its own parent is still slot 0. -/
theorem exit_effect_witness :
    ∃ k' q, exit (kernelOf tableE 0) 1 7 = some k' ∧ slotAt k'.proc 1 = some q ∧
      q.state = ZOMBIE ∧ q.xstate = 7 ∧ q.cwd = 0 ∧ q.pid = 2 ∧ q.pagetable = 2 ∧
      (∃ c', slotAt k'.proc 2 = some c' ∧ c'.parent = some 0) ∧
      (∃ c', slotAt k'.proc 0 = some c' ∧ c'.parent = none) :=
  match exit_effect (kernelOf tableE 0) 1 7
      { liveProc RUNNING 2 0 3 with parent := some 0, ofile := [5, 0, 6], cwd := 9 } rfl
      (by decide) with
  | ⟨k', q, hex, hq, hst, hx, _, _, hcwd, hpid, hpt, _, _, hpar⟩ =>
    ⟨k', q, hex, hq, hst, hx, hcwd, hpid, hpt,
      match hpar 2 { liveProc SLEEPING 3 0 3 with parent := some 1, chan := some (Chan.addr 1) }
          rfl with
      | ⟨c', hc', h1, _⟩ => ⟨c', hc', h1 rfl⟩,
      match hpar 0 { liveProc SLEEPING 1 0 3 with chan := some (Chan.slot 0) } rfl with
      | ⟨c', hc', _, h2⟩ => ⟨c', hc', h2 (by decide)⟩⟩

/-! ## Invariants of the lifecycle operations -/

theorem slot_of_lt {t : List Proc} {j : Nat} (h : j < t.length) : ∃ p, slotAt t j = some p := by
  unfold slotAt
  exact ⟨t[j], List.getElem?_eq_getElem h⟩

theorem keep_refl (p : Proc) : Keep p p := ⟨rfl, rfl, rfl, Iff.rfl⟩

theorem keep_trans {a b c : Proc} (h1 : Keep a b) (h2 : Keep b c) : Keep a c :=
  ⟨h2.1.trans h1.1, h2.2.1.trans h1.2.1, h2.2.2.1.trans h1.2.2.1, h2.2.2.2.trans h1.2.2.2⟩

theorem tableRel_refl (t : List Proc) : TableRel t t :=
  ⟨rfl, fun _ p hp => ⟨p, hp, Or.inl (keep_refl p)⟩⟩

theorem tableRel_trans {a b c : List Proc} (h1 : TableRel a b) (h2 : TableRel b c) :
    TableRel a c := by
  refine ⟨h2.1.trans h1.1, ?_⟩
  intro j p hp
  obtain ⟨q, hq, hpq⟩ := h1.2 j p hp
  obtain ⟨r, hr, hqr⟩ := h2.2 j q hq
  refine ⟨r, hr, ?_⟩
  rcases hqr with hk | hf
  · rcases hpq with hk1 | hf1
    · exact Or.inl (keep_trans hk1 hk)
    · exact Or.inr ⟨hk.2.2.2.mpr hf1.1, hk.1.trans hf1.2.1, hk.2.1.trans hf1.2.2.1,
        hk.2.2.1.trans hf1.2.2.2⟩
  · exact Or.inr hf

theorem tableRel_modify (t : List Proc) (f : Proc → Proc) (i : Nat)
    (h : ∀ p, slotAt t i = some p → Keep p (f p) ∨ Freed (f p)) : TableRel t (t.modify f i) := by
  refine ⟨by simp, ?_⟩
  intro j p hp
  by_cases hj : j = i
  · subst hj
    exact ⟨f p, by rw [slotAt_modify_eq, hp]; rfl, h p hp⟩
  · exact ⟨p, by rw [slotAt_modify_ne _ _ _ _ hj, hp], Or.inl (keep_refl p)⟩

theorem tableRel_set (t : List Proc) (i : Nat) (q : Proc)
    (h : ∀ p, slotAt t i = some p → Keep p q ∨ Freed q) : TableRel t (t.set i q) := by
  refine ⟨by simp, ?_⟩
  intro j p hp
  refine ⟨_, slotAt_set t i j q p hp, ?_⟩
  by_cases hj : i = j
  · subst hj
    rw [if_pos rfl]
    exact h p hp
  · rw [if_neg hj]
    exact Or.inl (keep_refl p)

theorem pidInv_rel (k k' : Kernel) (hinv : PidInv k) (hrel : TableRel k.proc k'.proc)
    (hnext : k.nextpid ≤ k'.nextpid) : PidInv k' := by
  obtain ⟨h1, hslots, huniq⟩ := hinv
  have hback : ∀ j q, slotAt k'.proc j = some q →
      ∃ p, slotAt k.proc j = some p ∧ (Keep p q ∨ Freed q) := by
    intro j q hq
    have hj : j < k.proc.length := by rw [← hrel.1]; exact slot_lt_length hq
    obtain ⟨p, hp⟩ := slot_of_lt hj
    obtain ⟨q', hq', hr⟩ := hrel.2 j p hp
    rw [hq] at hq'
    cases hq'
    exact ⟨p, hp, hr⟩
  refine ⟨le_trans h1 hnext, ?_, ?_⟩
  · intro j q hq
    obtain ⟨p, hp, hr⟩ := hback j q hq
    rcases hr with hk | hf
    · constructor
      · intro hu
        have := (hslots j p hp).1 (hk.2.2.2.mp hu)
        exact ⟨hk.1.trans this.1, hk.2.1.trans this.2.1, hk.2.2.1.trans this.2.2⟩
      · intro hu
        have := (hslots j p hp).2 (fun e => hu (hk.2.2.2.mpr e))
        rw [hk.1]
        exact ⟨this.1, lt_of_lt_of_le this.2 hnext⟩
    · exact ⟨fun _ => ⟨hf.2.1, hf.2.2.1, hf.2.2.2⟩, fun hu => absurd hf.1 hu⟩
  · intro i j p' q' hp' hq' hij hpu hqu
    obtain ⟨p, hp, hrp⟩ := hback i p' hp'
    obtain ⟨q, hq, hrq⟩ := hback j q' hq'
    rcases hrp with hkp | hfp
    · rcases hrq with hkq | hfq
      · rw [hkp.1, hkq.1]
        exact huniq i j p q hp hq hij (fun e => hpu (hkp.2.2.2.mpr e))
          (fun e => hqu (hkq.2.2.2.mpr e))
      · exact absurd hfq.1 hqu
    · exact absurd hfp.1 hpu

theorem pidInv_boot (KSTACK : Nat → Nat) (nproc : Nat) : PidInv (boot KSTACK nproc) := by
  have hslot : ∀ i p, slotAt (boot KSTACK nproc).proc i = some p → p.state = UNUSED ∧
      p.pid = 0 ∧ p.pagetable = 0 ∧ p.trapframe = 0 := by
    intro i p hp
    simp only [boot, procinit, slotAt, List.getElem?_map] at hp
    cases hr : (List.range nproc)[i]? with
    | none => rw [hr] at hp; cases hp
    | some m =>
      rw [hr] at hp
      simp only [Option.map_some', Option.some.injEq] at hp
      subst hp
      exact ⟨rfl, rfl, rfl, rfl⟩
  refine ⟨le_refl _, ?_, ?_⟩
  · intro i p hp
    obtain ⟨hs, hpid, hpt, htf⟩ := hslot i p hp
    exact ⟨fun _ => ⟨hpid, hpt, htf⟩, fun hu => absurd hs hu⟩
  · intro i j p q hp _ _ hpu
    exact absurd (hslot i p hp).1 hpu

theorem freed_freeproc (p : Proc) : Freed (freeproc p) := ⟨rfl, rfl, rfl, rfl⟩

theorem pidInv_fresh (k : Kernel) (i : Nat) (G : Proc → Proc) (hinv : PidInv k)
    (hG : ∀ v, (G v).pid = k.nextpid ∧ (G v).state ≠ UNUSED) :
    PidInv { k with nextpid := k.nextpid + 1, proc := k.proc.modify G i } := by
  obtain ⟨h1, hslots, huniq⟩ := hinv
  have hback : ∀ j q, slotAt (k.proc.modify G i) j = some q →
      (j = i ∧ ∃ v, q = G v) ∨ (j ≠ i ∧ slotAt k.proc j = some q) := by
    intro j q hq
    by_cases hj : j = i
    · subst hj
      rw [slotAt_modify_eq] at hq
      cases hv : slotAt k.proc j with
      | none => rw [hv] at hq; cases hq
      | some v =>
        rw [hv] at hq
        simp only [Option.map_some', Option.some.injEq] at hq
        exact Or.inl ⟨rfl, v, hq.symm⟩
    · rw [slotAt_modify_ne _ _ _ _ hj] at hq
      exact Or.inr ⟨hj, hq⟩
  refine ⟨by show (1 : Int) ≤ k.nextpid + 1; omega, ?_, ?_⟩
  · intro j q hq
    show (q.state = UNUSED → _) ∧ (q.state ≠ UNUSED → 0 < q.pid ∧ q.pid < k.nextpid + 1)
    rcases hback j q hq with ⟨_, v, hv⟩ | ⟨_, hold⟩
    · subst hv
      refine ⟨fun hu => absurd hu (hG v).2, fun _ => ?_⟩
      rw [(hG v).1]
      omega
    · refine ⟨(hslots j q hold).1, fun hu => ?_⟩
      have := (hslots j q hold).2 hu
      omega
  · intro a b p q hp hq hab hpu hqu
    rcases hback a p hp with ⟨ha, v, hv⟩ | ⟨ha, holdp⟩
    · rcases hback b q hq with ⟨hb, _, _⟩ | ⟨_, holdq⟩
      · exact absurd (ha.trans hb.symm) hab
      · subst hv
        rw [(hG v).1]
        have := (hslots b q holdq).2 hqu
        omega
    · rcases hback b q hq with ⟨_, w, hw⟩ | ⟨_, holdq⟩
      · subst hw
        rw [(hG w).1]
        have := (hslots a p holdp).2 hpu
        omega
      · exact huniq a b p q holdp holdq hab hpu hqu

theorem allocproc_inv (k : Kernel) (env : AllocEnv) (hinv : PidInv k) :
    PidInv (allocproc k env).2 ∧
    ∀ i, (allocproc k env).1 = some i →
      ∃ u, slotAt (allocproc k env).2.proc i = some u ∧ u.state ≠ UNUSED := by
  cases hf : find_unused k.proc 0 with
  | none =>
    rw [allocproc_no_slot k env hf]
    exact ⟨hinv, fun i h => by cases h⟩
  | some i =>
    obtain ⟨u, hu, _, _⟩ := find_unused_slot k.proc i hf
    by_cases hk : env.kalloc = 0
    · have hres : allocproc k env =
          (none, { k with nextpid := k.nextpid + 1, proc := (k.proc.modify
            (fun p => freeproc (allocproc_init k.nextpid env p)) i) }) := by
        simp [allocproc, hf, hk, allocpid]
      rw [hres]
      refine ⟨pidInv_rel k _ hinv (tableRel_modify _ _ _ (fun p _ => Or.inr (freed_freeproc _)))
        (by show k.nextpid ≤ k.nextpid + 1; omega), fun j h => by cases h⟩
    · by_cases hpt : proc_pagetable env = 0
      · have hres : allocproc k env =
            (none, { k with nextpid := k.nextpid + 1, proc := (k.proc.modify
              (fun p => freeproc { allocproc_init k.nextpid env p with pagetable := 0 }) i) }) := by
          simp [allocproc, hf, hk, hpt, allocpid]
        rw [hres]
        refine ⟨pidInv_rel k _ hinv
          (tableRel_modify _ _ _ (fun p _ => Or.inr (freed_freeproc _)))
          (by show k.nextpid ≤ k.nextpid + 1; omega), fun j h => by cases h⟩
      · rw [allocproc_success k env i hf hk hpt]
        refine ⟨pidInv_fresh k i _ hinv (fun v => ⟨rfl, by simp [allocproc_init]⟩), ?_⟩
        intro j hj
        have hji : i = j := by
          simp only [Option.some.injEq] at hj
          exact hj
        subst hji
        have hslot : slotAt (List.modify
            (fun p => { allocproc_init k.nextpid env p with pagetable := proc_pagetable env })
            i k.proc) i
            = some { allocproc_init k.nextpid env u with pagetable := proc_pagetable env } := by
          rw [slotAt_modify_eq, hu]
          rfl
        exact ⟨_, hslot, by simp [allocproc_init]⟩

theorem pidInv_modify (k : Kernel) (i : Nat) (F : Proc → Proc) (hinv : PidInv k)
    (h : ∀ p, slotAt k.proc i = some p → Keep p (F p) ∨ Freed (F p)) :
    PidInv { k with proc := k.proc.modify F i } :=
  pidInv_rel k _ hinv (tableRel_modify k.proc F i h) (le_refl _)

theorem fork_inv (k : Kernel) (self : Nat) (env : AllocEnv) (uvmcopy : Int) (r : Int)
    (k' : Kernel) (hinv : PidInv k) (h : fork k self env uvmcopy = some (r, k')) : PidInv k' := by
  have hal := allocproc_inv k env hinv
  unfold fork at h
  cases hres : allocproc k env with
  | mk r1 k1 =>
    rw [hres] at h hal
    cases r1 with
    | none =>
      simp only [Option.some.injEq, Prod.mk.injEq] at h
      rw [← h.2]
      exact hal.1
    | some i =>
      obtain ⟨u, hu, hus⟩ := hal.2 i rfl
      simp only [] at h
      cases hs : slotAt k1.proc self with
      | none => rw [hs] at h; cases h
      | some p =>
        rw [hs] at h
        simp only [] at h
        by_cases hc : uvmcopy < 0
        · rw [if_pos hc] at h
          simp only [Option.some.injEq, Prod.mk.injEq] at h
          rw [← h.2]
          exact pidInv_modify k1 i _ hal.1 (fun q _ => Or.inr (freed_freeproc q))
        · rw [if_neg hc] at h
          simp only [Option.some.injEq, Prod.mk.injEq] at h
          rw [← h.2]
          apply pidInv_modify k1 i _ hal.1
          intro q hq
          rw [hu] at hq
          cases hq
          exact Or.inl ⟨rfl, rfl, rfl, by simp [hus]⟩

theorem clone_inv (k : Kernel) (self : Nat) (env : AllocEnv) (uvmcopy : Int)
    (fcn arg1 arg2 stack : Nat) (r : Int) (k' : Kernel) (hinv : PidInv k)
    (h : clone k self env uvmcopy fcn arg1 arg2 stack = some (r, k')) : PidInv k' := by
  have hal := allocproc_inv k env hinv
  unfold clone at h
  cases hres : allocproc k env with
  | mk r1 k1 =>
    rw [hres] at h hal
    cases r1 with
    | none =>
      simp only [Option.some.injEq, Prod.mk.injEq] at h
      rw [← h.2]
      exact hal.1
    | some i =>
      obtain ⟨u, hu, hus⟩ := hal.2 i rfl
      simp only [] at h
      cases hs : slotAt k1.proc self with
      | none => rw [hs] at h; cases h
      | some p =>
        rw [hs] at h
        simp only [] at h
        by_cases hc : uvmcopy < 0
        · rw [if_pos hc] at h
          simp only [Option.some.injEq, Prod.mk.injEq] at h
          rw [← h.2]
          exact pidInv_modify k1 i _ hal.1 (fun q _ => Or.inr (freed_freeproc q))
        · rw [if_neg hc] at h
          simp only [Option.some.injEq, Prod.mk.injEq] at h
          rw [← h.2]
          apply pidInv_modify k1 i _ hal.1
          intro q hq
          rw [hu] at hq
          cases hq
          exact Or.inl ⟨rfl, rfl, rfl, by simp [hus]⟩

theorem userinit_inv (k : Kernel) (env : AllocEnv) (root : Nat) (k' : Kernel) (hinv : PidInv k)
    (h : userinit k env root = some k') : PidInv k' := by
  have hal := allocproc_inv k env hinv
  unfold userinit at h
  cases hres : allocproc k env with
  | mk r1 k1 =>
    rw [hres] at h hal
    cases r1 with
    | none => cases h
    | some i =>
      obtain ⟨u, hu, hus⟩ := hal.2 i rfl
      simp only [Option.some.injEq] at h
      rw [← h]
      refine pidInv_rel k1 _ hal.1 (tableRel_modify k1.proc _ i ?_) (le_refl _)
      intro q hq
      rw [hu] at hq
      cases hq
      exact Or.inl ⟨rfl, rfl, rfl, by simp [hus]⟩

theorem woken_keep {self j : Nat} {c c' : Proc} (h : Woken self j c c') : Keep c c' := by
  rcases h with h | ⟨_, hs, h⟩
  · rw [h]
    exact keep_refl c
  · rw [h]
    refine ⟨rfl, rfl, rfl, ?_⟩
    simp [hs]

theorem exit_inv (k : Kernel) (self : Nat) (status : Int) (k' : Kernel) (hinv : PidInv k)
    (hlive : isLive k self) (h : exit k self status = some k') : PidInv k' := by
  obtain ⟨p, hp, hpu⟩ := hlive
  have hinit : k.initproc ≠ some self := by
    intro e
    simp [exit, hp, e] at h
  obtain ⟨k'', hex, hg, hlen, hq, hothers⟩ := exit_slots k self status p hp hinit
  rw [h] at hex
  cases hex
  refine pidInv_rel k k' hinv ⟨hlen, ?_⟩ (le_of_eq hg.1.symm)
  intro j c hc
  by_cases hj : j = self
  · subst hj
    rw [hp] at hc
    cases hc
    refine ⟨_, hq, Or.inl ⟨rfl, rfl, rfl, ?_⟩⟩
    simp [hpu]
  · obtain ⟨c', hc', hw⟩ := hothers j c hj hc
    have hk := woken_keep hw
    exact ⟨c', hc', Or.inl ⟨hk.1, hk.2.1, hk.2.2.1, hk.2.2.2⟩⟩

theorem sleep_inv (k : Kernel) (self : Nat) (chan : Chan) (hinv : PidInv k)
    (hlive : isLive k self) : PidInv (sleep k self chan) := by
  obtain ⟨p, hp, hpu⟩ := hlive
  apply pidInv_modify k self _ hinv
  intro q hq
  rw [hp] at hq
  cases hq
  exact Or.inl ⟨rfl, rfl, rfl, by simp [hpu]⟩

theorem wait_inv (copyout : Nat → Nat → Nat → Int) (k : Kernel) (self addr : Nat)
    (res : WaitResult) (hinv : PidInv k) (hlive : isLive k self)
    (h : wait copyout k self addr = some res) :
    (∀ v k' out, res = WaitResult.ret v k' out → PidInv k') ∧
    (∀ k', res = WaitResult.sleeping k' → PidInv k') := by
  unfold wait at h
  cases hs : slotAt k.proc self with
  | none => rw [hs] at h; cases h
  | some p =>
    rw [hs] at h
    simp only [] at h
    cases hscan : wait_scan self k.proc 0 false with
    | mk found havekids =>
      rw [hscan] at h
      cases found with
      | some ipp =>
        obtain ⟨i, pp⟩ := ipp
        simp only [] at h
        by_cases hc : addr ≠ 0 ∧ copyout p.pagetable addr 4 < 0
        · rw [if_pos hc] at h
          cases h
          refine ⟨?_, fun k' e => by cases e⟩
          intro v k' out e
          cases e
          exact hinv
        · rw [if_neg hc] at h
          cases h
          refine ⟨?_, fun k' e => by cases e⟩
          intro v k' out e
          cases e
          exact pidInv_rel k _ hinv
            (tableRel_set k.proc i _ (fun q _ => Or.inr (freed_freeproc pp))) (le_refl _)
      | none =>
        simp only [] at h
        by_cases hc : havekids = false ∨ p.killed ≠ 0
        · rw [if_pos hc] at h
          cases h
          refine ⟨?_, fun k' e => by cases e⟩
          intro v k' out e
          cases e
          exact hinv
        · rw [if_neg hc] at h
          cases h
          refine ⟨fun v k' out e => (by cases e), ?_⟩
          intro k' e
          cases e
          exact sleep_inv k self _ hinv hlive

theorem join_inv (copyout : Nat → Nat → Nat → Int) (k : Kernel) (self stack : Nat)
    (res : WaitResult) (hinv : PidInv k) (hlive : isLive k self)
    (h : join copyout k self stack = some res) :
    (∀ v k' out, res = WaitResult.ret v k' out → PidInv k') ∧
    (∀ k', res = WaitResult.sleeping k' → PidInv k') := by
  unfold join at h
  cases hs : slotAt k.proc self with
  | none => rw [hs] at h; cases h
  | some p =>
    rw [hs] at h
    simp only [] at h
    cases hscan : wait_scan self k.proc 0 false with
    | mk found havekids =>
      rw [hscan] at h
      cases found with
      | some ipp =>
        obtain ⟨i, pp⟩ := ipp
        simp only [] at h
        have hfree : PidInv { k with proc := k.proc.set i (freeproc pp) } :=
          pidInv_rel k _ hinv
            (tableRel_set k.proc i _ (fun q _ => Or.inr (freed_freeproc pp))) (le_refl _)
        split at h
        · cases h
          refine ⟨?_, fun k' e => by cases e⟩
          intro v k' out e
          cases e
          exact hfree
        · cases h
          refine ⟨?_, fun k' e => by cases e⟩
          intro v k' out e
          cases e
          exact hfree
      | none =>
        simp only [] at h
        by_cases hc : havekids = false ∨ p.killed ≠ 0
        · rw [if_pos hc] at h
          cases h
          refine ⟨?_, fun k' e => by cases e⟩
          intro v k' out e
          cases e
          exact hinv
        · rw [if_neg hc] at h
          cases h
          refine ⟨fun v k' out e => (by cases e), ?_⟩
          intro k' e
          cases e
          exact sleep_inv k self _ hinv hlive

theorem lifeStep_inv (k k' : Kernel) (h : LifeStep k k') : PidInv k → PidInv k' := by
  induction h with
  | allocproc k env => intro hinv; exact (allocproc_inv k env hinv).1
  | freeproc k i =>
    intro hinv
    exact pidInv_modify k i _ hinv (fun q _ => Or.inr (freed_freeproc q))
  | userinit k env root k' h => intro hinv; exact userinit_inv k env root k' hinv h
  | fork k self env uvmcopy r k' _ h =>
    intro hinv
    exact fork_inv k self env uvmcopy r k' hinv h
  | clone k self env uvmcopy fcn arg1 arg2 stack r k' _ h =>
    intro hinv
    exact clone_inv k self env uvmcopy fcn arg1 arg2 stack r k' hinv h
  | exit k self status k' hlive h => intro hinv; exact exit_inv k self status k' hinv hlive h
  | wait copyout k self addr v k' out hlive h =>
    intro hinv
    exact (wait_inv copyout k self addr _ hinv hlive h).1 v k' out rfl
  | wait_sleep copyout k self addr k' hlive h =>
    intro hinv
    exact (wait_inv copyout k self addr _ hinv hlive h).2 k' rfl
  | join copyout k self stack v k' out hlive h =>
    intro hinv
    exact (join_inv copyout k self stack _ hinv hlive h).1 v k' out rfl
  | join_sleep copyout k self stack k' hlive h =>
    intro hinv
    exact (join_inv copyout k self stack _ hinv hlive h).2 k' rfl

theorem lifeReachable_inv (nproc : Nat) (k : Kernel) (h : LifeReachable nproc k) : PidInv k := by
  induction h with
  | init KSTACK => exact pidInv_boot KSTACK nproc
  | step k k' _ hstep ih => exact lifeStep_inv k k' hstep ih

theorem runL_reachable : LifeReachable 3 runL3 := by
  have h1 : LifeReachable 3 runA1 :=
    LifeReachable.step _ _ (LifeReachable.init (fun i => i))
      (LifeStep.userinit _ (envOk 100) 1 runA1 (by decide))
  have h2 : LifeReachable 3 runL2 :=
    LifeReachable.step _ _ h1
      (LifeStep.fork runA1 0 (envOk 101) 0 2 runL2 ⟨_, rfl, by decide⟩ (by decide))
  exact LifeReachable.step _ _ h2 (LifeStep.exit runL2 1 7 runL3 ⟨_, rfl, by decide⟩ (by decide))

/-- C14. Pid uniqueness is an invariant. In every state reached from the initial
table (all slots UNUSED, `nextpid = 1`) by `allocproc`, `freeproc`, `userinit`,
`fork`, `clone`, `exit`, `wait` and `join` steps, two distinct slots that are not
UNUSED have different pids, and the pid of every slot that is not UNUSED is
positive and less than `nextpid`. Pids are unbounded integers. -/
theorem pid_unique (nproc : Nat) (k : Kernel) (h : LifeReachable nproc k) :
    (∀ i j p q, slotAt k.proc i = some p → slotAt k.proc j = some q → i ≠ j →
      p.state ≠ UNUSED → q.state ≠ UNUSED → p.pid ≠ q.pid) ∧
    (∀ i p, slotAt k.proc i = some p → p.state ≠ UNUSED → 0 < p.pid ∧ p.pid < k.nextpid) := by
  obtain ⟨_, hslots, huniq⟩ := lifeReachable_inv nproc k h
  exact ⟨huniq, fun i p hp hu => (hslots i p hp).2 hu⟩

/-- The C14 theorem on the state where `init` has forked pid 2 and pid 2 has exited:
the RUNNABLE slot 0 and the ZOMBIE slot 1 have different pids, both below
`nextpid`. -/
theorem pid_unique_witness :
    LifeReachable 3 runL3 ∧ pidAt runL3.proc 0 ≠ pidAt runL3.proc 1 ∧
    0 < pidAt runL3.proc 1 ∧ pidAt runL3.proc 1 < runL3.nextpid :=
  ⟨runL_reachable,
    (pid_unique 3 runL3 runL_reachable).1 0 1 _ _ rfl rfl (by decide) (by decide) (by decide),
    (pid_unique 3 runL3 runL_reachable).2 1 _ rfl (by decide)⟩

/-- C20. Slot emptiness I1 is an invariant. In every state reached from the initial
table by `allocproc` (with any outcome of its allocations), `freeproc`, `userinit`,
`fork`, `clone`, `exit`, `wait` and `join` steps, a slot is UNUSED if and only if its
pid is 0, its page table null and its trapframe null. Pids are unbounded
integers. -/
theorem unused_iff_cleared (nproc : Nat) (k : Kernel) (h : LifeReachable nproc k) :
    ∀ i p, slotAt k.proc i = some p →
      (p.state = UNUSED ↔ (p.pid = 0 ∧ p.pagetable = 0 ∧ p.trapframe = 0)) := by
  obtain ⟨_, hslots, _⟩ := lifeReachable_inv nproc k h
  intro i p hp
  constructor
  · exact (hslots i p hp).1
  · rintro ⟨hpid, _, _⟩
    by_contra hu
    have := ((hslots i p hp).2 hu).1
    omega

/-- The C20 theorem on the same state: the free slot 2 is cleared, the ZOMBIE slot 1
is not. -/
theorem unused_iff_cleared_witness :
    LifeReachable 3 runL3 ∧
    (∃ p, slotAt runL3.proc 2 = some p ∧ p.pid = 0 ∧ p.pagetable = 0 ∧ p.trapframe = 0) ∧
    (∃ p, slotAt runL3.proc 1 = some p ∧
      ¬ (p.pid = 0 ∧ p.pagetable = 0 ∧ p.trapframe = 0)) :=
  ⟨runL_reachable,
    ⟨_, rfl, (unused_iff_cleared 3 runL3 runL_reachable 2 _ rfl).mp rfl⟩,
    ⟨_, rfl, fun hc => absurd ((unused_iff_cleared 3 runL3 runL_reachable 1 _ rfl).mpr hc)
      (by decide)⟩⟩

/-! ## The channel invariant -/

theorem slotAt_modify_cases (t : List Proc) (f : Proc → Proc) (i j : Nat) (q : Proc)
    (hq : slotAt (t.modify f i) j = some q) :
    (j = i ∧ ∃ p, slotAt t i = some p ∧ q = f p) ∨ (j ≠ i ∧ slotAt t j = some q) := by
  by_cases hj : j = i
  · subst hj
    rw [slotAt_modify_eq] at hq
    cases hv : slotAt t j with
    | none => rw [hv] at hq; cases hq
    | some v =>
      rw [hv] at hq
      simp only [Option.map_some', Option.some.injEq] at hq
      exact Or.inl ⟨rfl, v, rfl, hq.symm⟩
  · rw [slotAt_modify_ne _ _ _ _ hj] at hq
    exact Or.inr ⟨hj, hq⟩

theorem wakeup_loop_eq (self : Option Nat) (chan : Chan) :
    ∀ (rest : List Proc) (off : Nat),
      wakeup_loop self chan rest off = wakeup_ptr_loop self (some chan) rest off := by
  intro rest
  induction rest with
  | nil => intro off; rfl
  | cons p rest ih =>
    intro off
    simp only [wakeup_loop, wakeup_ptr_loop, ih]

theorem wakeup_eq (k : Kernel) (self : Option Nat) (chan : Chan) :
    wakeup k self chan = wakeup_ptr k self (some chan) := by
  simp only [wakeup, wakeup_ptr, wakeup_loop_eq]

theorem wakeup_ptr_back (k : Kernel) (self : Option Nat) (chan : Option Chan) (j : Nat)
    (q : Proc) (hq : slotAt (wakeup_ptr k self chan).proc j = some q) :
    ∃ p, slotAt k.proc j = some p ∧
      (q = p ∨ (p.state = SLEEPING ∧ q = { p with state := RUNNABLE })) := by
  unfold slotAt at hq
  have hget := wakeup_ptr_loop_get self chan k.proc 0 j
  simp only [wakeup_ptr] at hq
  rw [hget] at hq
  cases hp : k.proc[j]? with
  | none => rw [hp] at hq; cases hq
  | some p =>
    rw [hp] at hq
    simp only [Nat.zero_add, Option.map_some', Option.some.injEq] at hq
    refine ⟨p, hp, ?_⟩
    by_cases hj : (some j : Option Nat) ≠ self
    · by_cases hs : p.state = SLEEPING ∧ p.chan = chan
      · rw [if_pos hj, if_pos hs] at hq
        exact Or.inr ⟨hs.1, hq.symm⟩
      · rw [if_pos hj, if_neg hs] at hq
        exact Or.inl hq.symm
    · rw [if_neg hj] at hq
      exact Or.inl hq.symm

theorem sleep_eq (k : Kernel) (self : Nat) (chan : Chan) :
    sleep k self chan = sleep_ptr k self (some chan) := rfl

theorem chanOk_mono (s s' : List Nat) (i : Nat) (p : Proc) (h : chanOk s i p)
    (hs : i ∈ s → i ∈ s') : chanOk s' i p :=
  ⟨h.1, fun hc => ⟨hs (h.2 hc).1, (h.2 hc).2⟩⟩

theorem chanOk_runnable (s : List Nat) (i : Nat) (p : Proc) (h : chanOk s i p) :
    chanOk s i { p with state := RUNNABLE } :=
  ⟨fun e => (by cases e), fun hc => ⟨(h.2 hc).1, Or.inr (Or.inl rfl)⟩⟩

theorem chanOk_running (s : List Nat) (i : Nat) (p : Proc) (h : chanOk s i p) :
    chanOk s i { p with state := RUNNING } :=
  ⟨fun e => (by cases e), fun hc => ⟨(h.2 hc).1, Or.inr (Or.inr rfl)⟩⟩

theorem chanOk_parent (s : List Nat) (i : Nat) (p : Proc) (x : Option Nat)
    (h : chanOk s i p) : chanOk s i { p with parent := x } := h

theorem chanOk_wakeup_ptr (k : Kernel) (s : List Nat) (self : Option Nat)
    (chan : Option Chan) (h : ChanOk k s) : ChanOk (wakeup_ptr k self chan) s := by
  intro j q hq
  obtain ⟨p, hp, hpq⟩ := wakeup_ptr_back k self chan j q hq
  rcases hpq with e | ⟨_, e⟩
  · rw [e]
    exact h j p hp
  · rw [e]
    exact chanOk_runnable s j p (h j p hp)

theorem chanOk_modify (k : Kernel) (s s' : List Nat) (i : Nat) (f : Proc → Proc)
    (h : ChanOk k s) (hf : ∀ p, slotAt k.proc i = some p → chanOk s' i (f p))
    (hs : ∀ j, j ≠ i → j ∈ s → j ∈ s') :
    ChanOk { k with proc := k.proc.modify f i } s' := by
  intro j q hq
  rcases slotAt_modify_cases k.proc f i j q hq with ⟨hji, p, hp, e⟩ | ⟨hji, hold⟩
  · rw [e, hji]
    exact hf p hp
  · exact chanOk_mono s s' j q (h j q hold) (hs j hji)

theorem chanOk_kill (k : Kernel) (s : List Nat) (pid : Int) (h : ChanOk k s) :
    ChanOk (kill k pid).2 s := by
  unfold kill
  cases kill_target pid k.proc with
  | none => exact h
  | some target =>
    intro j q hq
    simp only [] at hq
    rw [slotAt_map] at hq
    cases hp : slotAt k.proc j with
    | none => rw [hp] at hq; cases hq
    | some p =>
      rw [hp] at hq
      simp only [Option.map_some', Option.some.injEq] at hq
      rw [← hq]
      unfold kill_slot
      by_cases hpt : p.pagetable = target.pagetable
      · rw [if_pos hpt]
        by_cases hs : p.state = SLEEPING
        · rw [if_pos hs]
          exact chanOk_runnable s j { p with killed := 1 } (h j p hp)
        · rw [if_neg hs]
          exact h j p hp
      · rw [if_neg hpt]
        exact h j p hp

theorem chanOk_outside (k : Kernel) (s : List Nat) (self : Nat) (p : Proc) (h : ChanOk k s)
    (hp : slotAt k.proc self = some p) (hns : self ∉ s) : p.chan = none := by
  by_contra hc
  exact hns ((h self p hp).2 hc).1

theorem chanOk_sleep (k : Kernel) (s : List Nat) (self : Nat) (chan : Option Chan)
    (h : ChanOk k s) (hc : chan ≠ none) : ChanOk (sleep_ptr k self chan) (self :: s) :=
  chanOk_modify k s (self :: s) self _ h
    (fun _ _ => ⟨fun _ => hc, fun _ => ⟨List.mem_cons_self _ _, Or.inl rfl⟩⟩)
    (fun _ _ hj => List.mem_cons_of_mem _ hj)

theorem chanOk_sleep_return (k : Kernel) (s : List Nat) (self : Nat) (h : ChanOk k s)
    (hrun : isRunning k self) :
    ChanOk (sleep_return k self) (s.filter (fun j => j ≠ self)) := by
  obtain ⟨p, hp, hpr⟩ := hrun
  apply chanOk_modify k s _ self _ h
  · intro p' hp'
    rw [hp] at hp'
    cases hp'
    refine ⟨fun e => ?_, fun e => absurd rfl e⟩
    have e' : p.state = SLEEPING := e
    rw [hpr] at e'
    cases e'
  · intro j hj hjs
    exact List.mem_filter.2 ⟨hjs, by simpa using hj⟩

theorem chanOk_exit (k : Kernel) (s : List Nat) (self : Nat) (status : Int) (k' : Kernel)
    (h : ChanOk k s) (hrun : isRunning k self) (hns : self ∉ s)
    (hex : exit k self status = some k') : ChanOk k' s := by
  obtain ⟨p, hp, _⟩ := hrun
  have hinit : k.initproc ≠ some self := by
    intro e
    simp [exit, hp, e] at hex
  obtain ⟨k'', hex', _, hlen, hq, hothers⟩ := exit_slots k self status p hp hinit
  rw [hex] at hex'
  cases hex'
  intro j q hjq
  by_cases hj : j = self
  · subst hj
    rw [hq] at hjq
    cases hjq
    have hchan := chanOk_outside k s j p h hp hns
    exact ⟨fun e => (by cases e), fun e => absurd hchan e⟩
  · have hjlt : j < k.proc.length := by rw [← hlen]; exact slot_lt_length hjq
    obtain ⟨c, hc⟩ := slot_of_lt hjlt
    obtain ⟨c', hc', hw⟩ := hothers j c hj hc
    rw [hjq] at hc'
    cases hc'
    rcases hw with e | ⟨_, _, e⟩
    · rw [e]
      exact chanOk_parent s j c _ (h j c hc)
    · rw [e]
      exact chanOk_runnable s j _ (chanOk_parent s j c _ (h j c hc))

theorem chanOk_schedule (k : Kernel) (s : List Nat) (h : ChanOk k s) :
    ChanOk (scheduler_round k).2 s := by
  unfold scheduler_round
  cases hsel : scheduler_select k with
  | none => exact h
  | some i =>
    exact chanOk_modify k s s i _ h (fun p hp => chanOk_running s i p (h i p hp))
      (fun _ _ hj => hj)

theorem chanOk_of_forall (k : Kernel) (s : List Nat)
    (h : ∀ p ∈ k.proc, p.chan = none ∧ p.state ≠ SLEEPING) : ChanOk k s :=
  fun _ p hp => ⟨fun e => absurd e (h p (List.getElem?_mem hp)).2,
    fun e => absurd (h p (List.getElem?_mem hp)).1 e⟩

theorem chanStep_inv (k : Kernel) (s : List Nat) (k' : Kernel) (s' : List Nat)
    (h : ChanStep k s k' s') (hinv : ChanOk k s) : ChanOk k' s' := by
  cases h with
  | sleep self chan _ _ hc => exact chanOk_sleep k s self chan hinv hc
  | sleep_return self hrun _ => exact chanOk_sleep_return k s self hinv hrun
  | wakeup self chan => exact chanOk_wakeup_ptr k s self chan hinv
  | kill pid => exact chanOk_kill k s pid hinv
  | yield self _ _ =>
    exact chanOk_modify k s s self _ hinv
      (fun p hp => chanOk_runnable s self p (hinv self p hp)) (fun _ _ hj => hj)
  | exit self status _ hrun hns hex => exact chanOk_exit k s self status k' hinv hrun hns hex
  | schedule => exact chanOk_schedule k s hinv

/-- The condition on the channel of `sleep` is needed: called with a null channel,
`sleep` leaves its caller SLEEPING with a null `chan`. -/
theorem sleep_null_channel :
    ∃ p, slotAt (sleep_ptr runC1 0 none).proc 0 = some p ∧ p.state = SLEEPING ∧
      p.chan = none :=
  ⟨_, rfl, rfl, rfl⟩

/-- C19 (amended). Through `sleep` on a non-null channel, `wakeup`, `kill`, `yield`,
`exit` and the rounds of the scheduler, starting from a state where it holds (the
state after boot is one), every slot satisfies: state SLEEPING implies `chan` is not
null; `chan` not null implies the state is SLEEPING, RUNNABLE or RUNNING and the
process of the slot is inside `sleep`, which has not yet reached its `p->chan = 0`.
A slot that is UNUSED, USED or ZOMBIE has a null `chan`, and so has a RUNNING slot
whose process is outside `sleep`. -/
theorem channel_invariant (k0 : Kernel) (s0 : List Nat) (k : Kernel) (s : List Nat)
    (h0 : ChanOk k0 s0) (h : ChanReachable k0 s0 k s) :
    ∀ i p, slotAt k.proc i = some p →
      (p.state = SLEEPING → p.chan ≠ none) ∧
      (p.chan ≠ none → p.state = SLEEPING ∨ p.state = RUNNABLE ∨ p.state = RUNNING) ∧
      (p.chan ≠ none → i ∈ s) ∧
      ((p.state = UNUSED ∨ p.state = USED ∨ p.state = ZOMBIE) → p.chan = none) ∧
      (p.state = RUNNING → i ∉ s → p.chan = none) := by
  have hk : ChanOk k s := by
    induction h with
    | start => exact h0
    | step k s k' s' _ hstep ih => exact chanStep_inv k s k' s' hstep ih
  intro i p hp
  obtain ⟨h1, h2⟩ := hk i p hp
  refine ⟨h1, fun hc => (h2 hc).2, fun hc => (h2 hc).1, ?_, ?_⟩
  · intro hs
    by_contra hc
    rcases (h2 hc).2 with e | e | e <;> rcases hs with u | u | u <;> rw [e] at u <;> cases u
  · intro _ hns
    by_contra hc
    exact hns (h2 hc).1

theorem runC_reachable : ChanReachable runA1 [] runC3 [0] :=
  ChanReachable.step _ _ _ _
    (ChanReachable.step _ _ _ _
      (ChanReachable.step _ _ _ _ ChanReachable.start (ChanStep.schedule runA1 []))
      (ChanStep.sleep runC1 [] 0 (some (Chan.addr 1)) ⟨_, rfl, rfl⟩ (by decide) (by decide)))
    (ChanStep.wakeup runC2 [0] none (some (Chan.addr 1)))

/-- The C19 theorem on the run where `init` is scheduled, sleeps, is woken by a timer
interrupt, is scheduled again and leaves `sleep`. When it is scheduled again, slot 0
is RUNNING inside `sleep` with its channel still set, and the free slot 1 has none;
once it has left `sleep`, slot 0 is RUNNING with a null `chan`. -/
theorem channel_invariant_witness :
    ChanOk runA1 [] ∧ ChanReachable runA1 [] runC4 [0] ∧
    (∃ p, slotAt runC4.proc 0 = some p ∧ p.state = RUNNING ∧ p.chan ≠ none ∧ 0 ∈ [0]) ∧
    (∃ p, slotAt runC4.proc 1 = some p ∧ p.state = UNUSED ∧ p.chan = none) ∧
    ChanReachable runA1 [] runC5 [] ∧
    (∃ p, slotAt runC5.proc 0 = some p ∧ p.state = RUNNING ∧ p.chan = none) :=
  have h0 : ChanOk runA1 [] := chanOk_of_forall runA1 [] (by decide)
  have r4 : ChanReachable runA1 [] runC4 [0] :=
    ChanReachable.step _ _ _ _ runC_reachable (ChanStep.schedule runC3 [0])
  have r5 : ChanReachable runA1 [] runC5 [] :=
    ChanReachable.step _ _ _ _ r4 (ChanStep.sleep_return runC4 [0] 0 ⟨_, rfl, rfl⟩ (by decide))
  have h4 := channel_invariant runA1 [] runC4 [0] h0 r4
  have h5 := channel_invariant runA1 [] runC5 [] h0 r5
  ⟨h0, r4,
    ⟨_, rfl, rfl, by decide, (h4 0 _ rfl).2.2.1 (by decide)⟩,
    ⟨_, rfl, rfl, (h4 1 _ rfl).2.2.2.1 (Or.inl rfl)⟩,
    r5,
    ⟨_, rfl, rfl, (h5 0 _ rfl).2.2.2.2 rfl (by decide)⟩⟩

/-- C19 as stated fails on a run from boot. In the state after boot every slot
satisfies I4. The scheduler runs `init`, `init` sleeps on a channel, and a timer
interrupt calls `wakeup` on it: slot 0 is then RUNNABLE, not SLEEPING, and its
`chan` is still set. The scheduler runs `init` again: slot 0 is RUNNING and its
`chan` is still set, until `sleep` clears it. -/
theorem channel_i4_counterexample :
    userinit (boot (fun i => i) 3) (envOk 100) 1 = some runA1 ∧
    (∀ p ∈ runA1.proc, chanI4 p) ∧
    ChanReachable runA1 [] runC3 [0] ∧
    (∃ p, slotAt runC3.proc 0 = some p ∧ p.state = RUNNABLE ∧ p.chan ≠ none) ∧
    ¬ (∀ p ∈ runC3.proc, chanI4 p) ∧
    ChanReachable runA1 [] runC4 [0] ∧
    (∃ p, slotAt runC4.proc 0 = some p ∧ p.state = RUNNING ∧ p.chan ≠ none) ∧
    ¬ (∀ p ∈ runC4.proc, chanI4 p) :=
  ⟨by decide, by decide, runC_reachable, ⟨_, rfl, rfl, by decide⟩, by decide,
    ChanReachable.step _ _ _ _ runC_reachable (ChanStep.schedule runC3 [0]),
    ⟨_, rfl, rfl, by decide⟩, by decide⟩

/-! ## The slot locks of the selection scans -/

theorem acquire_heldOf (sel : Option Nat) (i : Nat) (h : ∀ e, sel = some e → e < i) :
    acquire (heldOf sel) i = some (i :: heldOf sel) := by
  cases sel with
  | none => simp [acquire, heldOf]
  | some e =>
    have he : e < i := h e rfl
    have hne : i ≠ e := by omega
    simp [acquire, heldOf, hne]

theorem release_head (held : List Nat) (i : Nat) : release (i :: held) i = some held := by
  simp [release]

theorem release_second (i e : Nat) (h : e < i) : release [i, e] e = some [i] := by
  have hne : i ≠ e := by omega
  have hne2 : ¬ (i == e) = true := by simpa using hne
  simp [release, List.erase_cons, hne2]

theorem fcfs_loop_locks_eq (t : List Proc) :
    ∀ (rest : List Proc) (i : Nat) (earliest : Option Nat),
      (∀ e, earliest = some e → e < i) →
      fcfs_loop_locks t rest i earliest (heldOf earliest) =
        some (fcfs_loop t rest i earliest, heldOf (fcfs_loop t rest i earliest)) := by
  intro rest
  induction rest with
  | nil => intro i earliest _; simp [fcfs_loop_locks, fcfs_loop]
  | cons p rest ih =>
    intro i earliest h
    have hnew : ∀ e, some i = some e → e < i + 1 := by
      intro e he
      cases he
      omega
    have hold : ∀ e, earliest = some e → e < i + 1 := by
      intro e he
      have := h e he
      omega
    rw [fcfs_loop_locks, acquire_heldOf earliest i h]
    by_cases hr : p.state = RUNNABLE
    · cases earliest with
      | none =>
        simp only [hr, if_true, fcfs_loop]
        exact ih (i + 1) (some i) hnew
      | some e =>
        have he : e < i := h e rfl
        by_cases hp : p.pid < pidAt t e
        · simp only [hr, hp, if_true, fcfs_loop, heldOf, release_second i e he]
          exact ih (i + 1) (some i) hnew
        · simp only [hr, hp, if_true, if_false, fcfs_loop, heldOf, release_head]
          exact ih (i + 1) (some e) hold
    · simp only [hr, if_false, fcfs_loop, release_head]
      exact ih (i + 1) earliest hold

theorem mlfq_level_scan_locks_eq (level : Int) :
    ∀ (rest : List Proc) (i : Nat),
      mlfq_level_scan_locks level rest i [] =
        some (mlfq_level_scan level rest i, heldOf (mlfq_level_scan level rest i)) := by
  intro rest
  induction rest with
  | nil => intro i; simp [mlfq_level_scan_locks, mlfq_level_scan, heldOf]
  | cons p rest ih =>
    intro i
    have hacq : acquire [] i = some [i] := by simp [acquire]
    rw [mlfq_level_scan_locks, hacq]
    by_cases hc : p.state = RUNNABLE ∧ p.level = level
    · simp only [hc, and_self, if_true, mlfq_level_scan, heldOf]
    · simp only [hc, if_false, mlfq_level_scan, release_head]
      exact ih (i + 1)

theorem mlfq_rr_locks_eq (t : List Proc) :
    mlfq_rr_locks t [] = some (mlfq_rr t, heldOf (mlfq_rr t)) := by
  unfold mlfq_rr_locks mlfq_rr
  rw [mlfq_level_scan_locks_eq 0 t 0]
  cases h0 : mlfq_level_scan 0 t 0 with
  | some i => simp [heldOf]
  | none =>
    simp only [heldOf]
    exact mlfq_level_scan_locks_eq 1 t 0

theorem mlfq_l2_loop_locks_eq :
    ∀ (rest : List Proc) (i : Nat) (selected : Option Nat) (priority : Int),
      (∀ e, selected = some e → e < i) →
      mlfq_l2_loop_locks rest i selected priority (heldOf selected) =
        some (mlfq_l2_loop rest i selected priority,
          heldOf (mlfq_l2_loop rest i selected priority)) := by
  intro rest
  induction rest with
  | nil => intro i selected priority _; simp [mlfq_l2_loop_locks, mlfq_l2_loop]
  | cons p rest ih =>
    intro i selected priority h
    have hnew : ∀ e, some i = some e → e < i + 1 := by
      intro e he
      cases he
      omega
    have hold : ∀ e, selected = some e → e < i + 1 := by
      intro e he
      have := h e he
      omega
    rw [mlfq_l2_loop_locks, acquire_heldOf selected i h]
    by_cases hc : p.state = RUNNABLE ∧ p.level = 2
    · by_cases hs : selected = none ∨ p.priority > priority
      · cases selected with
        | none =>
          simp only [hc, hs, and_self, if_true, mlfq_l2_loop]
          exact ih (i + 1) (some i) p.priority hnew
        | some e =>
          have he : e < i := h e rfl
          simp only [hc, hs, and_self, if_true, mlfq_l2_loop, heldOf, release_second i e he]
          exact ih (i + 1) (some i) p.priority hnew
      · simp only [hc, hs, and_self, if_true, if_false, mlfq_l2_loop, release_head]
        exact ih (i + 1) selected priority hold
    · simp only [hc, if_false, mlfq_l2_loop, release_head]
      exact ih (i + 1) selected priority hold

theorem mlfq_select_locks_eq (t : List Proc) :
    mlfq_select_locks t [] = some (mlfq_select t, heldOf (mlfq_select t)) := by
  unfold mlfq_select_locks mlfq_select
  rw [mlfq_rr_locks_eq t]
  cases h0 : mlfq_rr t with
  | some i => simp [heldOf]
  | none =>
    simp only [heldOf]
    exact mlfq_l2_loop_locks_eq t 0 none (-1) (fun e he => by cases he)

theorem scheduler_select_locks_eq (k : Kernel) :
    scheduler_select_locks k = some (scheduler_select k, heldOf (scheduler_select k)) := by
  unfold scheduler_select_locks scheduler_select
  by_cases hm : k.scheduling_mode = 0
  · simp only [hm, if_true, fcfs_select]
    exact fcfs_loop_locks_eq k.proc k.proc 0 none (fun e he => by cases he)
  · simp only [hm, if_false]
    exact mlfq_select_locks_eq k.proc

/-- C22: started with no slot lock held, the selection scan of `scheduler`, in the
FCFS mode as in the MLFQ mode, makes no failing lock call, selects the slot the scan
without locks selects, and ends holding the lock of the selected slot and no other,
or no slot lock at all when it selects nothing: every lock taken on a skipped or
superseded candidate has been released. -/
theorem selection_lock_discipline (k : Kernel) :
    scheduler_select_locks k = some (scheduler_select k, heldOf (scheduler_select k)) ∧
    (∀ i held, scheduler_select_locks k = some (some i, held) → held = [i]) ∧
    (∀ held, scheduler_select_locks k = some (none, held) → held = []) := by
  have h := scheduler_select_locks_eq k
  refine ⟨h, ?_, ?_⟩
  · intro i held hs
    rw [h] at hs
    injection hs with hs
    injection hs with h1 h2
    rw [h1] at h2
    exact h2.symm
  · intro held hs
    rw [h] at hs
    injection hs with hs
    injection hs with h1 h2
    rw [h1] at h2
    exact h2.symm

/-! ## Work conservation of the MLFQ selection -/

/-- C23, the code on a run from boot: after the run that leaves pid 2 running at
level -1 in mode 1, pid 2 yields. The state is reachable, `scheduling_mode` is 1,
slot 1 is RUNNABLE with level -1, which is none of 0, 1, 2, and the selection scan
selects no slot although a slot of the table is RUNNABLE. -/
theorem mlfq_runnable_slot_starves :
    Reachable 3 runD1 ∧ runD1.scheduling_mode = 1 ∧
    (∃ p, slotAt runD1.proc 1 = some p ∧ p.state = RUNNABLE ∧ p.level = -1) ∧
    scheduler_select runD1 = none ∧
    ¬ (∀ p ∈ runD1.proc, p.state ≠ RUNNABLE) :=
  ⟨Reachable.step _ _ runA_reachable (Step.yield runA8 1 ⟨_, rfl, rfl⟩), by decide,
    ⟨_, rfl, rfl, rfl⟩, by decide, by decide⟩

/-! ## The killed flag of free slots -/

/-- A successful `allocproc` leaves the `killed` field of the slot it claims as it
found it: only `freeproc` writes 0 there. -/
theorem allocproc_keeps_killed (k : Kernel) (env : AllocEnv) (i : Nat) (u : Proc)
    (hfree : find_unused k.proc 0 = some i) (hk : env.kalloc ≠ 0)
    (hpt : proc_pagetable env ≠ 0) (hu : slotAt k.proc i = some u) :
    ∃ c, slotAt (allocproc k env).2.proc i = some c ∧ c.state = USED ∧
      c.killed = u.killed := by
  rw [allocproc_success k env i hfree hk hpt]
  refine ⟨{ allocproc_init k.nextpid env u with pagetable := proc_pagetable env }, ?_,
    rfl, rfl⟩
  show slotAt (List.modify _ i k.proc) i = _
  rw [slotAt_modify_eq, hu]
  rfl

/-- The function `setkilled` writes `killed` = 1 on the slot it is given, keeps the
state of that slot, and leaves the other slots alone. -/
theorem setkilled_slot (k : Kernel) (i j : Nat) :
    slotAt (setkilled k i).proc j =
      if j = i then (slotAt k.proc j).map (fun p => { p with killed := 1 })
      else slotAt k.proc j := by
  unfold setkilled
  by_cases h : j = i
  · subst h
    simp only [if_true]
    exact slotAt_modify_eq _ _ _
  · simp only [h, if_false]
    exact slotAt_modify_ne _ _ _ _ h

/-- C24, the code on two runs. On the initial table `kill(0)` returns 0 and leaves
every slot UNUSED with `killed` = 1, and the slot the next successful `allocproc`
returns is USED with `killed` = 1. With `init` running, `kill(0)` returns 0 and sets
`killed` on the free slot 1, and the child of the next `fork`, pid 2 in slot 1, is
RUNNABLE with `killed` = 1. -/
theorem kill_pid_zero_then_born_killed :
    (kill (boot (fun i => i) 3) 0).1 = 0 ∧
    (∀ p ∈ (kill (boot (fun i => i) 3) 0).2.proc, p.state = UNUSED ∧ p.killed = 1) ∧
    (allocproc (kill (boot (fun i => i) 3) 0).2 (envOk 100)).1 = some 0 ∧
    (∃ p, slotAt (allocproc (kill (boot (fun i => i) 3) 0).2 (envOk 100)).2.proc 0 = some p ∧
      p.state = USED ∧ p.killed = 1) ∧
    (kill runA2 0).1 = 0 ∧
    (∃ p, slotAt runE1.proc 1 = some p ∧ p.state = UNUSED ∧ p.killed = 1) ∧
    (fork runE1 0 (envOk 101) 0).map (fun r => r.1) = some 2 ∧
    (∃ p, slotAt runE2.proc 1 = some p ∧ p.state = RUNNABLE ∧ p.pid = 2 ∧ p.killed = 1) :=
  ⟨by decide, by decide, by decide, ⟨_, rfl, rfl, rfl⟩, by decide, ⟨_, rfl, rfl, rfl⟩,
    by decide, ⟨_, rfl, rfl, rfl, rfl⟩⟩

/-! ## The MLFQ fields under FCFS -/

/-- C21 as stated fails on the boot state: after `procinit` and `userinit` the state
is reachable, `scheduling_mode` is 0, and slot 0, which holds `init`, is RUNNABLE
with level 0, ticks_used 0 and priority 3, not the sentinel -1. -/
theorem fcfs_sentinel_counterexample :
    Reachable 3 runA1 ∧ runA1.scheduling_mode = 0 ∧
    (∃ p, slotAt runA1.proc 0 = some p ∧ p.state = RUNNABLE ∧
      p.level = 0 ∧ p.ticks_used = 0 ∧ p.priority = 3) ∧
    ¬ (∀ p ∈ runA1.proc, p.state ≠ UNUSED →
        p.level = -1 ∧ p.ticks_used = -1 ∧ p.priority = -1) :=
  ⟨Reachable.boot (fun i => i) (envOk 100) 1 runA1 (by decide), by decide,
    ⟨_, rfl, rfl, rfl, rfl, rfl⟩, by decide⟩

/-- C21, amended. The sentinel is written by `sys_fcfsmode` alone: called in a mode
other than 0 it returns 0, sets `scheduling_mode` to 0 and gives level, ticks_used
and priority -1 to every slot that is RUNNABLE or SLEEPING at the call. A slot
claimed by a successful `allocproc`, the first process set up by `userinit`, and the
child of a successful `fork` or `clone` start with level 0, ticks_used 0 and
priority 3 whatever the mode is, which these calls leave as it was. -/
theorem fcfs_sentinel_where_written (k : Kernel) (hmode : k.scheduling_mode ≠ 0)
    (ka : Kernel) (env : AllocEnv) (root self i : Nat) (uvmcopy : Int)
    (fcn arg1 arg2 stack : Nat)
    (hfree : find_unused ka.proc 0 = some i) (hk : env.kalloc ≠ 0)
    (hpt : proc_pagetable env ≠ 0) :
    ((sys_fcfsmode k).1 = 0 ∧ (sys_fcfsmode k).2.scheduling_mode = 0 ∧
      ∀ j q, slotAt k.proc j = some q → (q.state = RUNNABLE ∨ q.state = SLEEPING) →
        slotAt (sys_fcfsmode k).2.proc j =
          some { q with level := -1, ticks_used := -1, priority := -1 }) ∧
    (∃ k1 c, allocproc ka env = (some i, k1) ∧
      k1.scheduling_mode = ka.scheduling_mode ∧ slotAt k1.proc i = some c ∧
      c.state = USED ∧ c.level = 0 ∧ c.ticks_used = 0 ∧ c.priority = 3) ∧
    (∃ k1 c, userinit ka env root = some k1 ∧
      k1.scheduling_mode = ka.scheduling_mode ∧ slotAt k1.proc i = some c ∧
      c.state = RUNNABLE ∧ c.level = 0 ∧ c.ticks_used = 0 ∧ c.priority = 3) ∧
    (∀ p, slotAt ka.proc self = some p → p.state ≠ UNUSED → ¬ uvmcopy < 0 →
      (∃ k1 c, fork ka self env uvmcopy = some (ka.nextpid, k1) ∧
        k1.scheduling_mode = ka.scheduling_mode ∧ slotAt k1.proc i = some c ∧
        c.state = RUNNABLE ∧ c.level = 0 ∧ c.ticks_used = 0 ∧ c.priority = 3) ∧
      (∃ k1 c, clone ka self env uvmcopy fcn arg1 arg2 stack = some (ka.nextpid, k1) ∧
        k1.scheduling_mode = ka.scheduling_mode ∧ slotAt k1.proc i = some c ∧
        c.state = RUNNABLE ∧ c.level = 0 ∧ c.ticks_used = 0 ∧ c.priority = 3)) := by
  obtain ⟨u, hu, hus, _⟩ := find_unused_slot ka.proc i hfree
  refine ⟨?_, ?_, ?_, ?_⟩
  · simp only [sys_fcfsmode, if_neg hmode]
    refine ⟨toU64_zero.1, trivial, ?_⟩
    intro j q hq hs
    rw [slotAt_map, hq]
    simp [fcfsmode_slot, hs]
  · refine ⟨_, { allocproc_init ka.nextpid env u with pagetable := proc_pagetable env },
      allocproc_success ka env i hfree hk hpt, rfl, ?_, rfl, rfl, rfl, rfl⟩
    rw [slotAt_modify_eq, hu]
    rfl
  · simp only [userinit, allocproc_success ka env i hfree hk hpt]
    refine ⟨_, { allocproc_init ka.nextpid env u with
        pagetable := proc_pagetable env, sz := PGSIZE,
        frame := { u.frame with epc := 0, sp := PGSIZE },
        name := ['i', 'n', 'i', 't', 'c', 'o', 'd', 'e'], cwd := root,
        state := RUNNABLE }, rfl, rfl, ?_, rfl, rfl, rfl, rfl⟩
    rw [slotAt_modify_eq, slotAt_modify_eq, hu]
    rfl
  · intro p hself hlive hcopy
    have hne : self ≠ i := by
      intro h
      subst h
      rw [hself] at hu
      cases hu
      exact hlive hus
    have hselfk1 : slotAt (ka.proc.modify
        (fun p => { allocproc_init ka.nextpid env p with pagetable := proc_pagetable env }) i)
        self = some p := by
      rw [slotAt_modify_ne _ _ _ _ hne, hself]
    have hpid : pidAt (ka.proc.modify
        (fun p => { allocproc_init ka.nextpid env p with pagetable := proc_pagetable env }) i) i
        = ka.nextpid := by
      simp [pidAt, slotAt_modify_eq, hu, allocproc_init]
    constructor
    · simp only [fork, allocproc_success ka env i hfree hk hpt, hselfk1, if_neg hcopy, hpid]
      refine ⟨_, { allocproc_init ka.nextpid env u with
          pagetable := proc_pagetable env, sz := p.sz,
          frame := { p.frame with a0 := 0 },
          ofile := dup_files p.ofile u.ofile, cwd := p.cwd, name := p.name,
          parent := some self, state := RUNNABLE }, rfl, rfl, ?_, rfl, rfl, rfl, rfl⟩
      rw [slotAt_modify_eq, slotAt_modify_eq, hu]
      rfl
    · simp only [clone, allocproc_success ka env i hfree hk hpt, hselfk1, if_neg hcopy, hpid]
      refine ⟨_, { allocproc_init ka.nextpid env u with
          pagetable := proc_pagetable env, sz := p.sz, user_stack := stack,
          frame := { p.frame with epc := fcn, sp := (stack + PGSIZE) % 2 ^ 64,
                                  a0 := arg1, a1 := arg2 },
          ofile := dup_files p.ofile u.ofile, cwd := p.cwd, state := RUNNABLE,
          name := p.name, parent := some self }, rfl, rfl, ?_, rfl, rfl, rfl, rfl⟩
      rw [slotAt_modify_eq, slotAt_modify_eq, hu]
      rfl

/-- The amended C21 theorem on the sample run. In mode 1 with pid 2 RUNNABLE in
slot 1, `sys_fcfsmode` gives slot 1 the sentinel; at boot, in mode 0, `userinit`
leaves `init` in slot 0 with level 0, ticks_used 0, priority 3; with `init` running
in mode 0, the children of `fork` and of `clone` in slot 1 get the same values. -/
theorem fcfs_sentinel_where_written_witness :
    (runA4.scheduling_mode ≠ 0 ∧ find_unused runA2.proc 0 = some 1 ∧
      find_unused (boot (fun i => i) 3).proc 0 = some 0 ∧ runA2.scheduling_mode = 0 ∧
      (boot (fun i => i) 3).scheduling_mode = 0) ∧
    ((sys_fcfsmode runA4).2.scheduling_mode = 0 ∧
      ∃ q, slotAt runA4.proc 1 = some q ∧ q.state = RUNNABLE ∧
        slotAt (sys_fcfsmode runA4).2.proc 1 =
          some { q with level := -1, ticks_used := -1, priority := -1 }) ∧
    (∃ k1 c, userinit (boot (fun i => i) 3) (envOk 100) 1 = some k1 ∧
      k1.scheduling_mode = (boot (fun i => i) 3).scheduling_mode ∧
      slotAt k1.proc 0 = some c ∧
      c.state = RUNNABLE ∧ c.level = 0 ∧ c.ticks_used = 0 ∧ c.priority = 3) ∧
    (∃ k1 c, fork runA2 0 (envOk 101) 0 = some (runA2.nextpid, k1) ∧
      k1.scheduling_mode = runA2.scheduling_mode ∧ slotAt k1.proc 1 = some c ∧
      c.state = RUNNABLE ∧ c.level = 0 ∧ c.ticks_used = 0 ∧ c.priority = 3) ∧
    (∃ k1 c, clone runA2 0 (envOk 101) 0 64 1 2 8192 = some (runA2.nextpid, k1) ∧
      k1.scheduling_mode = runA2.scheduling_mode ∧ slotAt k1.proc 1 = some c ∧
      c.state = RUNNABLE ∧ c.level = 0 ∧ c.ticks_used = 0 ∧ c.priority = 3) :=
  have ha := fcfs_sentinel_where_written runA4 (by decide) runA2 (envOk 101) 1 0 1 0
    64 1 2 8192 (by decide) (by decide) (by decide)
  have hb := fcfs_sentinel_where_written runA4 (by decide) (boot (fun i => i) 3)
    (envOk 100) 1 0 0 0 64 1 2 8192 (by decide) (by decide) (by decide)
  ⟨⟨by decide, by decide, by decide, by decide, by decide⟩,
    ⟨ha.1.2.1, _, rfl, rfl, ha.1.2.2 1 _ rfl (Or.inl rfl)⟩,
    hb.2.2.1,
    (ha.2.2.2 _ rfl (by decide) (by decide)).1,
    (ha.2.2.2 _ rfl (by decide) (by decide)).2⟩

end Xv6
